import Mathlib

/-!
# xcomsave: the low-level buffer codec (`xcomio.cpp`)

A shallow embedding of `xcom::xcom_io`, the byte cursor and primitive codec of
the XCOM save-game reader, together with theorems about its string and
primitive operations.

## Modelling conventions

* The buffer `start_` is a list of bytes; `length_` is its length and `ptr_`
  is kept as the offset `ptr_ - start_.get()` (what `offset()` returns).
* An operation yields an `outcome`: it returns a value and the new state, it
  throws `format_exception`, or it touches memory outside the buffer (or
  moves the pointer before the start of the buffer), which C++ leaves
  undefined.
* `int32_t` values are integers in `[-2^31, 2^31)`; 32-bit signed arithmetic
  wraps (two's complement) and `size_t` arithmetic is taken modulo `2^64`.
  Multi-byte values are little-endian, the byte order of the hosts the
  program was written for.
* The transcoding helpers of `util.h` are not part of the two source files;
  the operations take them as the parameter `u : util`.
* The reads exist a second time, in `xcom_io.mem`, with the memory that
  follows the buffer as the parameter `beyond`: there a read that runs off
  the buffer returns what it finds, as the unchecked pointer accesses of the
  source do. With `beyond = []` they are the reads of the buffer alone.
-/

namespace xcom

/-- An `unsigned char`. -/
abbrev uchar := Fin 256

/-- A `char16_t` code unit. -/
abbrev char16 := Fin 65536

/-- One past the largest `size_t`. -/
def size_modulus : Nat := 2 ^ 64

/-- Conversion of an integer to `int32_t` (two's complement wrap-around). -/
def wrap32 (v : Int) : Int := (v + 2147483648) % 4294967296 - 2147483648

/-- The conversion `static_cast<size_t>(v)`. -/
def to_size_t (v : Int) : Nat := (v % (size_modulus : Int)).toNat

/-- The `int32_t` stored in four little-endian bytes. -/
def int32_of_bytes (b0 b1 b2 b3 : uchar) : Int :=
  wrap32 ((b0.val + 256 * b1.val + 65536 * b2.val + 16777216 * b3.val : Nat) : Int)

/-- The 32-bit pattern stored in four little-endian bytes. -/
def uint32_of_bytes (b0 b1 b2 b3 : uchar) : Nat :=
  b0.val + 256 * b1.val + 65536 * b2.val + 16777216 * b3.val

/-- The four little-endian bytes of the low 32 bits of `v`. -/
def bytes_of_int32 (v : Int) : List uchar :=
  let w := (v % 4294967296).toNat
  [Fin.ofNat w, Fin.ofNat (w / 256), Fin.ofNat (w / 65536), Fin.ofNat (w / 16777216)]

/-- The two little-endian bytes of a `char16_t`. -/
def bytes_of_char16 (c : char16) : List uchar :=
  [Fin.ofNat c.val, Fin.ofNat (c.val / 256)]

/-- The bytes of a `char16_t` array (what `memcpy` copies from `c_str()`). -/
def bytes_of_u16string (s : List char16) : List uchar :=
  s.flatMap bytes_of_char16

/-- The value `xcom_string` of `xcom.h`: UTF-8 text and the encoding it had
in the file. -/
structure xcom_string where
  str : List uchar
  is_wide : Bool
deriving DecidableEq, Repr

/-- The state of an `xcom_io`: the buffer and the cursor. -/
structure xcom_io where
  start_ : List uchar
  ptr_ : Nat
deriving DecidableEq, Repr

/-- The field `length_`: the size of the buffer. -/
def xcom_io.length_ (io : xcom_io) : Nat := io.start_.length

/-- The method `offset()`: the distance of the cursor from the start. -/
def xcom_io.offset (io : xcom_io) : Nat := io.ptr_

/-- The memory readable through `ptr_`: the bytes from the cursor to the end
of the buffer. -/
def xcom_io.at_ptr (io : xcom_io) : List uchar := io.start_.drop io.ptr_

/-- What a call does: return normally, throw `format_exception(offset, ...)`,
or run into undefined behaviour (an access outside the buffer). -/
inductive outcome (α : Type) where
  | ok (val : α) (io : xcom_io)
  | format_exception (offset : Nat)
  | undefined
deriving DecidableEq, Repr

/-- The transcoding helpers of `util.h` that `xcomio.cpp` calls. -/
structure util where
  utf16_to_utf8 : List char16 → List uchar
  utf8_to_utf16 : List uchar → List char16
  iso8859_1_to_utf8 : List uchar → List uchar
  utf8_to_iso8859_1 : List uchar → List uchar

/-- Modelled from the spec: the UTF-8 encoding of one code point, the
building block of the transcoders of `util.cpp`, which is not among the
sources. The spec only names the encodings (Latin-1, UTF-16, UTF-8). -/
def utf8_encode (cp : Nat) : List uchar :=
  if cp < 0x80 then [Fin.ofNat cp]
  else if cp < 0x800 then [Fin.ofNat (0xC0 + cp / 64), Fin.ofNat (0x80 + cp % 64)]
  else if cp < 0x10000 then
    [Fin.ofNat (0xE0 + cp / 4096), Fin.ofNat (0x80 + cp / 64 % 64), Fin.ofNat (0x80 + cp % 64)]
  else
    [Fin.ofNat (0xF0 + cp / 262144), Fin.ofNat (0x80 + cp / 4096 % 64),
     Fin.ofNat (0x80 + cp / 64 % 64), Fin.ofNat (0x80 + cp % 64)]

/-- Modelled from the spec: the UTF-16 encoding of one code point (a
surrogate pair above the basic plane); see `utf8_encode`. -/
def utf16_encode (cp : Nat) : List char16 :=
  if cp < 0x10000 then [Fin.ofNat cp]
  else [Fin.ofNat (0xD800 + (cp - 0x10000) / 1024), Fin.ofNat (0xDC00 + (cp - 0x10000) % 1024)]

/-- Modelled from the spec: `util::utf16_to_utf8` of `util.cpp`, which is not
among the sources: UTF-16 code units to UTF-8 bytes, a surrogate pair
giving one four-byte sequence. -/
def reference_utf16_to_utf8 : List char16 → List uchar
  | [] => []
  | [c] => utf8_encode c.val
  | hi :: lo :: rest =>
    if 0xD800 ≤ hi.val ∧ hi.val < 0xDC00 ∧ 0xDC00 ≤ lo.val ∧ lo.val < 0xE000 then
      utf8_encode (0x10000 + (hi.val - 0xD800) * 1024 + (lo.val - 0xDC00)) ++
        reference_utf16_to_utf8 rest
    else utf8_encode hi.val ++ reference_utf16_to_utf8 (lo :: rest)

/-- Modelled from the spec: `util::utf8_to_utf16` of `util.cpp`, which is not
among the sources: UTF-8 bytes to UTF-16 code units; a byte that starts no
sequence becomes U+FFFD. -/
def reference_utf8_to_utf16 : List uchar → List char16
  | [] => []
  | b0 :: rest =>
    if b0.val < 0x80 then (Fin.ofNat b0.val : char16) :: reference_utf8_to_utf16 rest
    else if b0.val < 0xC0 then (0xFFFD : char16) :: reference_utf8_to_utf16 rest
    else
      match rest with
      | [] => [0xFFFD]
      | b1 :: r1 =>
        if b0.val < 0xE0 then
          utf16_encode ((b0.val - 0xC0) * 64 + b1.val % 64) ++ reference_utf8_to_utf16 r1
        else
          match r1 with
          | [] => [0xFFFD]
          | b2 :: r2 =>
            if b0.val < 0xF0 then
              utf16_encode ((b0.val - 0xE0) * 4096 + b1.val % 64 * 64 + b2.val % 64) ++
                reference_utf8_to_utf16 r2
            else
              match r2 with
              | [] => [0xFFFD]
              | b3 :: r3 =>
                utf16_encode ((b0.val - 0xF0) % 8 * 262144 + b1.val % 64 * 4096 +
                    b2.val % 64 * 64 + b3.val % 64) ++
                  reference_utf8_to_utf16 r3

/-- Modelled from the spec: `util::iso8859_1_to_utf8` of `util.cpp`, which is
not among the sources: every Latin-1 byte is the code point of that
number. -/
def reference_iso8859_1_to_utf8 (s : List uchar) : List uchar :=
  s.flatMap (fun b => utf8_encode b.val)

/-- Modelled from the spec: `util::utf8_to_iso8859_1` of `util.cpp`, which is
not among the sources: UTF-8 bytes to Latin-1, a code point above U+00FF
becoming `?`. -/
def reference_utf8_to_iso8859_1 : List uchar → List uchar
  | [] => []
  | b0 :: rest =>
    if b0.val < 0x80 then b0 :: reference_utf8_to_iso8859_1 rest
    else
      match rest with
      | [] => [0x3F]
      | b1 :: r1 =>
        (if 0xC0 ≤ b0.val ∧ b0.val < 0xC4 then
            (Fin.ofNat ((b0.val - 0xC0) * 64 + b1.val % 64) : uchar)
          else 0x3F) :: reference_utf8_to_iso8859_1 r1

/-- Modelled from the spec: the four transcoders of `util.cpp` in their
standard reading, used where a theorem needs concrete helpers. -/
def util.reference : util where
  utf16_to_utf8 := reference_utf16_to_utf8
  utf8_to_utf16 := reference_utf8_to_utf16
  iso8859_1_to_utf8 := reference_iso8859_1_to_utf8
  utf8_to_iso8859_1 := reference_utf8_to_iso8859_1

/-- Modelled from the spec: one byte of the checksum of `util::crc32b`, which
is not among the sources: the reflected CRC-32 with the polynomial
`0xEDB88320`, bit by bit. -/
def crc32b_byte (crc : Nat) (b : uchar) : Nat :=
  (List.range 8).foldl
    (fun c _ => if c % 2 = 1 then (c / 2) ^^^ 0xEDB88320 else c / 2) (crc ^^^ b.val)

/-- Modelled from the spec: `util::crc32b` of `util.cpp`, which is not among
the sources: the CRC-32 (b-variant, polynomial `0xEDB88320` reflected) of a
byte sequence. -/
def reference_crc32b (bs : List uchar) : Nat :=
  (bs.foldl crc32b_byte 0xFFFFFFFF) ^^^ 0xFFFFFFFF

/-- The content of a fresh allocation used in examples: all zero. -/
def zero_fill : Nat → uchar := fun _ => 0

/-- The enumeration `seek_kind`. -/
inductive seek_kind where
  | start
  | current
  | end_
deriving DecidableEq, Repr

/-- The NUL-terminated byte string a `const char *` points to: the bytes
before the first zero byte, or `none` when the scan runs off the buffer. -/
def c_string : List uchar → Option (List uchar)
  | [] => none
  | b :: rest => if b = 0 then some [] else (c_string rest).map (fun s => b :: s)

/-- The NUL-terminated string a `const char16_t *` points to: the code units
before the first zero code unit, or `none` when the scan runs off the
buffer. -/
def c_u16string : List uchar → Option (List char16)
  | [] => none
  | lo :: rest =>
    match rest with
    | [] => none
    | hi :: rest2 =>
      if lo = 0 ∧ hi = 0 then some []
      else (c_u16string rest2).map
        (fun s => (Fin.ofNat (lo.val + 256 * hi.val) : char16) :: s)

/-- The function `memcpy(start + p, bs, bs.length)` into the buffer `mem`,
or `none` when the destination is not inside it. -/
def store (mem : List uchar) (p : Nat) (bs : List uchar) : Option (List uchar) :=
  if p + bs.length ≤ mem.length then
    some (mem.take p ++ bs ++ mem.drop (p + bs.length))
  else none

namespace xcom_io

/-- The method `xcom_io::seek`: the cursor is set without any check against
the buffer. The parameter `offset` is a `size_t`: from the start the cursor
is `offset` itself; from the current position and from the end it is added
to a pointer inside the buffer, and that sum wraps around at `2^64`. -/
def seek (io : xcom_io) (k : seek_kind) (offset : Nat) : xcom_io :=
  match k with
  | seek_kind.start => { io with ptr_ := offset }
  | seek_kind.current => { io with ptr_ := (io.ptr_ + offset) % size_modulus }
  | seek_kind.end_ => { io with ptr_ := (io.length_ + offset) % size_modulus }

/-- The method `xcom_io::read_int`: the four bytes at the cursor, read without
a bounds check. -/
def read_int (io : xcom_io) : outcome Int :=
  match io.at_ptr with
  | b0 :: b1 :: b2 :: b3 :: _ =>
    outcome.ok (int32_of_bytes b0 b1 b2 b3) { io with ptr_ := io.ptr_ + 4 }
  | _ => outcome.undefined

/-- The method `xcom_io::read_float`; the value is kept as its 32-bit
pattern. -/
def read_float (io : xcom_io) : outcome Nat :=
  match io.at_ptr with
  | b0 :: b1 :: b2 :: b3 :: _ =>
    outcome.ok (uint32_of_bytes b0 b1 b2 b3) { io with ptr_ := io.ptr_ + 4 }
  | _ => outcome.undefined

/-- The method `xcom_io::read_bool`. -/
def read_bool (io : xcom_io) : outcome Bool :=
  match read_int io with
  | outcome.ok v io1 => outcome.ok (v != 0) io1
  | outcome.format_exception off => outcome.format_exception off
  | outcome.undefined => outcome.undefined

/-- The method `xcom_io::read_byte`. -/
def read_byte (io : xcom_io) : outcome uchar :=
  match io.at_ptr with
  | b :: _ => outcome.ok b { io with ptr_ := io.ptr_ + 1 }
  | [] => outcome.undefined

/-- The method `xcom_io::read_unicode_string`. The helpers receive the bare
pointer `str`, so the string they convert is the NUL-terminated one found
there. -/
def read_unicode_string (u : util) (throw_on_error : Bool) (io : xcom_io) :
    outcome xcom_string :=
  match read_int io with
  | outcome.format_exception off => outcome.format_exception off
  | outcome.undefined => outcome.undefined
  | outcome.ok length io1 =>
    if length = 0 then outcome.ok ⟨[], false⟩ io1
    else if length < 0 then
      -- A UTF-16 encoded string.
      let length := wrap32 (-length)
      -- Sanity check
      if (io1.offset + to_size_t length) % size_modulus > io1.length_ then
        if throw_on_error then outcome.format_exception io1.offset
        else outcome.ok ⟨[], false⟩ io1
      else
        let str := io1.at_ptr
        let new_ptr : Int := (io1.ptr_ : Int) + wrap32 (2 * length)
        if new_ptr < 0 then outcome.undefined
        else
          match c_u16string str with
          | none => outcome.undefined
          | some s =>
            outcome.ok ⟨u.utf16_to_utf8 s, true⟩ { io1 with ptr_ := new_ptr.toNat }
    else
      -- Sanity check
      if (io1.offset + to_size_t length) % size_modulus > io1.length_ then
        if throw_on_error then outcome.format_exception io1.offset
        else outcome.ok ⟨[], false⟩ io1
      else
        let str := io1.at_ptr
        match c_string str with
        | none => outcome.undefined
        | some s =>
          let actual_length := s.length
          if (actual_length : Int) ≠ length - 1 then
            if throw_on_error then outcome.format_exception io1.offset
            else outcome.ok ⟨[], false⟩ io1
          else
            outcome.ok ⟨u.iso8859_1_to_utf8 s, false⟩
              { io1 with ptr_ := io1.ptr_ + length.toNat }

/-- The method `xcom_io::read_string`. The default value of `throw_on_error` is declared
in `xcomio.h`, which is not among the sources: it is the parameter
`dflt`. -/
def read_string (u : util) (dflt : Bool) (io : xcom_io) : outcome (List uchar) :=
  match read_unicode_string u dflt io with
  | outcome.ok s io1 =>
    if s.is_wide then outcome.format_exception io1.offset
    else outcome.ok s.str io1
  | outcome.format_exception off => outcome.format_exception off
  | outcome.undefined => outcome.undefined

/-- The method `xcom_io::read_raw_bytes(count, outp)`; the bytes copied to `outp` are the
value. -/
def read_raw_bytes (io : xcom_io) (count : Nat) : outcome (List uchar) :=
  if count ≤ io.at_ptr.length then
    outcome.ok (io.at_ptr.take count) { io with ptr_ := io.ptr_ + count }
  else outcome.undefined

/-- The method `xcom_io::ensure`. The array `new unsigned char[new_length]` is not
initialised: `fresh i` is the byte it happens to hold at index `i`. -/
def ensure (fresh : Nat → uchar) (io : xcom_io) (count : Nat) : outcome Unit :=
  let current_count := io.offset
  if (current_count + count) % size_modulus > io.length_ then
    let new_length := (io.length_ * 2) % size_modulus
    if current_count ≤ io.length_ ∧ current_count ≤ new_length then
      outcome.ok ()
        { start_ := io.start_.take current_count ++
            (List.range (new_length - current_count)).map
              (fun i => fresh (current_count + i)),
          ptr_ := current_count }
    else outcome.undefined
  else outcome.ok () io

/-- The stores `memcpy(ptr_, bs, n); ptr_ += n` shared by the writers. -/
def put (io : xcom_io) (bs : List uchar) : outcome Unit :=
  match store io.start_ io.ptr_ bs with
  | some mem => outcome.ok () { start_ := mem, ptr_ := io.ptr_ + bs.length }
  | none => outcome.undefined

/-- The method `xcom_io::write_int`. -/
def write_int (fresh : Nat → uchar) (io : xcom_io) (val : Int) : outcome Unit :=
  match ensure fresh io 4 with
  | outcome.ok _ io1 => put io1 (bytes_of_int32 val)
  | outcome.format_exception off => outcome.format_exception off
  | outcome.undefined => outcome.undefined

/-- The method `xcom_io::write_unicode_string`. -/
def write_unicode_string (u : util) (fresh : Nat → uchar) (io : xcom_io)
    (s : xcom_string) : outcome Unit :=
  if s.str.isEmpty then
    -- An empty string is just written as size 0
    write_int fresh io 0
  else if s.is_wide then
    let conv16 := u.utf8_to_utf16 s.str
    match ensure fresh io (conv16.length * 2 + 6) with
    | outcome.format_exception off => outcome.format_exception off
    | outcome.undefined => outcome.undefined
    | outcome.ok _ io1 =>
      -- the length as a negative value, including the terminating null
      match write_int fresh io1
          (wrap32 ((((conv16.length + 1) * (size_modulus - 1)) % size_modulus : Nat) : Int)) with
      | outcome.format_exception off => outcome.format_exception off
      | outcome.undefined => outcome.undefined
      | outcome.ok _ io2 =>
        match put io2 (bytes_of_u16string conv16) with
        | outcome.format_exception off => outcome.format_exception off
        | outcome.undefined => outcome.undefined
        | outcome.ok _ io3 => put io3 [0, 0]
  else
    let conv := u.utf8_to_iso8859_1 s.str
    match ensure fresh io (conv.length + 5) with
    | outcome.format_exception off => outcome.format_exception off
    | outcome.undefined => outcome.undefined
    | outcome.ok _ io1 =>
      match write_int fresh io1 (wrap32 ((conv.length + 1 : Nat) : Int)) with
      | outcome.format_exception off => outcome.format_exception off
      | outcome.undefined => outcome.undefined
      | outcome.ok _ io2 =>
        match put io2 conv with
        | outcome.format_exception off => outcome.format_exception off
        | outcome.undefined => outcome.undefined
        | outcome.ok _ io3 => put io3 [0]

/-- The method `xcom_io::write_string`. -/
def write_string (u : util) (fresh : Nat → uchar) (io : xcom_io)
    (str : List uchar) : outcome Unit :=
  write_unicode_string u fresh io ⟨str, false⟩

/-- The method `xcom_io::write_float`; the value is its 32-bit pattern. -/
def write_float (fresh : Nat → uchar) (io : xcom_io) (val : Nat) : outcome Unit :=
  match ensure fresh io 4 with
  | outcome.ok _ io1 => put io1 (bytes_of_int32 (val : Int))
  | outcome.format_exception off => outcome.format_exception off
  | outcome.undefined => outcome.undefined

/-- The method `xcom_io::write_bool`: the `bool` is converted to `int32_t`. -/
def write_bool (fresh : Nat → uchar) (io : xcom_io) (b : Bool) : outcome Unit :=
  write_int fresh io (if b then 1 else 0)

/-- The method `xcom_io::write_byte`. -/
def write_byte (fresh : Nat → uchar) (io : xcom_io) (c : uchar) : outcome Unit :=
  match ensure fresh io 1 with
  | outcome.ok _ io1 => put io1 [c]
  | outcome.format_exception off => outcome.format_exception off
  | outcome.undefined => outcome.undefined

/-- The method `xcom_io::write_raw(buf, len)`: `buf` is the memory readable
through the pointer, of which `len` bytes are copied. -/
def write_raw (fresh : Nat → uchar) (io : xcom_io) (buf : List uchar) (len : Nat) :
    outcome Unit :=
  match ensure fresh io len with
  | outcome.ok _ io1 =>
    if len ≤ buf.length then put io1 (buf.take len) else outcome.undefined
  | outcome.format_exception off => outcome.format_exception off
  | outcome.undefined => outcome.undefined

/-- The method `xcom_io::crc`. The helper `util::crc32b(ptr_, length)` is not
among the sources: it is the parameter `crc32b`, a function of the `length`
bytes it is handed. -/
def crc (crc32b : List uchar → Nat) (io : xcom_io) (length : Nat) : outcome Nat :=
  if length ≤ io.at_ptr.length then outcome.ok (crc32b (io.at_ptr.take length)) io
  else outcome.undefined

/-! ### Reads with the memory after the buffer

The reads above stop at the end of the buffer: an access past it has no
result there. The methods themselves only follow `ptr_`: when the bytes
`beyond` are what follows the buffer in memory, a read that runs off the
buffer reads them. The definitions of `mem` are the same methods with that
memory given; with nothing known after the buffer (`beyond = []`) they are
the definitions above. An access past `beyond` stays undefined. -/

/-- The memory readable through `ptr_` when the bytes `beyond` follow the
buffer. -/
def mem_at (io : xcom_io) (beyond : List uchar) : List uchar :=
  (io.start_ ++ beyond).drop io.ptr_

namespace mem

/-- The method `xcom_io::read_int`: the four bytes at the cursor, wherever
that is, and the cursor moved by 4. -/
def read_int (beyond : List uchar) (io : xcom_io) : outcome Int :=
  match io.mem_at beyond with
  | b0 :: b1 :: b2 :: b3 :: _ =>
    outcome.ok (int32_of_bytes b0 b1 b2 b3) { io with ptr_ := io.ptr_ + 4 }
  | _ => outcome.undefined

/-- The method `xcom_io::read_float`; the value is kept as its 32-bit
pattern. -/
def read_float (beyond : List uchar) (io : xcom_io) : outcome Nat :=
  match io.mem_at beyond with
  | b0 :: b1 :: b2 :: b3 :: _ =>
    outcome.ok (uint32_of_bytes b0 b1 b2 b3) { io with ptr_ := io.ptr_ + 4 }
  | _ => outcome.undefined

/-- The method `xcom_io::read_bool`. -/
def read_bool (beyond : List uchar) (io : xcom_io) : outcome Bool :=
  match read_int beyond io with
  | outcome.ok v io1 => outcome.ok (v != 0) io1
  | outcome.format_exception off => outcome.format_exception off
  | outcome.undefined => outcome.undefined

/-- The method `xcom_io::read_byte`. -/
def read_byte (beyond : List uchar) (io : xcom_io) : outcome uchar :=
  match io.mem_at beyond with
  | b :: _ => outcome.ok b { io with ptr_ := io.ptr_ + 1 }
  | [] => outcome.undefined

/-- The method `xcom_io::read_unicode_string`: `strlen` and the UTF-16
conversion scan the memory at `str` up to the first zero, in the buffer or
after it. -/
def read_unicode_string (beyond : List uchar) (u : util) (throw_on_error : Bool)
    (io : xcom_io) : outcome xcom_string :=
  match read_int beyond io with
  | outcome.format_exception off => outcome.format_exception off
  | outcome.undefined => outcome.undefined
  | outcome.ok length io1 =>
    if length = 0 then outcome.ok ⟨[], false⟩ io1
    else if length < 0 then
      -- A UTF-16 encoded string.
      let length := wrap32 (-length)
      -- Sanity check
      if (io1.offset + to_size_t length) % size_modulus > io1.length_ then
        if throw_on_error then outcome.format_exception io1.offset
        else outcome.ok ⟨[], false⟩ io1
      else
        let str := io1.mem_at beyond
        let new_ptr : Int := (io1.ptr_ : Int) + wrap32 (2 * length)
        if new_ptr < 0 then outcome.undefined
        else
          match c_u16string str with
          | none => outcome.undefined
          | some s =>
            outcome.ok ⟨u.utf16_to_utf8 s, true⟩ { io1 with ptr_ := new_ptr.toNat }
    else
      -- Sanity check
      if (io1.offset + to_size_t length) % size_modulus > io1.length_ then
        if throw_on_error then outcome.format_exception io1.offset
        else outcome.ok ⟨[], false⟩ io1
      else
        let str := io1.mem_at beyond
        match c_string str with
        | none => outcome.undefined
        | some s =>
          let actual_length := s.length
          if (actual_length : Int) ≠ length - 1 then
            if throw_on_error then outcome.format_exception io1.offset
            else outcome.ok ⟨[], false⟩ io1
          else
            outcome.ok ⟨u.iso8859_1_to_utf8 s, false⟩
              { io1 with ptr_ := io1.ptr_ + length.toNat }

/-- The method `xcom_io::read_string`, with the default of `throw_on_error` as the
parameter `dflt`. -/
def read_string (beyond : List uchar) (u : util) (dflt : Bool) (io : xcom_io) :
    outcome (List uchar) :=
  match read_unicode_string beyond u dflt io with
  | outcome.ok s io1 =>
    if s.is_wide then outcome.format_exception io1.offset
    else outcome.ok s.str io1
  | outcome.format_exception off => outcome.format_exception off
  | outcome.undefined => outcome.undefined

/-- The method `xcom_io::read_raw_bytes(count, outp)`; the bytes copied to `outp` are the
value. -/
def read_raw_bytes (beyond : List uchar) (io : xcom_io) (count : Nat) :
    outcome (List uchar) :=
  if count ≤ (io.mem_at beyond).length then
    outcome.ok ((io.mem_at beyond).take count) { io with ptr_ := io.ptr_ + count }
  else outcome.undefined

end mem

end xcom_io

/-! ## The JSON export (`xcom2json.cpp`) -/

/-- The bytes of a C string literal of the source (ASCII). -/
def lit (s : String) : List uchar :=
  s.toList.map (fun c => (Fin.ofNat c.toNat : uchar))

/-- The text `out << val` writes for an integer: its decimal digits, with a
minus sign when negative. -/
def int_text (v : Int) : List uchar := lit (toString v)

/-- The number a non-empty sequence of decimal digits denotes, and `none`
for any other text. -/
def digits_value (s : List uchar) : Option Nat :=
  if s ≠ [] ∧ ∀ c ∈ s, 0x30 ≤ c.val ∧ c.val ≤ 0x39 then
    some (s.foldl (fun a c => 10 * a + (c.val - 0x30)) 0)
  else none

/-- The integer a decimal numeral denotes: digits, after a minus sign for a
negative number. It says which integer a text of the output shows. -/
def decimal_value : List uchar → Option Int
  | [] => none
  | c :: cs =>
    if c = 0x2D then
      match digits_value cs with
      | some n => some (-(n : Int))
      | none => none
    else
      match digits_value (c :: cs) with
      | some n => some (n : Int)
      | none => none

/-- The text `out << val` writes for a `bool` under `boolalpha`. -/
def bool_text (b : Bool) : List uchar := if b then lit "true" else lit "false"

/-- The kind tag of a property. -/
inductive kind where
  | int_property
  | float_property
  | bool_property
  | string_property
  | object_property
  | enum_property
  | struct_property
  | array_property
  | object_array_property
  | number_array_property
  | struct_array_property
  | static_array_property
deriving DecidableEq, Repr

/-- Modelled from the spec: the twelve property classes of `xcom.h`, which is
not among the sources, with the fields the exporter reads: every property
has a name; a float is kept as its 32-bit pattern; a struct holds a native
blob with its length and a sequence of nested properties. -/
inductive property where
  | int_property (name : List uchar) (value : Int)
  | float_property (name : List uchar) (value : Nat)
  | bool_property (name : List uchar) (value : Bool)
  | string_property (name : List uchar) (str : List uchar)
  | object_property (name : List uchar) (actor : Int)
  | enum_property (name : List uchar) (enum_type enum_value : List uchar) (extra_value : Int)
  | struct_property (name : List uchar) (struct_name : List uchar) (native_data : List uchar)
      (native_data_length : Nat) (properties : List property)
  | array_property (name : List uchar) (data : List uchar) (data_length : Int)
      (array_bound : Int)
  | object_array_property (name : List uchar) (elements : List Int)
  | number_array_property (name : List uchar) (elements : List Int)
  | struct_array_property (name : List uchar) (elements : List (List property))
  | static_array_property (name : List uchar) (properties : List property)

/-- The field `name` of a property. -/
def property.name : property → List uchar
  | .int_property name _ => name
  | .float_property name _ => name
  | .bool_property name _ => name
  | .string_property name _ => name
  | .object_property name _ => name
  | .enum_property name _ _ _ => name
  | .struct_property name _ _ _ _ => name
  | .array_property name _ _ _ => name
  | .object_array_property name _ => name
  | .number_array_property name _ => name
  | .struct_array_property name _ => name
  | .static_array_property name _ => name

/-- The kind of a property: the class it belongs to. -/
def property.kind : property → kind
  | .int_property _ _ => kind.int_property
  | .float_property _ _ => kind.float_property
  | .bool_property _ _ => kind.bool_property
  | .string_property _ _ => kind.string_property
  | .object_property _ _ => kind.object_property
  | .enum_property _ _ _ _ => kind.enum_property
  | .struct_property _ _ _ _ _ => kind.struct_property
  | .array_property _ _ _ _ => kind.array_property
  | .object_array_property _ _ => kind.object_array_property
  | .number_array_property _ _ => kind.number_array_property
  | .struct_array_property _ _ => kind.struct_array_property
  | .static_array_property _ _ => kind.static_array_property

/-- What `xcom2json.cpp` uses and the sources do not contain:
`util::to_hex(data, length)`, the method `kind_string()` of a property, and
the text `out << val` writes for a `float`. -/
structure json_helpers where
  to_hex : List uchar → Nat → List uchar
  kind_string : kind → List uchar
  float_text : Nat → List uchar

/-- The function `escape` of `xcom2json.cpp` on one character. The test
`str[i] > 0 && str[i] < ' '` holds for the bytes 1 to 31, whether `char` is
signed or not. -/
def escape_char (h : json_helpers) (c : uchar) : List uchar :=
  if c = 0x22 then lit "\\\""
  else if c = 0x5C then lit "\\\\"
  else if c = 0x0A then lit "\\n"
  else if c = 0x0D then lit "\\r"
  else if c = 0x09 then lit "\\t"
  else if 0 < c.val ∧ c.val < 0x20 then lit "\\u00" ++ h.to_hex [c] 1
  else [c]

/-- The function `escape` of `xcom2json.cpp`: the pieces for the characters
of `str`, appended in order. -/
def escape (h : json_helpers) (str : List uchar) : List uchar :=
  str.foldl (fun ret c => ret ++ escape_char h c) []

/-- The state of a `json_writer`: the text written to the stream `out` and
the three private fields. -/
structure json_writer where
  out : List uchar
  indent_level : Nat
  skip_indent : Bool
  needs_comma : Bool
deriving DecidableEq, Repr

namespace json_writer

/-- The constructor `json_writer(filename)`, the stream being empty. -/
def init : json_writer := ⟨[], 0, true, false⟩

/-- The statement `out << s`. -/
def put (w : json_writer) (s : List uchar) : json_writer := { w with out := w.out ++ s }

/-- The method `json_writer::indent`. -/
def indent (w : json_writer) : json_writer :=
  let w1 := if w.needs_comma then w.put (lit ", ") else w
  if !w1.skip_indent then
    (w1.put (lit "\n")).put (List.replicate ((2 * w1.indent_level) % size_modulus) 0x20)
  else w1

/-- The method `json_writer::begin_object`. -/
def begin_object (w : json_writer) (omit_newline : Bool) : json_writer :=
  let w1 := (indent w).put (lit "\x7b ")
  { w1 with indent_level := (w1.indent_level + 1) % size_modulus,
            needs_comma := false, skip_indent := omit_newline }

/-- The method `json_writer::end_object`. -/
def end_object (w : json_writer) : json_writer :=
  let w1 := { w with indent_level := (w.indent_level + (size_modulus - 1)) % size_modulus }
  let w2 := if w1.needs_comma then w1.put (lit " ") else w1
  let w3 := (indent { w2 with needs_comma := false }).put (lit "\x7d")
  { w3 with needs_comma := true, skip_indent := false }

/-- The method `json_writer::begin_array`. -/
def begin_array (w : json_writer) (omit_newline : Bool) : json_writer :=
  let w1 := (indent w).put (lit "[ ")
  { w1 with indent_level := (w1.indent_level + 1) % size_modulus,
            needs_comma := false, skip_indent := omit_newline }

/-- The method `json_writer::end_array`. -/
def end_array (w : json_writer) : json_writer :=
  let w1 := { w with indent_level := (w.indent_level + (size_modulus - 1)) % size_modulus }
  let w2 := if w1.needs_comma then w1.put (lit " ") else w1
  let w3 := (indent { w2 with needs_comma := false }).put (lit "]")
  { w3 with needs_comma := true, skip_indent := false }

/-- The method `json_writer::end_item`. -/
def end_item (w : json_writer) (omit_newline : Bool) : json_writer :=
  let w1 := if !omit_newline then { w with skip_indent := false }
    else { w with skip_indent := true }
  { w1 with needs_comma := true }

/-- The method `json_writer::write_key`; the name is written as it is. -/
def write_key (w : json_writer) (name : List uchar) : json_writer :=
  let w1 := (indent w).put (lit "\"" ++ name ++ lit "\": ")
  { w1 with skip_indent := true, needs_comma := false }

/-- The method `json_writer::write_int`. -/
def write_int (w : json_writer) (name : List uchar) (val : Int) (omit_newline : Bool) :
    json_writer :=
  end_item ((write_key w name).put (int_text val)) omit_newline

/-- The method `json_writer::write_raw_int`. -/
def write_raw_int (w : json_writer) (val : Int) (omit_newline : Bool) : json_writer :=
  end_item ((indent w).put (int_text val)) omit_newline

/-- The method `json_writer::write_float`. -/
def write_float (h : json_helpers) (w : json_writer) (name : List uchar) (val : Nat)
    (omit_newline : Bool) : json_writer :=
  end_item ((write_key w name).put (h.float_text val)) omit_newline

/-- The method `json_writer::write_raw_float`. -/
def write_raw_float (h : json_helpers) (w : json_writer) (val : Nat) (omit_newline : Bool) :
    json_writer :=
  end_item ((indent w).put (h.float_text val)) omit_newline

/-- The method `json_writer::write_string`. -/
def write_string (h : json_helpers) (w : json_writer) (name val : List uchar)
    (omit_newline : Bool) : json_writer :=
  end_item ((write_key w name).put (lit "\"" ++ escape h val ++ lit "\"")) omit_newline

/-- The method `json_writer::write_raw_string`. -/
def write_raw_string (h : json_helpers) (w : json_writer) (val : List uchar)
    (omit_newline : Bool) : json_writer :=
  end_item ((indent w).put (lit "\"" ++ escape h val ++ lit "\"")) omit_newline

/-- The method `json_writer::write_bool`. -/
def write_bool (w : json_writer) (name : List uchar) (val : Bool) (omit_newline : Bool) :
    json_writer :=
  end_item ((write_key w name).put (bool_text val)) omit_newline

end json_writer

/-- One call of a method of `json_writer` with its arguments (an omitted
`omit_newline` is `false`). The exporter drives the writer through such calls
only and never reads its state. -/
inductive json_call where
  | begin_object (omit_newline : Bool)
  | end_object
  | begin_array (omit_newline : Bool)
  | end_array
  | end_item (omit_newline : Bool)
  | write_key (name : List uchar)
  | write_int (name : List uchar) (val : Int) (omit_newline : Bool)
  | write_raw_int (val : Int) (omit_newline : Bool)
  | write_float (name : List uchar) (val : Nat) (omit_newline : Bool)
  | write_raw_float (val : Nat) (omit_newline : Bool)
  | write_string (name val : List uchar) (omit_newline : Bool)
  | write_raw_string (val : List uchar) (omit_newline : Bool)
  | write_bool (name : List uchar) (val : Bool) (omit_newline : Bool)
deriving DecidableEq, Repr

/-- The effect of one call on the writer. -/
def json_writer.call (h : json_helpers) (w : json_writer) : json_call → json_writer
  | .begin_object o => w.begin_object o
  | .end_object => w.end_object
  | .begin_array o => w.begin_array o
  | .end_array => w.end_array
  | .end_item o => w.end_item o
  | .write_key name => w.write_key name
  | .write_int name val o => w.write_int name val o
  | .write_raw_int val o => w.write_raw_int val o
  | .write_float name val o => w.write_float h name val o
  | .write_raw_float val o => w.write_raw_float h val o
  | .write_string name val o => w.write_string h name val o
  | .write_raw_string val o => w.write_raw_string h val o
  | .write_bool name val o => w.write_bool name val o

/-- The effect of a sequence of calls, in order. -/
def json_writer.run (h : json_helpers) (w : json_writer) (calls : List json_call) :
    json_writer :=
  calls.foldl (json_writer.call h) w

/-- The table type `actor_table`: actor names by position. -/
abbrev actor_table := List (List uchar)

/-- The method `json_property_visitor::write_common`. -/
def write_common (h : json_helpers) (prop : property) (omit_newline : Bool) : List json_call :=
  [json_call.write_string (lit "name") prop.name omit_newline,
   json_call.write_string (lit "kind") (h.kind_string prop.kind) omit_newline]

mutual

/-- The calls `prop->accept(&visitor)` makes on the writer, for a
`json_property_visitor` built with the tables `ga` and `la`: the twelve
`visit_...` methods. -/
def json_property_visitor (h : json_helpers) (ga la : actor_table) :
    property → List json_call
  | .int_property name value =>
    [json_call.begin_object true] ++ write_common h (.int_property name value) true ++
      [json_call.write_int (lit "value") value true, json_call.end_object]
  | .float_property name value =>
    [json_call.begin_object true] ++ write_common h (.float_property name value) true ++
      [json_call.write_float (lit "value") value true, json_call.end_object]
  | .bool_property name value =>
    [json_call.begin_object true] ++ write_common h (.bool_property name value) true ++
      [json_call.write_bool (lit "value") value true, json_call.end_object]
  | .string_property name str =>
    [json_call.begin_object true] ++ write_common h (.string_property name str) true ++
      [json_call.write_string (lit "value") str true, json_call.end_object]
  | .object_property name actor =>
    [json_call.begin_object true] ++ write_common h (.object_property name actor) true ++
      [json_call.write_int (lit "actor") actor true, json_call.end_object]
  | .enum_property name enum_type enum_value extra_value =>
    [json_call.begin_object false] ++
      write_common h (.enum_property name enum_type enum_value extra_value) false ++
      [json_call.write_string (lit "type") enum_type false,
       json_call.write_string (lit "value") enum_value false,
       json_call.write_int (lit "extra_value") extra_value false, json_call.end_object]
  | .struct_property name struct_name native_data native_data_length properties =>
    [json_call.begin_object false] ++
      write_common h
        (.struct_property name struct_name native_data native_data_length properties) false ++
      [json_call.write_string (lit "struct_name") struct_name false] ++
      (if native_data_length > 0 then
        [json_call.write_string (lit "native_data")
            (h.to_hex native_data native_data_length) false,
          json_call.write_key (lit "properties"), json_call.begin_array true,
          json_call.end_array]
      else
        [json_call.write_string (lit "native_data") [] false,
          json_call.write_key (lit "properties"), json_call.begin_array false] ++
          visit_each h ga la properties ++ [json_call.end_array]) ++
      [json_call.end_object]
  | .array_property name data data_length array_bound =>
    [json_call.begin_object false] ++
      write_common h (.array_property name data data_length array_bound) false ++
      [json_call.write_int (lit "data_length") data_length false,
       json_call.write_int (lit "array_bound") array_bound false,
       json_call.write_string (lit "data")
         (if array_bound > 0 then h.to_hex data (to_size_t data_length) else []) false,
       json_call.end_object]
  | .object_array_property name elements =>
    [json_call.begin_object false] ++
      write_common h (.object_array_property name elements) false ++
      [json_call.write_key (lit "actors"), json_call.begin_array true] ++
      elements.map (fun e => json_call.write_raw_int e true) ++
      [json_call.end_array, json_call.end_object]
  | .number_array_property name elements =>
    [json_call.begin_object false] ++
      write_common h (.number_array_property name elements) false ++
      [json_call.write_key (lit "elements"), json_call.begin_array true] ++
      elements.map (fun e => json_call.write_raw_int e true) ++
      [json_call.end_array, json_call.end_object]
  | .struct_array_property name elements =>
    [json_call.begin_object false] ++
      write_common h (.struct_array_property name elements) false ++
      [json_call.write_key (lit "structs"), json_call.begin_array false] ++
      visit_each_list h ga la elements ++
      [json_call.end_array, json_call.end_object]
  | .static_array_property name properties =>
    [json_call.begin_object false] ++
      write_common h (.static_array_property name properties) false ++
      [json_call.write_key (lit "properties"), json_call.begin_array false] ++
      visit_each h ga la properties ++
      [json_call.end_array, json_call.end_object]

/-- The loop `std::for_each` over a property list, each property accepting
the visitor. -/
def visit_each (h : json_helpers) (ga la : actor_table) : List property → List json_call
  | [] => []
  | p :: ps => json_property_visitor h ga la p ++ visit_each h ga la ps

/-- The loop `std::for_each` over the elements of a struct array: an array
around the properties of each element. -/
def visit_each_list (h : json_helpers) (ga la : actor_table) :
    List (List property) → List json_call
  | [] => []
  | l :: ls =>
    [json_call.begin_array false] ++ visit_each h ga la l ++ [json_call.end_array] ++
      visit_each_list h ga la ls

end

/-- Modelled from the spec: the class `checkpoint` of `xcom.h`, which is not
among the sources, with the fields the exporter reads; the components of
`vector` are kept as 32-bit patterns. -/
structure checkpoint where
  name : List uchar
  instance_name : List uchar
  class_name : List uchar
  vector : List Nat
  rotator : List Int
  properties : List property
  template_index : Int
  pad_size : Int

/-- The calls of the function `checkpoint_to_json` on the writer. -/
def checkpoint_to_json (h : json_helpers) (chk : checkpoint) (global_actors
    local_actors : actor_table) : List json_call :=
  [json_call.begin_object false,
   json_call.write_string (lit "name") chk.name false,
   json_call.write_string (lit "instance_name") chk.instance_name false,
   json_call.write_string (lit "class_name") chk.class_name false,
   json_call.write_key (lit "vector"), json_call.begin_array true] ++
  chk.vector.map (fun i => json_call.write_raw_float i true) ++
  [json_call.end_array, json_call.write_key (lit "rotator"), json_call.begin_array true] ++
  chk.rotator.map (fun i => json_call.write_raw_int i true) ++
  [json_call.end_array, json_call.write_key (lit "properties"),
   json_call.begin_array false] ++
  visit_each h global_actors local_actors chk.properties ++
  [json_call.end_array,
   json_call.write_int (lit "template_index") chk.template_index false,
   json_call.write_int (lit "pad_size") chk.pad_size false, json_call.end_object]

/-- Whether a call opens a JSON object. -/
def json_call.is_begin_object : json_call → Bool
  | .begin_object _ => true
  | _ => false

/-- Whether a call closes a JSON object. -/
def json_call.is_end_object : json_call → Bool
  | .end_object => true
  | _ => false

/-- The name and kind of the object a call sequence starts with: it begins
with `begin_object` followed by the keys `name` and `kind` with string
values; `none` for any other sequence. -/
def json_call.header : List json_call → Option (List uchar × List uchar)
  | .begin_object _ :: .write_string n nm _ :: .write_string k kd _ :: _ =>
    if n = lit "name" ∧ k = lit "kind" then some (nm, kd) else none
  | _ => none

/-- The objects with name and kind that a call sequence opens, in the order
in which they are opened. -/
def json_call.objects : List json_call → List (List uchar × List uchar)
  | [] => []
  | c :: rest =>
    match json_call.header (c :: rest) with
    | some x => x :: json_call.objects rest
    | none => json_call.objects rest

/-- The value of a call that writes the key `key` with a string value. -/
def json_call.string_of_key (key : List uchar) : json_call → Option (List uchar)
  | .write_string name val _ => if name = key then some val else none
  | _ => none

mutual

/-- The properties of a tree in pre-order, children in stored order, as name
and kind; every nested property is listed. -/
def property.every : property → List (List uchar × kind)
  | .int_property name _ => [(name, kind.int_property)]
  | .float_property name _ => [(name, kind.float_property)]
  | .bool_property name _ => [(name, kind.bool_property)]
  | .string_property name _ => [(name, kind.string_property)]
  | .object_property name _ => [(name, kind.object_property)]
  | .enum_property name _ _ _ => [(name, kind.enum_property)]
  | .struct_property name _ _ _ properties =>
    (name, kind.struct_property) :: every_each properties
  | .array_property name _ _ _ => [(name, kind.array_property)]
  | .object_array_property name _ => [(name, kind.object_array_property)]
  | .number_array_property name _ => [(name, kind.number_array_property)]
  | .struct_array_property name elements =>
    (name, kind.struct_array_property) :: every_each_list elements
  | .static_array_property name properties =>
    (name, kind.static_array_property) :: every_each properties

/-- The properties of a list of trees, tree after tree. -/
def every_each : List property → List (List uchar × kind)
  | [] => []
  | p :: ps => p.every ++ every_each ps

/-- The properties of the elements of a struct array, element after
element. -/
def every_each_list : List (List property) → List (List uchar × kind)
  | [] => []
  | l :: ls => every_each l ++ every_each_list ls

end

mutual

/-- The properties of a tree in pre-order, as name and kind, leaving out what
is stored under a struct with `native_data_length > 0`. -/
def property.shown : property → List (List uchar × kind)
  | .int_property name _ => [(name, kind.int_property)]
  | .float_property name _ => [(name, kind.float_property)]
  | .bool_property name _ => [(name, kind.bool_property)]
  | .string_property name _ => [(name, kind.string_property)]
  | .object_property name _ => [(name, kind.object_property)]
  | .enum_property name _ _ _ => [(name, kind.enum_property)]
  | .struct_property name _ _ native_data_length properties =>
    (name, kind.struct_property) ::
      (if native_data_length > 0 then [] else shown_each properties)
  | .array_property name _ _ _ => [(name, kind.array_property)]
  | .object_array_property name _ => [(name, kind.object_array_property)]
  | .number_array_property name _ => [(name, kind.number_array_property)]
  | .struct_array_property name elements =>
    (name, kind.struct_array_property) :: shown_each_list elements
  | .static_array_property name properties =>
    (name, kind.static_array_property) :: shown_each properties

/-- The same for a list of trees. -/
def shown_each : List property → List (List uchar × kind)
  | [] => []
  | p :: ps => p.shown ++ shown_each ps

/-- The same for the elements of a struct array. -/
def shown_each_list : List (List property) → List (List uchar × kind)
  | [] => []
  | l :: ls => shown_each l ++ shown_each_list ls

end

mutual

/-- The invariant of the spec on structs: no struct of the tree has both a
native blob (`native_data_length > 0`) and nested properties. -/
def property.exclusive : property → Bool
  | .int_property _ _ => true
  | .float_property _ _ => true
  | .bool_property _ _ => true
  | .string_property _ _ => true
  | .object_property _ _ => true
  | .enum_property _ _ _ _ => true
  | .struct_property _ _ _ native_data_length properties =>
    (native_data_length = 0 || properties.isEmpty) && exclusive_each properties
  | .array_property _ _ _ _ => true
  | .object_array_property _ _ => true
  | .number_array_property _ _ => true
  | .struct_array_property _ elements => exclusive_each_list elements
  | .static_array_property _ properties => exclusive_each properties

/-- The same for a list of trees. -/
def exclusive_each : List property → Bool
  | [] => true
  | p :: ps => p.exclusive && exclusive_each ps

/-- The same for the elements of a struct array. -/
def exclusive_each_list : List (List property) → Bool
  | [] => true
  | l :: ls => exclusive_each l && exclusive_each_list ls

end

/-- Modelled from the spec: helpers of the exporter in a standard reading,
used where a theorem needs concrete ones: two lower-case hexadecimal digits a
byte, the class name as kind string, and a fixed text for every float. -/
def json_helpers.reference : json_helpers where
  to_hex := fun data n =>
    (data.take n).flatMap (fun b =>
      [(lit "0123456789abcdef").getD (b.val / 16) 0, (lit "0123456789abcdef").getD (b.val % 16) 0])
  kind_string := fun k =>
    match k with
    | kind.int_property => lit "IntProperty"
    | kind.float_property => lit "FloatProperty"
    | kind.bool_property => lit "BoolProperty"
    | kind.string_property => lit "StrProperty"
    | kind.object_property => lit "ObjectProperty"
    | kind.enum_property => lit "ByteProperty"
    | kind.struct_property => lit "StructProperty"
    | kind.array_property => lit "ArrayProperty"
    | kind.object_array_property => lit "ObjectArrayProperty"
    | kind.number_array_property => lit "NumberArrayProperty"
    | kind.struct_array_property => lit "StructArrayProperty"
    | kind.static_array_property => lit "StaticArrayProperty"
  float_text := fun _ => lit "0"

end xcom

/-! # Theorems -/

namespace xcom

open xcom_io

/-! ## Basic facts about the primitives -/

theorem at_ptr_length (io : xcom_io) : io.at_ptr.length = io.length_ - io.ptr_ := by
  simp [xcom_io.at_ptr, xcom_io.length_]

theorem read_int_eq_ok_iff (io : xcom_io) (v : Int) (io1 : xcom_io) :
    read_int io = outcome.ok v io1 ↔
      ∃ b0 b1 b2 b3 rest, io.at_ptr = b0 :: b1 :: b2 :: b3 :: rest ∧
        v = int32_of_bytes b0 b1 b2 b3 ∧ io1 = { io with ptr_ := io.ptr_ + 4 } := by
  unfold read_int
  split
  · rename_i b0 b1 b2 b3 rest h
    constructor
    · intro hh
      injection hh with h1 h2
      exact ⟨b0, b1, b2, b3, rest, h, h1.symm, h2.symm⟩
    · rintro ⟨c0, c1, c2, c3, r, hc, hv, hio⟩
      rw [h] at hc
      simp only [List.cons.injEq] at hc
      obtain ⟨e0, e1, e2, e3, -⟩ := hc
      rw [hv, hio, e0, e1, e2, e3]
  · rename_i h
    constructor
    · intro hh; cases hh
    · rintro ⟨c0, c1, c2, c3, r, hc, _, _⟩
      exact absurd hc (h c0 c1 c2 c3 r)

theorem read_int_ne_format_exception (io : xcom_io) (off : Nat) :
    read_int io ≠ outcome.format_exception off := by
  unfold read_int
  split <;> simp

theorem read_int_undefined_of_short (io : xcom_io) (h : io.length_ < io.ptr_ + 4) :
    read_int io = outcome.undefined := by
  have hl := at_ptr_length io
  unfold read_int
  split
  · rename_i b0 b1 b2 b3 rest hh
    rw [hh] at hl
    simp at hl
    omega
  · rfl

theorem read_float_ne_format_exception (io : xcom_io) (off : Nat) :
    read_float io ≠ outcome.format_exception off := by
  unfold read_float
  split <;> simp

theorem read_float_undefined_of_short (io : xcom_io) (h : io.length_ < io.ptr_ + 4) :
    read_float io = outcome.undefined := by
  have hl := at_ptr_length io
  unfold read_float
  split
  · rename_i b0 b1 b2 b3 rest hh
    rw [hh] at hl
    simp at hl
    omega
  · rfl

theorem read_byte_undefined_of_short (io : xcom_io) (h : io.length_ < io.ptr_ + 1) :
    read_byte io = outcome.undefined := by
  have hl := at_ptr_length io
  unfold read_byte
  split
  · rename_i b rest hh
    rw [hh] at hl
    simp at hl
    omega
  · rfl

theorem read_raw_bytes_undefined_of_short (io : xcom_io) (n : Nat)
    (h : io.length_ - io.ptr_ < n) : read_raw_bytes io n = outcome.undefined := by
  have hl := at_ptr_length io
  unfold read_raw_bytes
  rw [if_neg]
  omega

/-- Whatever the strict call returns, the call with any flag returns too. -/
theorem read_unicode_string_of_strict_ok (u : util) (b : Bool) (io : xcom_io)
    (r : xcom_string) (io2 : xcom_io)
    (h : read_unicode_string u true io = outcome.ok r io2) :
    read_unicode_string u b io = outcome.ok r io2 := by
  cases b
  swap
  · exact h
  revert h
  unfold read_unicode_string
  cases hri : read_int io with
  | format_exception off => exact absurd hri (read_int_ne_format_exception io off)
  | undefined => simp
  | ok length io1 =>
    simp only
    by_cases h0 : length = 0
    · simp [h0]
    by_cases hneg : length < 0
    · simp only [h0, hneg, if_true, if_false]
      by_cases hc : (io1.offset + to_size_t (wrap32 (-length))) % size_modulus > io1.length_
      · simp [hc]
      · simp only [hc, if_false]
        split_ifs
        · simp
        · cases c_u16string io1.at_ptr <;> simp
    · simp only [h0, hneg, if_false]
      by_cases hc : (io1.offset + to_size_t length) % size_modulus > io1.length_
      · simp [hc]
      · simp only [hc, if_false]
        cases c_string io1.at_ptr with
        | none => simp
        | some s =>
          simp only
          split_ifs <;> simp_all

theorem read_bool_ne_format_exception (io : xcom_io) (off : Nat) :
    read_bool io ≠ outcome.format_exception off := by
  unfold read_bool
  cases h : read_int io with
  | format_exception o => exact absurd h (read_int_ne_format_exception io o)
  | undefined => simp
  | ok v io1 => simp

theorem read_bool_undefined_of_short (io : xcom_io) (h : io.length_ < io.ptr_ + 4) :
    read_bool io = outcome.undefined := by
  unfold read_bool
  rw [read_int_undefined_of_short io h]

theorem read_byte_ne_format_exception (io : xcom_io) (off : Nat) :
    read_byte io ≠ outcome.format_exception off := by
  unfold read_byte
  split <;> simp

theorem read_raw_bytes_ne_format_exception (io : xcom_io) (n off : Nat) :
    read_raw_bytes io n ≠ outcome.format_exception off := by
  unfold read_raw_bytes
  split <;> simp

/-! ## NUL-terminated strings in the buffer -/

theorem c_string_append (s rest : List uchar) (h : (0 : uchar) ∉ s) :
    c_string (s ++ 0 :: rest) = some s := by
  induction s with
  | nil => simp [c_string]
  | cons b s ih =>
    simp only [List.mem_cons, not_or] at h
    have hb : b ≠ 0 := fun e => h.1 e.symm
    simp [c_string, hb, ih h.2]

theorem c_string_eq_some (l s : List uchar) (h : c_string l = some s) :
    (0 : uchar) ∉ s ∧ ∃ rest, l = s ++ 0 :: rest := by
  induction l generalizing s with
  | nil => simp [c_string] at h
  | cons b l ih =>
    unfold c_string at h
    by_cases hb : b = 0
    · simp only [hb, if_true, Option.some.injEq] at h
      subst h
      exact ⟨by simp, l, by simp [hb]⟩
    · simp only [hb, if_false, Option.map_eq_some'] at h
      obtain ⟨t, ht, rfl⟩ := h
      obtain ⟨h0, rest, hrest⟩ := ih t ht
      refine ⟨?_, rest, by simp [hrest]⟩
      simp only [List.mem_cons, not_or]
      exact ⟨fun e => hb e.symm, h0⟩

theorem c_string_eq_none (l : List uchar) (h : (0 : uchar) ∉ l) : c_string l = none := by
  induction l with
  | nil => rfl
  | cons b l ih =>
    simp only [List.mem_cons, not_or] at h
    have hb : b ≠ 0 := fun e => h.1 e.symm
    simp [c_string, hb, ih h.2]

theorem char16_of_bytes (c : char16) :
    (Fin.ofNat ((Fin.ofNat c.val : uchar).val + 256 * (Fin.ofNat (c.val / 256) : uchar).val) :
      char16) = c := by
  apply Fin.ext
  have hc := c.isLt
  simp only [Fin.ofNat, Fin.val_mk]
  omega

theorem bytes_of_char16_ne_zero (c : char16) (h : c ≠ 0) :
    ¬ ((Fin.ofNat c.val : uchar) = 0 ∧ (Fin.ofNat (c.val / 256) : uchar) = 0) := by
  rintro ⟨h1, h2⟩
  apply h
  apply Fin.ext
  have hc := c.isLt
  have e1 := congrArg Fin.val h1
  have e2 := congrArg Fin.val h2
  simp only [Fin.ofNat, Fin.val_mk, Fin.val_zero] at e1 e2
  simp only [Fin.val_zero]
  omega

theorem bytes_of_u16string_cons (c : char16) (s : List char16) :
    bytes_of_u16string (c :: s) =
      (Fin.ofNat c.val : uchar) :: (Fin.ofNat (c.val / 256) : uchar) :: bytes_of_u16string s := by
  simp [bytes_of_u16string, bytes_of_char16]

theorem bytes_of_u16string_length (s : List char16) :
    (bytes_of_u16string s).length = 2 * s.length := by
  induction s with
  | nil => rfl
  | cons c s ih => rw [bytes_of_u16string_cons]; simp [ih]; omega

theorem c_u16string_append (s : List char16) (rest : List uchar) (h : (0 : char16) ∉ s) :
    c_u16string (bytes_of_u16string s ++ 0 :: 0 :: rest) = some s := by
  induction s with
  | nil => simp [bytes_of_u16string, c_u16string]
  | cons c s ih =>
    simp only [List.mem_cons, not_or] at h
    have hc : c ≠ 0 := fun e => h.1 e.symm
    rw [bytes_of_u16string_cons, List.cons_append, List.cons_append, c_u16string]
    simp only [if_neg (bytes_of_char16_ne_zero c hc), ih h.2, Option.map_some', char16_of_bytes]

theorem bytes_of_char16_of_bytes (lo hi : uchar) :
    bytes_of_char16 (Fin.ofNat (lo.val + 256 * hi.val)) = [lo, hi] := by
  have h1 := lo.isLt
  have h2 := hi.isLt
  simp only [bytes_of_char16, Fin.ofNat, Fin.val_mk, List.cons.injEq, and_true]
  constructor
  · apply Fin.ext
    simp only [Fin.val_mk]
    omega
  · apply Fin.ext
    simp only [Fin.val_mk]
    omega

theorem char16_of_bytes_ne_zero (lo hi : uchar) (h : ¬ (lo = 0 ∧ hi = 0)) :
    (Fin.ofNat (lo.val + 256 * hi.val) : char16) ≠ 0 := by
  intro e
  apply h
  have h1 := lo.isLt
  have h2 := hi.isLt
  have e1 := congrArg Fin.val e
  simp only [Fin.ofNat, Fin.val_mk, Fin.val_zero] at e1
  constructor
  · apply Fin.ext
    simp only [Fin.val_zero]
    omega
  · apply Fin.ext
    simp only [Fin.val_zero]
    omega

theorem c_u16string_eq_some (l : List uchar) :
    ∀ s, c_u16string l = some s →
      (0 : char16) ∉ s ∧ ∃ rest, l = bytes_of_u16string s ++ 0 :: 0 :: rest := by
  induction l using c_u16string.induct with
  | case1 => intro s h; simp [c_u16string] at h
  | case2 lo => intro s h; simp [c_u16string] at h
  | case3 lo hi rest2 hz =>
    intro s h
    simp only [c_u16string, if_pos hz, Option.some.injEq] at h
    subst h
    exact ⟨by simp, rest2, by simp [bytes_of_u16string, hz.1, hz.2]⟩
  | case4 lo hi rest2 hz ih =>
    intro s h
    simp only [c_u16string, if_neg hz, Option.map_eq_some'] at h
    obtain ⟨t, ht, rfl⟩ := h
    obtain ⟨h0, rest, hrest⟩ := ih t ht
    refine ⟨?_, rest, ?_⟩
    · simp only [List.mem_cons, not_or]
      exact ⟨fun e => char16_of_bytes_ne_zero lo hi hz e.symm, h0⟩
    · have hb := bytes_of_char16_of_bytes lo hi
      simp only [bytes_of_u16string, List.flatMap_cons, hb]
      simp only [bytes_of_u16string] at hrest
      simp [hrest]

/-! ## Stores and growth -/

theorem put_ok (io : xcom_io) (bs : List uchar) (h : io.ptr_ + bs.length ≤ io.length_) :
    put io bs = outcome.ok ()
      ⟨io.start_.take io.ptr_ ++ bs ++ io.start_.drop (io.ptr_ + bs.length),
        io.ptr_ + bs.length⟩ := by
  unfold xcom_io.length_ at h
  simp [put, store, h]

theorem ensure_enough (fresh : Nat → uchar) (io : xcom_io) (n : Nat)
    (h : io.ptr_ + n ≤ io.length_) : ensure fresh io n = outcome.ok () io := by
  unfold ensure
  have h1 : (io.offset + n) % size_modulus ≤ io.offset + n := Nat.mod_le _ _
  unfold xcom_io.offset at *
  rw [if_neg]
  omega

theorem ensure_grows (fresh : Nat → uchar) (io : xcom_io) (n : Nat)
    (h1 : io.ptr_ ≤ io.length_) (h2 : io.length_ < io.ptr_ + n)
    (h3 : io.ptr_ + n < size_modulus) (h4 : 2 * io.length_ < size_modulus) :
    ∃ io1, ensure fresh io n = outcome.ok () io1 ∧ io1.ptr_ = io.ptr_ ∧
      io1.length_ = 2 * io.length_ ∧ io1.start_.take io.ptr_ = io.start_.take io.ptr_ := by
  unfold ensure
  unfold xcom_io.offset
  have e1 : (io.ptr_ + n) % size_modulus = io.ptr_ + n := Nat.mod_eq_of_lt h3
  have e2 : (io.length_ * 2) % size_modulus = io.length_ * 2 := Nat.mod_eq_of_lt (by omega)
  simp only [e1, e2]
  rw [if_pos (by omega), if_pos (by omega)]
  refine ⟨_, rfl, rfl, ?_, ?_⟩
  · unfold xcom_io.length_ at *
    simp
    omega
  · unfold xcom_io.length_ at *
    simp only
    rw [List.take_append_of_le_length (by simp; omega)]
    simp

/-- A request beyond twice the current length is not met: `ensure` returns
with fewer than `n` writable bytes. -/
theorem ensure_too_small (fresh : Nat → uchar) (io : xcom_io) (n : Nat)
    (h1 : io.ptr_ ≤ io.length_) (h2 : 2 * io.length_ < io.ptr_ + n)
    (h3 : io.ptr_ + n < size_modulus) :
    ∃ io1, ensure fresh io n = outcome.ok () io1 ∧ io1.length_ < io1.offset + n := by
  obtain ⟨io1, he, hp, hl, -⟩ := ensure_grows fresh io n h1 (by omega) h3 (by omega)
  refine ⟨io1, he, ?_⟩
  unfold xcom_io.offset
  omega

theorem bytes_of_int32_length (v : Int) : (bytes_of_int32 v).length = 4 := rfl

/-! ## 32-bit integers in the buffer -/

theorem wrap32_range (v : Int) : -2147483648 ≤ wrap32 v ∧ wrap32 v < 2147483648 := by
  unfold wrap32
  omega

theorem wrap32_of_range (v : Int) (h1 : -2147483648 ≤ v) (h2 : v < 2147483648) :
    wrap32 v = v := by
  unfold wrap32
  omega

theorem int32_of_bytes_range (b0 b1 b2 b3 : uchar) :
    -2147483648 ≤ int32_of_bytes b0 b1 b2 b3 ∧ int32_of_bytes b0 b1 b2 b3 < 2147483648 :=
  wrap32_range _

theorem bytes_of_int32_of_bytes (b0 b1 b2 b3 : uchar) :
    bytes_of_int32 (int32_of_bytes b0 b1 b2 b3) = [b0, b1, b2, b3] := by
  have h0 := b0.isLt
  have h1 := b1.isLt
  have h2 := b2.isLt
  have h3 := b3.isLt
  have key : ((int32_of_bytes b0 b1 b2 b3) % 4294967296).toNat =
      b0.val + 256 * b1.val + 65536 * b2.val + 16777216 * b3.val := by
    unfold int32_of_bytes wrap32
    omega
  unfold bytes_of_int32
  simp only [key, Fin.ofNat, List.cons.injEq, and_true]
  refine ⟨?_, ?_, ?_, ?_⟩ <;> apply Fin.ext <;> simp only [Fin.val_mk] <;> omega

theorem int32_of_bytes_of_int32 (v : Int) (h1 : -2147483648 ≤ v) (h2 : v < 2147483648) :
    ∃ b0 b1 b2 b3, bytes_of_int32 v = [b0, b1, b2, b3] ∧ int32_of_bytes b0 b1 b2 b3 = v := by
  refine ⟨_, _, _, _, rfl, ?_⟩
  unfold int32_of_bytes wrap32
  simp only [Fin.ofNat, Fin.val_mk]
  omega

/-! ## Reading a string -/

theorem at_ptr_after_read_int (io : xcom_io) (v : Int) (io1 : xcom_io)
    (h : read_int io = outcome.ok v io1) :
    io1.start_ = io.start_ ∧ io1.ptr_ = io.ptr_ + 4 ∧ io1.at_ptr = io.at_ptr.drop 4 ∧
      io.ptr_ + 4 ≤ io.length_ := by
  obtain ⟨b0, b1, b2, b3, rest, hat, -, hio⟩ := (read_int_eq_ok_iff io v io1).mp h
  have hl := at_ptr_length io
  rw [hat] at hl
  simp only [List.length_cons] at hl
  subst hio
  refine ⟨rfl, rfl, ?_, by omega⟩
  simp [xcom_io.at_ptr, List.drop_drop, Nat.add_comm]

theorem at_ptr_bound (io : xcom_io) (b : uchar) (l : List uchar) (h : io.at_ptr = b :: l) :
    io.ptr_ + (l.length + 1) = io.length_ := by
  have hl := at_ptr_length io
  rw [h] at hl
  simp only [List.length_cons] at hl
  omega

/-- The narrow branch on a payload that is `s` and its terminating zero. -/
theorem read_narrow_ok (u : util) (b : Bool) (io io1 : xcom_io) (s rest : List uchar)
    (hri : read_int io = outcome.ok ((s.length + 1 : Nat) : Int) io1)
    (hpay : io1.at_ptr = s ++ 0 :: rest) (hs : (0 : uchar) ∉ s) :
    read_unicode_string u b io =
      outcome.ok ⟨u.iso8859_1_to_utf8 s, false⟩ ⟨io.start_, io.ptr_ + 4 + (s.length + 1)⟩ := by
  obtain ⟨hst, hp, -, -⟩ := at_ptr_after_read_int io _ io1 hri
  have hr := int32_of_bytes_range
  have hrange : ((s.length + 1 : Nat) : Int) < 2147483648 := by
    obtain ⟨b0, b1, b2, b3, _, _, hv, _⟩ := (read_int_eq_ok_iff io _ io1).mp hri
    rw [hv]
    exact (int32_of_bytes_range b0 b1 b2 b3).2
  have hlen : io1.ptr_ + (s.length + 1) ≤ io1.length_ := by
    have hl := at_ptr_length io1
    rw [hpay] at hl
    simp only [List.length_append, List.length_cons] at hl
    omega
  have hsz : to_size_t ((s.length + 1 : Nat) : Int) = s.length + 1 := by
    unfold to_size_t size_modulus
    omega
  have hmod : (io1.ptr_ + (s.length + 1)) % size_modulus ≤ io1.ptr_ + (s.length + 1) :=
    Nat.mod_le _ _
  unfold read_unicode_string
  rw [hri]
  simp only
  rw [if_neg (by omega), if_neg (by omega)]
  unfold xcom_io.offset
  rw [hsz, if_neg (by omega), hpay, c_string_append s rest hs]
  simp only
  rw [if_neg (by simp)]
  have e : ((s.length + 1 : Nat) : Int).toNat = s.length + 1 := by omega
  rw [e, hp, hst]

/-- The narrow branch on a payload whose first zero byte is not where the
prefix says: the strict call throws. -/
theorem read_narrow_mismatch (u : util) (io io1 : xcom_io) (n : Int) (s rest : List uchar)
    (hri : read_int io = outcome.ok n io1) (hn : 0 < n)
    (hin : io1.ptr_ + n.toNat ≤ io.length_)
    (hpay : io1.at_ptr = s ++ 0 :: rest) (hs : (0 : uchar) ∉ s)
    (hne : (s.length : Int) ≠ n - 1) :
    read_unicode_string u true io = outcome.format_exception (io.ptr_ + 4) := by
  obtain ⟨hst, hp, -, -⟩ := at_ptr_after_read_int io _ io1 hri
  have hl : io1.length_ = io.length_ := by
    unfold xcom_io.length_
    rw [hst]
  have hrange : n < 2147483648 := by
    obtain ⟨b0, b1, b2, b3, _, _, hv, _⟩ := (read_int_eq_ok_iff io _ io1).mp hri
    rw [hv]
    exact (int32_of_bytes_range b0 b1 b2 b3).2
  have hsz : to_size_t n = n.toNat := by
    unfold to_size_t size_modulus
    omega
  have hmod : (io1.ptr_ + n.toNat) % size_modulus ≤ io1.ptr_ + n.toNat := Nat.mod_le _ _
  unfold read_unicode_string
  rw [hri]
  simp only
  rw [if_neg (by omega), if_neg (by omega)]
  unfold xcom_io.offset
  rw [hsz, hl, if_neg (by omega), hpay, c_string_append s rest hs]
  simp only
  rw [if_pos hne, hp]
  rfl

/-- The narrow branch on a buffer without a zero byte from the payload on:
`strlen` leaves the buffer. -/
theorem read_narrow_unterminated (u : util) (b : Bool) (io io1 : xcom_io) (n : Int)
    (hri : read_int io = outcome.ok n io1) (hn : 0 < n)
    (hin : io1.ptr_ + n.toNat ≤ io.length_) (hz : (0 : uchar) ∉ io1.at_ptr) :
    read_unicode_string u b io = outcome.undefined := by
  obtain ⟨hst, hp, -, -⟩ := at_ptr_after_read_int io _ io1 hri
  have hl : io1.length_ = io.length_ := by
    unfold xcom_io.length_
    rw [hst]
  have hrange : n < 2147483648 := by
    obtain ⟨b0, b1, b2, b3, _, _, hv, _⟩ := (read_int_eq_ok_iff io _ io1).mp hri
    rw [hv]
    exact (int32_of_bytes_range b0 b1 b2 b3).2
  have hsz : to_size_t n = n.toNat := by
    unfold to_size_t size_modulus
    omega
  have hmod : (io1.ptr_ + n.toNat) % size_modulus ≤ io1.ptr_ + n.toNat := Nat.mod_le _ _
  unfold read_unicode_string
  rw [hri]
  simp only
  rw [if_neg (by omega), if_neg (by omega)]
  unfold xcom_io.offset
  rw [hsz, hl, if_neg (by omega), c_string_eq_none _ hz]

/-- The wide branch on a payload that is `s` and its terminating zero code
unit. -/
theorem read_wide_ok (u : util) (b : Bool) (io io1 : xcom_io) (s : List char16)
    (rest : List uchar) (hn : s.length + 1 < 1073741824)
    (hri : read_int io = outcome.ok (-((s.length + 1 : Nat) : Int)) io1)
    (hpay : io1.at_ptr = bytes_of_u16string s ++ 0 :: 0 :: rest) (hs : (0 : char16) ∉ s) :
    read_unicode_string u b io =
      outcome.ok ⟨u.utf16_to_utf8 s, true⟩ ⟨io.start_, io.ptr_ + 4 + 2 * (s.length + 1)⟩ := by
  obtain ⟨hst, hp, -, -⟩ := at_ptr_after_read_int io _ io1 hri
  have hlen : io1.ptr_ + 2 * (s.length + 1) ≤ io1.length_ := by
    have hl := at_ptr_length io1
    rw [hpay] at hl
    simp only [List.length_append, List.length_cons, bytes_of_u16string_length] at hl
    omega
  have hw : wrap32 (-(-((s.length + 1 : Nat) : Int))) = ((s.length + 1 : Nat) : Int) := by
    unfold wrap32
    omega
  have hw2 : wrap32 (2 * ((s.length + 1 : Nat) : Int)) = ((2 * (s.length + 1) : Nat) : Int) := by
    unfold wrap32
    omega
  have hsz : to_size_t ((s.length + 1 : Nat) : Int) = s.length + 1 := by
    unfold to_size_t size_modulus
    omega
  have hmod : (io1.ptr_ + (s.length + 1)) % size_modulus ≤ io1.ptr_ + (s.length + 1) :=
    Nat.mod_le _ _
  unfold read_unicode_string
  rw [hri]
  simp only
  rw [if_neg (by omega), if_pos (by omega), hw]
  unfold xcom_io.offset
  rw [hsz, if_neg (by omega), hw2, if_neg (by omega), hpay, c_u16string_append s rest hs]
  simp only
  have e : ((io1.ptr_ : Int) + ((2 * (s.length + 1) : Nat) : Int)).toNat =
      io.ptr_ + 4 + 2 * (s.length + 1) := by omega
  rw [e, hst]

theorem read_int_at (pre tail : List uchar) (q : Nat) (hq : q = pre.length) (v : Int)
    (h1 : -2147483648 ≤ v) (h2 : v < 2147483648) :
    read_int ⟨pre ++ (bytes_of_int32 v ++ tail), q⟩ =
      outcome.ok v ⟨pre ++ (bytes_of_int32 v ++ tail), q + 4⟩ := by
  obtain ⟨b0, b1, b2, b3, hb, hv⟩ := int32_of_bytes_of_int32 v h1 h2
  rw [read_int_eq_ok_iff]
  refine ⟨b0, b1, b2, b3, tail, ?_, hv.symm, rfl⟩
  simp only [xcom_io.at_ptr]
  rw [List.drop_left' hq.symm, hb]
  rfl

theorem at_ptr_at (pre w tail : List uchar) (q : Nat) (hq : q = pre.length + w.length) :
    xcom_io.at_ptr ⟨pre ++ (w ++ tail), q⟩ = tail := by
  have hl : (pre ++ w).length = q := by
    rw [List.length_append, hq]
  simp only [xcom_io.at_ptr]
  rw [← List.append_assoc, List.drop_left' hl]

theorem read_int_at_start (tail : List uchar) (v : Int)
    (h1 : -2147483648 ≤ v) (h2 : v < 2147483648) :
    read_int ⟨bytes_of_int32 v ++ tail, 0⟩ = outcome.ok v ⟨bytes_of_int32 v ++ tail, 4⟩ :=
  read_int_at [] tail 0 rfl v h1 h2

theorem at_ptr_at_start (tail : List uchar) (v : Int) :
    xcom_io.at_ptr ⟨bytes_of_int32 v ++ tail, 4⟩ = tail :=
  at_ptr_at [] (bytes_of_int32 v) tail 4 rfl

/-- With the prefix `-2^30` the length check passes on a payload inside the
buffer, and the advance `2 * 2^30`, computed in 32 bits, is `-2^31`. -/
theorem read_wide_overflows (u : util) (b : Bool) (io io1 : xcom_io)
    (hri : read_int io = outcome.ok (-1073741824) io1)
    (hin : io1.ptr_ + 2 * 1073741824 ≤ io.length_) (hsmall : io1.ptr_ < 2147483648) :
    read_unicode_string u b io = outcome.undefined := by
  obtain ⟨hst, -, -, -⟩ := at_ptr_after_read_int io _ io1 hri
  have hl : io1.length_ = io.length_ := by
    unfold xcom_io.length_
    rw [hst]
  have hw : wrap32 (- -1073741824) = 1073741824 := rfl
  have hw2 : wrap32 (2 * 1073741824) = -2147483648 := rfl
  have hsz : to_size_t 1073741824 = 1073741824 := rfl
  have hmod : (io1.ptr_ + 1073741824) % size_modulus ≤ io1.ptr_ + 1073741824 :=
    Nat.mod_le _ _
  unfold read_unicode_string
  rw [hri]
  simp only
  rw [if_neg (by omega), if_pos (by omega), hw, hsz, hl, hw2]
  unfold xcom_io.offset
  rw [if_neg (by omega), if_pos (by omega)]

/-! ## Writing a string into a buffer with room -/

theorem written_length (m w : List uchar) (p q : Nat) (hq : q = p + w.length)
    (h : q ≤ m.length) : (m.take p ++ w ++ m.drop q).length = m.length := by
  simp only [List.length_append, List.length_take, List.length_drop]
  omega

/-- A store by a writer that started at offset `p` of the buffer `m` and has
written the bytes `w` since. -/
theorem put_written (m w bs : List uchar) (p q : Nat) (hq : q = p + w.length)
    (h : q + bs.length ≤ m.length) :
    put ⟨m.take p ++ w ++ m.drop q, q⟩ bs =
      outcome.ok () ⟨m.take p ++ (w ++ bs) ++ m.drop (q + bs.length), q + bs.length⟩ := by
  have hl : (m.take p ++ w).length = q := by
    simp only [List.length_append, List.length_take]
    omega
  have hlen := written_length m w p q hq (by omega)
  have hc : q + bs.length ≤ (m.take p ++ w ++ m.drop q).length := by
    rw [hlen]
    exact h
  unfold put store
  simp only
  rw [if_pos hc]
  simp only
  rw [List.take_left' hl]
  have e : q + bs.length = (m.take p ++ w).length + bs.length := by rw [hl]
  rw [e, List.drop_append, List.drop_drop, hl]
  simp only [List.append_assoc]

theorem write_int_ok (fresh : Nat → uchar) (io : xcom_io) (v : Int)
    (h : io.ptr_ + 4 ≤ io.length_) :
    write_int fresh io v = outcome.ok ()
      ⟨io.start_.take io.ptr_ ++ bytes_of_int32 v ++ io.start_.drop (io.ptr_ + 4),
        io.ptr_ + 4⟩ := by
  unfold write_int
  rw [ensure_enough fresh io 4 h]
  simp only
  rw [put_ok io _ (by rw [bytes_of_int32_length]; exact h), bytes_of_int32_length]

/-- What `write_unicode_string` stores for a non-empty narrow string, given
room for it: the prefix, the Latin-1 bytes and a zero byte. -/
theorem write_narrow_ok (u : util) (fresh : Nat → uchar) (io : xcom_io) (str : List uchar)
    (hne : str ≠ [])
    (hcap : io.ptr_ + ((u.utf8_to_iso8859_1 str).length + 5) ≤ io.length_) :
    write_unicode_string u fresh io ⟨str, false⟩ =
      outcome.ok ()
        ⟨io.start_.take io.ptr_ ++
            (bytes_of_int32 (wrap32 (((u.utf8_to_iso8859_1 str).length + 1 : Nat) : Int)) ++
              u.utf8_to_iso8859_1 str ++ [0]) ++
            io.start_.drop (io.ptr_ + ((u.utf8_to_iso8859_1 str).length + 5)),
          io.ptr_ + ((u.utf8_to_iso8859_1 str).length + 5)⟩ := by
  have hcap2 := hcap
  unfold xcom_io.length_ at hcap2
  unfold write_unicode_string
  have he : str.isEmpty = false := by
    cases str with
    | nil => exact absurd rfl hne
    | cons a l => rfl
  simp only [he, Bool.false_eq_true, if_false]
  rw [ensure_enough fresh io _ hcap]
  simp only
  rw [write_int_ok fresh io _ (by omega)]
  simp only
  rw [put_written _ _ _ _ _ (by rw [bytes_of_int32_length]) (by omega)]
  simp only
  rw [put_written _ _ _ _ _
    (by simp only [List.length_append, bytes_of_int32_length]; omega)
    (by simp only [List.length_cons, List.length_nil]; omega)]
  simp only [List.length_cons, List.length_nil]
  have e : io.ptr_ + 4 + (u.utf8_to_iso8859_1 str).length + (0 + 1) =
      io.ptr_ + ((u.utf8_to_iso8859_1 str).length + 5) := by omega
  rw [e]

/-- What `write_unicode_string` stores for a non-empty wide string, given
room for it: the negative prefix, the code units and a zero code unit. -/
theorem write_wide_ok (u : util) (fresh : Nat → uchar) (io : xcom_io) (str : List uchar)
    (hne : str ≠ [])
    (hcap : io.ptr_ + ((u.utf8_to_utf16 str).length * 2 + 6) ≤ io.length_) :
    write_unicode_string u fresh io ⟨str, true⟩ =
      outcome.ok ()
        ⟨io.start_.take io.ptr_ ++
            (bytes_of_int32 (wrap32 (((((u.utf8_to_utf16 str).length + 1) *
                (size_modulus - 1)) % size_modulus : Nat) : Int)) ++
              bytes_of_u16string (u.utf8_to_utf16 str) ++ [0, 0]) ++
            io.start_.drop (io.ptr_ + ((u.utf8_to_utf16 str).length * 2 + 6)),
          io.ptr_ + ((u.utf8_to_utf16 str).length * 2 + 6)⟩ := by
  have hcap2 := hcap
  unfold xcom_io.length_ at hcap2
  unfold write_unicode_string
  have he : str.isEmpty = false := by
    cases str with
    | nil => exact absurd rfl hne
    | cons a l => rfl
  simp only [he, Bool.false_eq_true, if_false, if_true]
  rw [ensure_enough fresh io _ hcap]
  simp only
  rw [write_int_ok fresh io _ (by omega)]
  simp only
  rw [put_written _ _ _ _ _ (by rw [bytes_of_int32_length])
    (by rw [bytes_of_u16string_length]; omega)]
  simp only
  rw [put_written _ _ _ _ _
    (by simp only [List.length_append, bytes_of_int32_length, bytes_of_u16string_length]; omega)
    (by simp only [List.length_cons, List.length_nil, bytes_of_u16string_length]; omega)]
  simp only [List.length_cons, List.length_nil, bytes_of_u16string_length]
  have e : io.ptr_ + 4 + 2 * (u.utf8_to_utf16 str).length + (0 + 1 + 1) =
      io.ptr_ + ((u.utf8_to_utf16 str).length * 2 + 6) := by omega
  rw [e]

/-! ## What a successful read has seen -/

/-- What a successful strict read has seen. -/
theorem read_unicode_string_ok_inv (u : util) (io io2 : xcom_io) (r : xcom_string)
    (h : read_unicode_string u true io = outcome.ok r io2) :
    ∃ n io1, read_int io = outcome.ok n io1 ∧
      ((n = 0 ∧ r = ⟨[], false⟩ ∧ io2 = io1) ∨
        (n < 0 ∧ ∃ c, c_u16string io1.at_ptr = some c ∧ r = ⟨u.utf16_to_utf8 c, true⟩ ∧
          0 ≤ (io1.ptr_ : Int) + wrap32 (2 * wrap32 (-n)) ∧
          io2 = ⟨io1.start_, ((io1.ptr_ : Int) + wrap32 (2 * wrap32 (-n))).toNat⟩) ∨
        (0 < n ∧ ∃ s, c_string io1.at_ptr = some s ∧ (s.length : Int) = n - 1 ∧
          r = ⟨u.iso8859_1_to_utf8 s, false⟩ ∧ io2 = ⟨io1.start_, io1.ptr_ + n.toNat⟩)) := by
  revert h
  unfold read_unicode_string
  cases hri : read_int io with
  | format_exception off => exact absurd hri (read_int_ne_format_exception io off)
  | undefined => simp
  | ok n io1 =>
    simp only
    intro h
    refine ⟨n, io1, rfl, ?_⟩
    by_cases h0 : n = 0
    · left
      simp only [h0, if_true, outcome.ok.injEq] at h
      exact ⟨h0, h.1.symm, h.2.symm⟩
    by_cases hneg : n < 0
    · right; left
      simp only [h0, hneg, if_true, if_false] at h
      split_ifs at h with hc hp
      cases hcs : c_u16string io1.at_ptr with
      | none => simp [hcs] at h
      | some c =>
        simp only [hcs, outcome.ok.injEq] at h
        exact ⟨hneg, c, rfl, h.1.symm, by omega, h.2.symm⟩
    · right; right
      simp only [h0, hneg, if_false] at h
      split_ifs at h with hc
      cases hcs : c_string io1.at_ptr with
      | none => simp [hcs] at h
      | some s =>
        simp only [hcs] at h
        split_ifs at h with hl
        simp only [outcome.ok.injEq] at h
        refine ⟨by omega, s, rfl, ?_, h.1.symm, h.2.symm⟩
        exact not_not.mp hl

theorem take_written (m w : List uchar) (p q k : Nat) (hp : p ≤ m.length)
    (hk : k = w.length) : ((m.take p ++ w ++ m.drop q).drop p).take k = w := by
  have hl : (m.take p).length = p := by
    simp only [List.length_take]
    omega
  rw [List.append_assoc, List.drop_left' hl, List.take_left' hk.symm]

/-! ## Strings too long for the 32-bit prefix -/

/-- A narrow string of `2^31 - 1` bytes gets the prefix `2^31`, which is the
most negative `int32_t`: reading it back throws. -/
theorem narrow_prefix_overflows (u : util) (fresh : Nat → uchar) (io : xcom_io)
    (s : List uchar) (hne : s ≠ [])
    (hlen : (u.utf8_to_iso8859_1 s).length + 1 = 2147483648)
    (hcap : io.ptr_ + ((u.utf8_to_iso8859_1 s).length + 5) ≤ io.length_)
    (hsmall : io.length_ < 4294967296) :
    ∃ io2, write_unicode_string u fresh io ⟨s, false⟩ = outcome.ok () io2 ∧
      read_unicode_string u true (io2.seek seek_kind.start io.ptr_) =
        outcome.format_exception (io.ptr_ + 4) := by
  refine ⟨_, write_narrow_ok u fresh io s hne hcap, ?_⟩
  have hp : io.ptr_ ≤ io.start_.length := by
    unfold xcom_io.length_ at hcap
    omega
  have htake : io.ptr_ = (io.start_.take io.ptr_).length := by
    simp only [List.length_take]
    omega
  have hpre : wrap32 (((u.utf8_to_iso8859_1 s).length + 1 : Nat) : Int) = -2147483648 := by
    rw [hlen]
    rfl
  rw [hpre]
  simp only [xcom_io.seek, List.append_assoc]
  have hri := read_int_at (io.start_.take io.ptr_)
    (u.utf8_to_iso8859_1 s ++ ([0] ++
      io.start_.drop (io.ptr_ + ((u.utf8_to_iso8859_1 s).length + 5))))
    io.ptr_ htake (-2147483648) (by omega) (by omega)
  have hl : xcom_io.length_ ⟨io.start_.take io.ptr_ ++ (bytes_of_int32 (-2147483648) ++
      (u.utf8_to_iso8859_1 s ++ ([0] ++
        io.start_.drop (io.ptr_ + ((u.utf8_to_iso8859_1 s).length + 5))))), io.ptr_ + 4⟩ =
      io.length_ := by
    unfold xcom_io.length_ at *
    simp only [List.length_append, List.length_take, List.length_drop, bytes_of_int32_length,
      List.length_cons, List.length_nil]
    omega
  have hw : wrap32 (- -2147483648) = -2147483648 := rfl
  have hsz : to_size_t (-2147483648) = 18446744071562067968 := rfl
  unfold read_unicode_string
  rw [hri]
  simp only
  rw [if_neg (by omega), if_pos (by omega), hw, hsz, hl]
  unfold xcom_io.offset size_modulus
  simp only
  rw [if_pos (by omega)]
  rfl

theorem reference_utf8_to_iso8859_1_ascii (n : Nat) :
    reference_utf8_to_iso8859_1 (List.replicate n 0x41) = List.replicate n 0x41 := by
  induction n with
  | zero => rfl
  | succ n ih =>
    rw [List.replicate_succ]
    unfold reference_utf8_to_iso8859_1
    rw [if_pos (by decide), ih]

theorem reference_iso8859_1_to_utf8_ascii (n : Nat) :
    reference_iso8859_1_to_utf8 (List.replicate n 0x41) = List.replicate n 0x41 := by
  induction n with
  | zero => rfl
  | succ n ih =>
    unfold reference_iso8859_1_to_utf8 at ih ⊢
    rw [List.replicate_succ, List.flatMap_cons, ih]
    rfl

/-- A wide string of `2^30 - 1` code units gets the prefix `-2^30`; reading it
back computes the advance `2 * 2^30` in 32 bits, which is negative. -/
theorem wide_advance_overflows (u : util) (fresh : Nat → uchar) (io : xcom_io)
    (s : List uchar) (hne : s ≠ [])
    (hlen : (u.utf8_to_utf16 s).length + 1 = 1073741824)
    (hcap : io.ptr_ + ((u.utf8_to_utf16 s).length * 2 + 6) ≤ io.length_)
    (hsmall : io.ptr_ + 4 < 2147483648) :
    ∃ io2, write_unicode_string u fresh io ⟨s, true⟩ = outcome.ok () io2 ∧
      read_unicode_string u true (io2.seek seek_kind.start io.ptr_) = outcome.undefined := by
  refine ⟨_, write_wide_ok u fresh io s hne hcap, ?_⟩
  have hp : io.ptr_ ≤ io.start_.length := by
    unfold xcom_io.length_ at hcap
    omega
  have htake : io.ptr_ = (io.start_.take io.ptr_).length := by
    simp only [List.length_take]
    omega
  have hpre : wrap32 (((((u.utf8_to_utf16 s).length + 1) * (size_modulus - 1)) %
      size_modulus : Nat) : Int) = -1073741824 := by
    rw [hlen]
    rfl
  rw [hpre]
  simp only [xcom_io.seek, List.append_assoc]
  have hri := read_int_at (io.start_.take io.ptr_)
    (bytes_of_u16string (u.utf8_to_utf16 s) ++ ([0, 0] ++
      io.start_.drop (io.ptr_ + ((u.utf8_to_utf16 s).length * 2 + 6))))
    io.ptr_ htake (-1073741824) (by omega) (by omega)
  have hl : xcom_io.length_ ⟨io.start_.take io.ptr_ ++ (bytes_of_int32 (-1073741824) ++
      (bytes_of_u16string (u.utf8_to_utf16 s) ++ ([0, 0] ++
        io.start_.drop (io.ptr_ + ((u.utf8_to_utf16 s).length * 2 + 6))))), io.ptr_ + 4⟩ =
      io.length_ := by
    unfold xcom_io.length_ at *
    simp only [List.length_append, List.length_take, List.length_drop, bytes_of_int32_length,
      List.length_cons, List.length_nil, bytes_of_u16string_length]
    omega
  have hw : wrap32 (- -1073741824) = 1073741824 := rfl
  have hw2 : wrap32 (2 * 1073741824) = -2147483648 := rfl
  have hsz : to_size_t 1073741824 = 1073741824 := rfl
  have hmod : (io.ptr_ + 4 + 1073741824) % size_modulus ≤ io.ptr_ + 4 + 1073741824 :=
    Nat.mod_le _ _
  unfold xcom_io.length_ at hcap
  unfold read_unicode_string
  rw [hri]
  simp only
  rw [if_neg (by omega), if_pos (by omega), hw, hsz, hl, hw2]
  unfold xcom_io.offset xcom_io.length_
  simp only
  rw [if_neg (by omega), if_pos (by omega)]

theorem reference_utf8_to_utf16_ascii (n : Nat) :
    reference_utf8_to_utf16 (List.replicate n 0x41) = List.replicate n 0x41 := by
  induction n with
  | zero => rfl
  | succ n ih =>
    rw [List.replicate_succ]
    unfold reference_utf8_to_utf16
    rw [if_pos (by decide), ih]
    rfl

theorem reference_utf16_to_utf8_ascii (n : Nat) :
    reference_utf16_to_utf8 (List.replicate n 0x41) = List.replicate n 0x41 := by
  induction n with
  | zero => rfl
  | succ n ih =>
    cases n with
    | zero => rfl
    | succ m =>
      rw [List.replicate_succ, List.replicate_succ]
      unfold reference_utf16_to_utf8
      rw [if_neg (by decide), ← List.replicate_succ, ih]
      rfl

/-! ## C1: re-encoding what was decoded -/

/-- C1 (counterexample): the prefix 1 with a lone zero byte is read as the
empty string after 5 bytes, and the empty string is written back as the
4-byte zero prefix; the prefix `-3` with the code units `0x0041 0x0000
0x0042` is read as `"A"` after 10 bytes, and `"A"` is written back in 8
bytes with the prefix `-2`. -/
theorem reencode_counterexample :
    (read_unicode_string util.reference true ⟨[1, 0, 0, 0, 0], 0⟩ =
        outcome.ok ⟨[], false⟩ ⟨[1, 0, 0, 0, 0], 5⟩ ∧
      write_unicode_string util.reference zero_fill ⟨[7, 7, 7, 7, 7, 7, 7, 7], 0⟩ ⟨[], false⟩ =
        outcome.ok () ⟨[0, 0, 0, 0, 7, 7, 7, 7], 4⟩) ∧
    (read_unicode_string util.reference true
          ⟨[0xFD, 0xFF, 0xFF, 0xFF, 0x41, 0, 0, 0, 0x42, 0], 0⟩ =
        outcome.ok ⟨[0x41], true⟩ ⟨[0xFD, 0xFF, 0xFF, 0xFF, 0x41, 0, 0, 0, 0x42, 0], 10⟩ ∧
      write_unicode_string util.reference zero_fill
          ⟨[7, 7, 7, 7, 7, 7, 7, 7, 7, 7, 7, 7], 0⟩ ⟨[0x41], true⟩ =
        outcome.ok () ⟨[0xFE, 0xFF, 0xFF, 0xFF, 0x41, 0, 0, 0, 7, 7, 7, 7], 8⟩) := by
  decide

/-- C1 (as amended): let the strict `read_unicode_string` return `r` and move
the cursor by `k` bytes, where either the prefix read is 0, or `r.str` is not
empty, the transcoders take `r.str` back to the characters that were read
and, for a wide string, the payload ends with its first zero code unit. Then
`write_unicode_string(r)` into a writer with `k` writable bytes stores exactly
`k` bytes, and they are the `k` bytes that were read. -/
theorem reencode_is_identical (u : util) (fresh : Nat → uchar) (io io2 wr : xcom_io)
    (r : xcom_string) (hread : read_unicode_string u true io = outcome.ok r io2)
    (hcond : read_int io = outcome.ok 0 io2 ∨
      (r.str ≠ [] ∧
        (r.is_wide = false →
          ∀ p, c_string (io.at_ptr.drop 4) = some p → u.utf8_to_iso8859_1 r.str = p) ∧
        (r.is_wide = true →
          ∀ c, c_u16string (io.at_ptr.drop 4) = some c →
            u.utf8_to_utf16 r.str = c ∧ io2.ptr_ = io.ptr_ + 4 + 2 * (c.length + 1))))
    (hcap : wr.ptr_ + (io2.ptr_ - io.ptr_) ≤ wr.length_) :
    ∃ wr2, write_unicode_string u fresh wr r = outcome.ok () wr2 ∧
      wr2.ptr_ = wr.ptr_ + (io2.ptr_ - io.ptr_) ∧
      (wr2.start_.drop wr.ptr_).take (io2.ptr_ - io.ptr_) =
        (io.start_.drop io.ptr_).take (io2.ptr_ - io.ptr_) := by
  obtain ⟨n, io1, hri, hcases⟩ := read_unicode_string_ok_inv u io io2 r hread
  obtain ⟨hst, hp1, hat1, hin⟩ := at_ptr_after_read_int io n io1 hri
  obtain ⟨b0, b1, b2, b3, rest0, hat, hn, -⟩ := (read_int_eq_ok_iff io n io1).mp hri
  have hrange := int32_of_bytes_range b0 b1 b2 b3
  rw [← hn] at hrange
  have hbytes : bytes_of_int32 n = [b0, b1, b2, b3] := by
    rw [hn]
    exact bytes_of_int32_of_bytes b0 b1 b2 b3
  have hwp : wr.ptr_ ≤ wr.start_.length := by
    unfold xcom_io.length_ at hcap
    omega
  have hzero : n = 0 → ∃ wr2, write_unicode_string u fresh wr r = outcome.ok () wr2 ∧
      wr2.ptr_ = wr.ptr_ + (io2.ptr_ - io.ptr_) ∧
      (wr2.start_.drop wr.ptr_).take (io2.ptr_ - io.ptr_) =
        (io.start_.drop io.ptr_).take (io2.ptr_ - io.ptr_) := by
    intro h0
    rcases hcases with ⟨-, hr, hio2⟩ | ⟨hneg, -⟩ | ⟨hpos, -⟩
    · have hk : io2.ptr_ - io.ptr_ = 4 := by
        rw [hio2, hp1]
        omega
      rw [hk] at hcap ⊢
      have hwrite : write_unicode_string u fresh wr r = write_int fresh wr 0 := by
        rw [hr]
        simp [write_unicode_string]
      rw [hwrite, write_int_ok fresh wr 0 hcap]
      refine ⟨_, rfl, rfl, ?_⟩
      simp only
      rw [take_written _ _ _ _ _ hwp (by rw [bytes_of_int32_length]), ← h0, hbytes]
      have hio : io.start_.drop io.ptr_ = io.at_ptr := rfl
      rw [hio, hat]
      rfl
    · omega
    · omega
  by_cases h0 : n = 0
  · exact hzero h0
  have hrest : r.str ≠ [] ∧
      (r.is_wide = false →
        ∀ p, c_string (io.at_ptr.drop 4) = some p → u.utf8_to_iso8859_1 r.str = p) ∧
      (r.is_wide = true →
        ∀ c, c_u16string (io.at_ptr.drop 4) = some c →
          u.utf8_to_utf16 r.str = c ∧ io2.ptr_ = io.ptr_ + 4 + 2 * (c.length + 1)) := by
    rcases hcond with hz | hrest
    · rw [hri] at hz
      injection hz with hz
      exact absurd hz h0
    · exact hrest
  obtain ⟨hne, hnarrow, hwide⟩ := hrest
  rcases hcases with ⟨hz, -, -⟩ | ⟨hneg, c, hc, hr, hpos, hio2⟩ | ⟨hpos, s, hs, hlen, hr, hio2⟩
  · exact absurd hz h0
  · -- the wide branch
    have hw : r.is_wide = true := by rw [hr]
    rw [hat1] at hc
    obtain ⟨hconv, hend⟩ := hwide hw c hc
    obtain ⟨-, rest, hrest⟩ := c_u16string_eq_some _ c hc
    have hk : io2.ptr_ - io.ptr_ = (u.utf8_to_utf16 r.str).length * 2 + 6 := by
      rw [hend, hconv]
      omega
    have hnc : n = -((c.length + 1 : Nat) : Int) := by
      have e := congrArg xcom_io.ptr_ hio2
      simp only at e
      rw [hend, hp1] at e
      unfold wrap32 at e hpos
      omega
    have hpre : wrap32 (((((u.utf8_to_utf16 r.str).length + 1) * (size_modulus - 1)) %
        size_modulus : Nat) : Int) = n := by
      rw [hconv, hnc]
      unfold wrap32 size_modulus
      omega
    have hr2 : r = ⟨r.str, true⟩ := by rw [hr]
    rw [hk] at hcap
    have hwrite := write_wide_ok u fresh wr r.str hne hcap
    rw [← hr2] at hwrite
    refine ⟨_, hwrite, ?_, ?_⟩
    · simp only
      rw [hk]
    · simp only
      rw [hk, hpre, hbytes, hconv,
        take_written _ _ _ _ _ hwp
          (by simp only [List.length_append, List.length_cons, List.length_nil,
                bytes_of_u16string_length]; omega)]
      have hio : io.start_.drop io.ptr_ = io.at_ptr := rfl
      rw [hio, hat]
      rw [hat] at hrest
      simp only [List.drop_succ_cons, List.drop_zero] at hrest
      rw [hrest]
      have e : c.length * 2 + 6 =
          ([b0, b1, b2, b3] ++ bytes_of_u16string c ++ [0, 0]).length := by
        simp only [List.length_append, List.length_cons, List.length_nil,
          bytes_of_u16string_length]
        omega
      rw [e]
      have e2 : b0 :: b1 :: b2 :: b3 :: (bytes_of_u16string c ++ 0 :: 0 :: rest) =
          ([b0, b1, b2, b3] ++ bytes_of_u16string c ++ [0, 0]) ++ rest := by simp
      rw [e2, List.take_left]
  · -- the narrow branch
    have hw : r.is_wide = false := by rw [hr]
    rw [hat1] at hs
    have hconv := hnarrow hw s hs
    obtain ⟨-, rest, hrest⟩ := c_string_eq_some _ s hs
    have hk : io2.ptr_ - io.ptr_ = (u.utf8_to_iso8859_1 r.str).length + 5 := by
      have e := congrArg xcom_io.ptr_ hio2
      simp only at e
      rw [e, hp1, hconv]
      omega
    have hpre : wrap32 (((u.utf8_to_iso8859_1 r.str).length + 1 : Nat) : Int) = n := by
      rw [hconv]
      unfold wrap32
      omega
    have hr2 : r = ⟨r.str, false⟩ := by rw [hr]
    rw [hk] at hcap
    have hwrite := write_narrow_ok u fresh wr r.str hne hcap
    rw [← hr2] at hwrite
    refine ⟨_, hwrite, ?_, ?_⟩
    · simp only
      rw [hk]
    · simp only
      rw [hk, hpre, hbytes, hconv,
        take_written _ _ _ _ _ hwp
          (by simp only [List.length_append, List.length_cons, List.length_nil]; omega)]
      have hio : io.start_.drop io.ptr_ = io.at_ptr := rfl
      rw [hio, hat]
      rw [hat] at hrest
      simp only [List.drop_succ_cons, List.drop_zero] at hrest
      rw [hrest]
      have e : s.length + 5 = ([b0, b1, b2, b3] ++ s ++ [0]).length := by
        simp only [List.length_append, List.length_cons, List.length_nil]
        omega
      rw [e]
      have e2 : b0 :: b1 :: b2 :: b3 :: (s ++ 0 :: rest) = ([b0, b1, b2, b3] ++ s ++ [0]) ++ rest := by
        simp
      rw [e2, List.take_left]

/-- C1 (witness): the four bytes of a zero prefix, whatever follows them, the
six bytes of the narrow string `"A"` and the eight bytes of the wide string
`"A"` are written back unchanged. -/
theorem reencode_is_identical_witness :
    (∃ wr2, write_unicode_string util.reference zero_fill ⟨[7, 7, 7, 7, 7, 7, 7, 7], 1⟩
        ⟨[], false⟩ = outcome.ok () wr2 ∧
      wr2.ptr_ = 1 + (4 - 0) ∧
      (wr2.start_.drop 1).take (4 - 0) =
        (([0, 0, 0, 0, 5, 0, 0, 0] : List uchar).drop 0).take (4 - 0)) ∧
    (∃ wr2, write_unicode_string util.reference zero_fill ⟨[7, 7, 7, 7, 7, 7, 7, 7], 1⟩
        ⟨[0x41], false⟩ = outcome.ok () wr2 ∧
      wr2.ptr_ = 1 + (6 - 0) ∧
      (wr2.start_.drop 1).take (6 - 0) =
        (([2, 0, 0, 0, 0x41, 0] : List uchar).drop 0).take (6 - 0)) ∧
    (∃ wr2, write_unicode_string util.reference zero_fill ⟨[7, 7, 7, 7, 7, 7, 7, 7, 7], 1⟩
        ⟨[0x41], true⟩ = outcome.ok () wr2 ∧
      wr2.ptr_ = 1 + (8 - 0) ∧
      (wr2.start_.drop 1).take (8 - 0) =
        (([0xFE, 0xFF, 0xFF, 0xFF, 0x41, 0, 0, 0] : List uchar).drop 0).take (8 - 0)) :=
  ⟨reencode_is_identical util.reference zero_fill ⟨[0, 0, 0, 0, 5, 0, 0, 0], 0⟩
      ⟨[0, 0, 0, 0, 5, 0, 0, 0], 4⟩ ⟨[7, 7, 7, 7, 7, 7, 7, 7], 1⟩ ⟨[], false⟩
      (by decide) (Or.inl (by decide)) (by decide),
    reencode_is_identical util.reference zero_fill ⟨[2, 0, 0, 0, 0x41, 0], 0⟩
      ⟨[2, 0, 0, 0, 0x41, 0], 6⟩ ⟨[7, 7, 7, 7, 7, 7, 7, 7], 1⟩ ⟨[0x41], false⟩
      (by decide)
      (Or.inr ⟨by decide,
        fun _ p hp => by
          have h2 : c_string ((xcom_io.at_ptr ⟨[2, 0, 0, 0, 0x41, 0], 0⟩).drop 4) =
              some [0x41] := by decide
          have h3 := Option.some.inj (h2.symm.trans hp)
          rw [← h3]
          rfl,
        fun h => absurd h (by decide)⟩)
      (by decide),
    reencode_is_identical util.reference zero_fill
      ⟨[0xFE, 0xFF, 0xFF, 0xFF, 0x41, 0, 0, 0], 0⟩
      ⟨[0xFE, 0xFF, 0xFF, 0xFF, 0x41, 0, 0, 0], 8⟩ ⟨[7, 7, 7, 7, 7, 7, 7, 7, 7], 1⟩
      ⟨[0x41], true⟩
      (by decide)
      (Or.inr ⟨by decide,
        fun h => absurd h (by decide),
        fun _ c hc => by
          have h2 : c_u16string
              ((xcom_io.at_ptr ⟨[0xFE, 0xFF, 0xFF, 0xFF, 0x41, 0, 0, 0], 0⟩).drop 4) =
              some [0x41] := by decide
          have h3 := Option.some.inj (h2.symm.trans hc)
          rw [← h3]
          exact ⟨by decide, by decide⟩⟩)
      (by decide)⟩

/-! ## C2: decoding what was encoded -/

/-- C2 (counterexample): a string of letters `A` is non-empty, holds no NUL
and is kept by the transcoders, and the writer has room for it. With
`2^31 - 1` letters the narrow prefix is `2^31`, which is stored as the most
negative 32-bit value, and reading back throws a format error. With
`2^30 - 1` letters the wide string is stored with the prefix `-2^30`, and
reading back advances the cursor by `2 * 2^30` computed in 32 bits, which
takes it before the buffer. -/
theorem decode_of_encode_counterexample :
    (List.replicate 2147483647 (0x41 : uchar) ≠ [] ∧
      (0 : uchar) ∉ List.replicate 2147483647 (0x41 : uchar) ∧
      util.reference.iso8859_1_to_utf8
          (util.reference.utf8_to_iso8859_1 (List.replicate 2147483647 (0x41 : uchar))) =
        List.replicate 2147483647 (0x41 : uchar) ∧
      xcom_io.ptr_ ⟨List.replicate 2147483652 0, 0⟩ + (2147483647 + 5) ≤
        xcom_io.length_ ⟨List.replicate 2147483652 0, 0⟩ ∧
      ∃ io2, write_unicode_string util.reference zero_fill ⟨List.replicate 2147483652 0, 0⟩
            ⟨List.replicate 2147483647 (0x41 : uchar), false⟩ = outcome.ok () io2 ∧
        read_unicode_string util.reference true (io2.seek seek_kind.start 0) =
          outcome.format_exception 4) ∧
    (List.replicate 1073741823 (0x41 : uchar) ≠ [] ∧
      (0 : uchar) ∉ List.replicate 1073741823 (0x41 : uchar) ∧
      util.reference.utf16_to_utf8
          (util.reference.utf8_to_utf16 (List.replicate 1073741823 (0x41 : uchar))) =
        List.replicate 1073741823 (0x41 : uchar) ∧
      xcom_io.ptr_ ⟨List.replicate 2147483652 0, 0⟩ + (1073741823 * 2 + 6) ≤
        xcom_io.length_ ⟨List.replicate 2147483652 0, 0⟩ ∧
      ∃ io2, write_unicode_string util.reference zero_fill ⟨List.replicate 2147483652 0, 0⟩
            ⟨List.replicate 1073741823 (0x41 : uchar), true⟩ = outcome.ok () io2 ∧
        read_unicode_string util.reference true (io2.seek seek_kind.start 0) =
          outcome.undefined) := by
  have hne : List.replicate 2147483647 (0x41 : uchar) ≠ [] := by
    intro h
    have h2 := congrArg List.length h
    rw [List.length_replicate] at h2
    exact absurd h2 (by decide)
  have hne2 : List.replicate 1073741823 (0x41 : uchar) ≠ [] := by
    intro h
    have h2 := congrArg List.length h
    rw [List.length_replicate] at h2
    exact absurd h2 (by decide)
  have hconv : util.reference.utf8_to_iso8859_1 (List.replicate 2147483647 (0x41 : uchar)) =
      List.replicate 2147483647 (0x41 : uchar) := reference_utf8_to_iso8859_1_ascii 2147483647
  have hconv2 : util.reference.utf8_to_utf16 (List.replicate 1073741823 (0x41 : uchar)) =
      List.replicate 1073741823 (0x41 : char16) := reference_utf8_to_utf16_ascii 1073741823
  have hlenio : xcom_io.length_ ⟨List.replicate 2147483652 0, 0⟩ = 2147483652 :=
    List.length_replicate 2147483652 0
  refine ⟨⟨hne, ?_, ?_, ?_, ?_⟩, ⟨hne2, ?_, ?_, ?_, ?_⟩⟩
  · intro h
    exact absurd (List.eq_of_mem_replicate h) (by decide)
  · rw [hconv]
    exact reference_iso8859_1_to_utf8_ascii 2147483647
  · rw [hlenio]
  · exact narrow_prefix_overflows util.reference zero_fill ⟨List.replicate 2147483652 0, 0⟩
      (List.replicate 2147483647 (0x41 : uchar)) hne
      (by rw [hconv, List.length_replicate])
      (by rw [hconv, List.length_replicate, hlenio])
      (by rw [hlenio]; decide)
  · intro h
    exact absurd (List.eq_of_mem_replicate h) (by decide)
  · rw [hconv2]
    exact reference_utf16_to_utf8_ascii 1073741823
  · rw [hlenio]
  · exact wide_advance_overflows util.reference zero_fill ⟨List.replicate 2147483652 0, 0⟩
      (List.replicate 1073741823 (0x41 : uchar)) hne2
      (by rw [hconv2, List.length_replicate])
      (by rw [hconv2, List.length_replicate, hlenio])
      (by decide)

/-- C2 (as amended): let `s` be a non-empty string whose transcoding (to
UTF-16 when `w` is true, to Latin-1 when `w` is false) holds no NUL, converts
back to `s`, and is short enough for the 32-bit prefix (fewer than `2^30 - 1`
code units, or fewer than `2^31 - 1` bytes). Writing `s` with the flag `w`
into a writer with room, seeking back to where the write began and calling
`read_unicode_string` (strict or not) returns `s` and `w`, and leaves the
cursor at the end of the bytes that were written. -/
theorem decode_of_encode (u : util) (fresh : Nat → uchar) (io : xcom_io) (s : List uchar)
    (w b : Bool) (hne : s ≠ [])
    (hwide : w = true →
      (0 : char16) ∉ u.utf8_to_utf16 s ∧ u.utf16_to_utf8 (u.utf8_to_utf16 s) = s ∧
        (u.utf8_to_utf16 s).length + 1 < 1073741824 ∧
        io.ptr_ + ((u.utf8_to_utf16 s).length * 2 + 6) ≤ io.length_)
    (hnarrow : w = false →
      (0 : uchar) ∉ u.utf8_to_iso8859_1 s ∧ u.iso8859_1_to_utf8 (u.utf8_to_iso8859_1 s) = s ∧
        (u.utf8_to_iso8859_1 s).length + 1 < 2147483648 ∧
        io.ptr_ + ((u.utf8_to_iso8859_1 s).length + 5) ≤ io.length_) :
    ∃ io2, write_unicode_string u fresh io ⟨s, w⟩ = outcome.ok () io2 ∧
      read_unicode_string u b (io2.seek seek_kind.start io.ptr_) = outcome.ok ⟨s, w⟩ io2 := by
  cases w with
  | true =>
    obtain ⟨h0, hback, hlen, hcap⟩ := hwide rfl
    refine ⟨_, write_wide_ok u fresh io s hne hcap, ?_⟩
    have hp : io.ptr_ ≤ io.start_.length := by
      unfold xcom_io.length_ at hcap
      omega
    have htake : io.ptr_ = (io.start_.take io.ptr_).length := by
      simp only [List.length_take]
      omega
    have hpre : wrap32 (((((u.utf8_to_utf16 s).length + 1) * (size_modulus - 1)) %
        size_modulus : Nat) : Int) = -(((u.utf8_to_utf16 s).length + 1 : Nat) : Int) := by
      unfold wrap32 size_modulus
      omega
    rw [hpre]
    simp only [xcom_io.seek, List.append_assoc]
    have hri := read_int_at (io.start_.take io.ptr_)
      (bytes_of_u16string (u.utf8_to_utf16 s) ++ ([0, 0] ++
        io.start_.drop (io.ptr_ + ((u.utf8_to_utf16 s).length * 2 + 6))))
      io.ptr_ htake (-(((u.utf8_to_utf16 s).length + 1 : Nat) : Int)) (by omega) (by omega)
    have hpay := at_ptr_at (io.start_.take io.ptr_)
      (bytes_of_int32 (-(((u.utf8_to_utf16 s).length + 1 : Nat) : Int)))
      (bytes_of_u16string (u.utf8_to_utf16 s) ++ ([0, 0] ++
        io.start_.drop (io.ptr_ + ((u.utf8_to_utf16 s).length * 2 + 6))))
      (io.ptr_ + 4) (by rw [bytes_of_int32_length, ← htake])
    rw [read_wide_ok u b _ _ (u.utf8_to_utf16 s) _ hlen hri hpay h0, hback]
    have e : io.ptr_ + 4 + 2 * ((u.utf8_to_utf16 s).length + 1) =
        io.ptr_ + ((u.utf8_to_utf16 s).length * 2 + 6) := by omega
    rw [e]
  | false =>
    obtain ⟨h0, hback, hlen, hcap⟩ := hnarrow rfl
    refine ⟨_, write_narrow_ok u fresh io s hne hcap, ?_⟩
    have hp : io.ptr_ ≤ io.start_.length := by
      unfold xcom_io.length_ at hcap
      omega
    have htake : io.ptr_ = (io.start_.take io.ptr_).length := by
      simp only [List.length_take]
      omega
    have hpre : wrap32 (((u.utf8_to_iso8859_1 s).length + 1 : Nat) : Int) =
        (((u.utf8_to_iso8859_1 s).length + 1 : Nat) : Int) := by
      unfold wrap32
      omega
    rw [hpre]
    simp only [xcom_io.seek, List.append_assoc]
    have hri := read_int_at (io.start_.take io.ptr_)
      (u.utf8_to_iso8859_1 s ++ ([0] ++
        io.start_.drop (io.ptr_ + ((u.utf8_to_iso8859_1 s).length + 5))))
      io.ptr_ htake (((u.utf8_to_iso8859_1 s).length + 1 : Nat) : Int) (by omega) (by omega)
    have hpay := at_ptr_at (io.start_.take io.ptr_)
      (bytes_of_int32 (((u.utf8_to_iso8859_1 s).length + 1 : Nat) : Int))
      (u.utf8_to_iso8859_1 s ++ ([0] ++
        io.start_.drop (io.ptr_ + ((u.utf8_to_iso8859_1 s).length + 5))))
      (io.ptr_ + 4) (by rw [bytes_of_int32_length, ← htake])
    rw [read_narrow_ok u b _ _ (u.utf8_to_iso8859_1 s) _ hri hpay h0, hback]
    have e : io.ptr_ + 4 + ((u.utf8_to_iso8859_1 s).length + 1) =
        io.ptr_ + ((u.utf8_to_iso8859_1 s).length + 5) := by omega
    rw [e]

/-- C2 (witness): the string `"Aé"` is written and read back wide, and
written and read back narrow. -/
theorem decode_of_encode_witness :
    (∃ io2, write_unicode_string util.reference zero_fill
          ⟨[7, 7, 7, 7, 7, 7, 7, 7, 7, 7, 7, 7], 1⟩ ⟨[0x41, 0xC3, 0xA9], true⟩ =
        outcome.ok () io2 ∧
      read_unicode_string util.reference true (io2.seek seek_kind.start 1) =
        outcome.ok ⟨[0x41, 0xC3, 0xA9], true⟩ io2) ∧
    (∃ io2, write_unicode_string util.reference zero_fill
          ⟨[7, 7, 7, 7, 7, 7, 7, 7, 7, 7, 7, 7], 1⟩ ⟨[0x41, 0xC3, 0xA9], false⟩ =
        outcome.ok () io2 ∧
      read_unicode_string util.reference true (io2.seek seek_kind.start 1) =
        outcome.ok ⟨[0x41, 0xC3, 0xA9], false⟩ io2) :=
  ⟨decode_of_encode util.reference zero_fill ⟨[7, 7, 7, 7, 7, 7, 7, 7, 7, 7, 7, 7], 1⟩
      [0x41, 0xC3, 0xA9] true true (by decide)
      (fun _ => ⟨by decide, by decide, by decide, by decide⟩)
      (fun h => absurd h (by decide)),
    decode_of_encode util.reference zero_fill ⟨[7, 7, 7, 7, 7, 7, 7, 7, 7, 7, 7, 7], 1⟩
      [0x41, 0xC3, 0xA9] false true (by decide)
      (fun h => absurd h (by decide))
      (fun _ => ⟨by decide, by decide, by decide, by decide⟩)⟩

/-! ## C3: bounds checks in the primitive reads -/

/-- C3 (counterexample): with three bytes left `read_int`, `read_float` and
`read_bool` do not throw a format error, nor does `read_byte` at the end of
the buffer or `read_raw_bytes(5)` with three bytes left: each reads outside
the buffer. -/
theorem primitive_reads_unchecked_counterexample :
    read_int ⟨[1, 2, 3], 0⟩ = outcome.undefined ∧
    read_float ⟨[1, 2, 3], 0⟩ = outcome.undefined ∧
    read_bool ⟨[1, 2, 3], 0⟩ = outcome.undefined ∧
    read_byte ⟨[1, 2, 3], 3⟩ = outcome.undefined ∧
    read_raw_bytes ⟨[1, 2, 3], 0⟩ 5 = outcome.undefined := by
  decide

/-- C3 (as amended): the primitive reads make no bounds check. None of
`read_int`, `read_float`, `read_bool`, `read_byte` and `read_raw_bytes(n)`
throws a format error in any state, and in a state where fewer bytes remain
than the read needs the read leaves the buffer (undefined behaviour). -/
theorem primitive_reads_unchecked (io : xcom_io) (n : Nat) :
    ((∀ off, read_int io ≠ outcome.format_exception off) ∧
      (∀ off, read_float io ≠ outcome.format_exception off) ∧
      (∀ off, read_bool io ≠ outcome.format_exception off) ∧
      (∀ off, read_byte io ≠ outcome.format_exception off) ∧
      (∀ off, read_raw_bytes io n ≠ outcome.format_exception off)) ∧
    (io.length_ - io.ptr_ < 4 →
      read_int io = outcome.undefined ∧ read_float io = outcome.undefined ∧
        read_bool io = outcome.undefined) ∧
    (io.length_ - io.ptr_ < 1 → read_byte io = outcome.undefined) ∧
    (io.length_ - io.ptr_ < n → read_raw_bytes io n = outcome.undefined) := by
  refine ⟨⟨read_int_ne_format_exception io, read_float_ne_format_exception io,
    read_bool_ne_format_exception io, read_byte_ne_format_exception io,
    read_raw_bytes_ne_format_exception io n⟩, ?_, ?_, ?_⟩
  · intro h
    have h4 : io.length_ < io.ptr_ + 4 := by omega
    exact ⟨read_int_undefined_of_short io h4, read_float_undefined_of_short io h4,
      read_bool_undefined_of_short io h4⟩
  · intro h
    exact read_byte_undefined_of_short io (by omega)
  · intro h
    exact read_raw_bytes_undefined_of_short io n h

/-- C3 (witness): the amended statement at a three-byte buffer. -/
theorem primitive_reads_unchecked_witness :
    (read_int ⟨[1, 2, 3], 0⟩ = outcome.undefined ∧
      read_float ⟨[1, 2, 3], 0⟩ = outcome.undefined ∧
      read_bool ⟨[1, 2, 3], 0⟩ = outcome.undefined) ∧
    read_byte ⟨[1, 2, 3], 3⟩ = outcome.undefined ∧
    read_raw_bytes ⟨[1, 2, 3], 1⟩ 3 = outcome.undefined :=
  ⟨(primitive_reads_unchecked ⟨[1, 2, 3], 0⟩ 0).2.1 (by decide),
    (primitive_reads_unchecked ⟨[1, 2, 3], 3⟩ 0).2.2.1 (by decide),
    (primitive_reads_unchecked ⟨[1, 2, 3], 1⟩ 3).2.2.2 (by decide)⟩

/-! ## C4: the length check of the wide branch -/

/-- C4 (the code at the failing input): the buffer holds the prefix `-2` and
only three of the four payload bytes. The check compares `offset + 2`
(code units, not bytes) with the length 7 and passes; the string is then
read through the end of the buffer (undefined behaviour), and no format
error is thrown. With the prefix `-3` and four of six payload bytes the
call even returns, leaving the cursor at 10 in a buffer of 8 bytes. -/
theorem wide_length_check_counts_units (u : util) :
    read_int ⟨[0xFE, 0xFF, 0xFF, 0xFF, 0x41, 0, 0], 0⟩ =
      outcome.ok (-2) ⟨[0xFE, 0xFF, 0xFF, 0xFF, 0x41, 0, 0], 4⟩ ∧
    read_unicode_string u true ⟨[0xFE, 0xFF, 0xFF, 0xFF, 0x41, 0, 0], 0⟩ =
      outcome.undefined ∧
    read_int ⟨[0xFD, 0xFF, 0xFF, 0xFF, 0x41, 0, 0, 0], 0⟩ =
      outcome.ok (-3) ⟨[0xFD, 0xFF, 0xFF, 0xFF, 0x41, 0, 0, 0], 4⟩ ∧
    read_unicode_string u true ⟨[0xFD, 0xFF, 0xFF, 0xFF, 0x41, 0, 0, 0], 0⟩ =
      outcome.ok ⟨u.utf16_to_utf8 [0x41], true⟩
        ⟨[0xFD, 0xFF, 0xFF, 0xFF, 0x41, 0, 0, 0], 10⟩ := by
  refine ⟨by decide, ?_, by decide, ?_⟩
  · rfl
  · rfl

/-! ## C5: `ensure` -/

/-- C5 (the code at the failing input): a writer with a buffer of 4 bytes and
the cursor at its end asks for 9 bytes. `ensure` doubles the buffer once, to
8 bytes, and returns: `offset + 9 = 13` is still past the end. -/
theorem ensure_doubles_only_once :
    ensure zero_fill ⟨[7, 7, 7, 7], 4⟩ 9 = outcome.ok () ⟨[7, 7, 7, 7, 0, 0, 0, 0], 4⟩ ∧
    xcom_io.length_ ⟨[7, 7, 7, 7, 0, 0, 0, 0], 4⟩ < xcom_io.offset ⟨[7, 7, 7, 7, 0, 0, 0, 0], 4⟩ + 9 := by
  decide

/-! ## Reads with the memory after the buffer -/

theorem mem_at_nil (io : xcom_io) : io.mem_at [] = io.at_ptr := by
  simp [xcom_io.mem_at, xcom_io.at_ptr]

/-- With nothing known after the buffer the reads are those of the buffer
alone. -/
theorem mem_read_int_nil (io : xcom_io) : mem.read_int [] io = read_int io := by
  unfold mem.read_int read_int
  rw [mem_at_nil]

theorem mem_read_float_nil (io : xcom_io) : mem.read_float [] io = read_float io := by
  unfold mem.read_float read_float
  rw [mem_at_nil]

theorem mem_read_bool_nil (io : xcom_io) : mem.read_bool [] io = read_bool io := by
  unfold mem.read_bool read_bool
  rw [mem_read_int_nil]

theorem mem_read_byte_nil (io : xcom_io) : mem.read_byte [] io = read_byte io := by
  unfold mem.read_byte read_byte
  rw [mem_at_nil]

theorem mem_read_raw_bytes_nil (io : xcom_io) (n : Nat) :
    mem.read_raw_bytes [] io n = read_raw_bytes io n := by
  unfold mem.read_raw_bytes read_raw_bytes
  rw [mem_at_nil]

theorem mem_read_unicode_string_nil (u : util) (b : Bool) (io : xcom_io) :
    mem.read_unicode_string [] u b io = read_unicode_string u b io := by
  unfold mem.read_unicode_string read_unicode_string
  rw [mem_read_int_nil]
  simp only [mem_at_nil]

theorem mem_read_string_nil (u : util) (dflt : Bool) (io : xcom_io) :
    mem.read_string [] u dflt io = read_string u dflt io := by
  unfold mem.read_string read_string
  rw [mem_read_unicode_string_nil]

/-- C7 (counterexample): the conversion stops at the first zero code unit,
wherever the prefix says the string ends. With prefix `-1` and the payload
`0x0041` inside the buffer, followed by `0x0042 0x0000`, the call returns the
transcoding of two code units, not of the first `n - 1 = 0`; with prefix `-3`
and the payload `0x0041 0x0000 0x0042` it returns the transcoding of one code
unit, not of the first two. And with prefix `-2^30` and a payload of
`2^30 - 1` letters `A` and a zero code unit, all inside the buffer, the call
does not return: the advance `2 * 2^30` is computed in 32 bits. -/
theorem wide_read_counterexample :
    (read_int ⟨[0xFF, 0xFF, 0xFF, 0xFF, 0x41, 0, 0x42, 0, 0, 0], 0⟩ =
        outcome.ok (-1) ⟨[0xFF, 0xFF, 0xFF, 0xFF, 0x41, 0, 0x42, 0, 0, 0], 4⟩ ∧
      read_unicode_string util.reference true
          ⟨[0xFF, 0xFF, 0xFF, 0xFF, 0x41, 0, 0x42, 0, 0, 0], 0⟩ =
        outcome.ok ⟨[0x41, 0x42], true⟩ ⟨[0xFF, 0xFF, 0xFF, 0xFF, 0x41, 0, 0x42, 0, 0, 0], 6⟩ ∧
      util.reference.utf16_to_utf8 [] = []) ∧
    (read_int ⟨[0xFD, 0xFF, 0xFF, 0xFF, 0x41, 0, 0, 0, 0x42, 0], 0⟩ =
        outcome.ok (-3) ⟨[0xFD, 0xFF, 0xFF, 0xFF, 0x41, 0, 0, 0, 0x42, 0], 4⟩ ∧
      read_unicode_string util.reference true
          ⟨[0xFD, 0xFF, 0xFF, 0xFF, 0x41, 0, 0, 0, 0x42, 0], 0⟩ =
        outcome.ok ⟨[0x41], true⟩ ⟨[0xFD, 0xFF, 0xFF, 0xFF, 0x41, 0, 0, 0, 0x42, 0], 10⟩ ∧
      util.reference.utf16_to_utf8 [0x41, 0] = [0x41, 0]) ∧
    (read_int ⟨bytes_of_int32 (-1073741824) ++
          (bytes_of_u16string (List.replicate 1073741823 0x41) ++ [0, 0]), 0⟩ =
        outcome.ok (-1073741824) ⟨bytes_of_int32 (-1073741824) ++
          (bytes_of_u16string (List.replicate 1073741823 0x41) ++ [0, 0]), 4⟩ ∧
      xcom_io.at_ptr ⟨bytes_of_int32 (-1073741824) ++
          (bytes_of_u16string (List.replicate 1073741823 0x41) ++ [0, 0]), 4⟩ =
        bytes_of_u16string (List.replicate 1073741823 0x41) ++ [0, 0] ∧
      (0 : char16) ∉ List.replicate 1073741823 (0x41 : char16) ∧
      4 + 2 * 1073741824 ≤ xcom_io.length_ ⟨bytes_of_int32 (-1073741824) ++
          (bytes_of_u16string (List.replicate 1073741823 0x41) ++ [0, 0]), 0⟩ ∧
      read_unicode_string util.reference true ⟨bytes_of_int32 (-1073741824) ++
          (bytes_of_u16string (List.replicate 1073741823 0x41) ++ [0, 0]), 0⟩ =
        outcome.undefined) := by
  have hri := read_int_at_start (bytes_of_u16string (List.replicate 1073741823 0x41) ++ [0, 0])
    (-1073741824) (by decide) (by decide)
  have hlen : xcom_io.length_ ⟨bytes_of_int32 (-1073741824) ++
      (bytes_of_u16string (List.replicate 1073741823 0x41) ++ [0, 0]), 0⟩ = 2147483652 := by
    unfold xcom_io.length_
    rw [List.length_append, List.length_append, bytes_of_int32_length,
      bytes_of_u16string_length, List.length_replicate]
    rfl
  have hin : 4 + 2 * 1073741824 ≤ xcom_io.length_ ⟨bytes_of_int32 (-1073741824) ++
      (bytes_of_u16string (List.replicate 1073741823 0x41) ++ [0, 0]), 0⟩ := by
    rw [hlen]
  refine ⟨by decide, by decide, hri, at_ptr_at_start _ _, ?_, hin, ?_⟩
  · intro h
    exact absurd (List.eq_of_mem_replicate h) (by decide)
  · exact read_wide_overflows util.reference true _ _ hri hin (by decide)

/-- C7 (as amended): in a state whose next 32-bit integer is `-n` with
`0 < n < 2^30`, whose `2 * n` payload bytes are inside the buffer and hold
`n - 1` code units `s` without a zero followed by a zero code unit,
`read_unicode_string` (strict or not) returns the UTF-8 transcoding of `s`,
the first `n - 1` code units, with `is_wide = true`, and moves the cursor by
`4 + 2 * n`. -/
theorem wide_read_of_terminated_payload (u : util) (b : Bool) (io io1 : xcom_io) (n : Nat)
    (s : List char16) (rest : List uchar) (hn : 0 < n) (hn2 : n < 1073741824)
    (hri : read_int io = outcome.ok (-(n : Int)) io1)
    (hpay : io1.at_ptr = bytes_of_u16string s ++ 0 :: 0 :: rest)
    (hlen : s.length = n - 1) (hs : (0 : char16) ∉ s) :
    read_unicode_string u b io =
      outcome.ok ⟨u.utf16_to_utf8 s, true⟩ ⟨io.start_, io.ptr_ + 4 + 2 * n⟩ := by
  have e : n = s.length + 1 := by omega
  subst e
  exact read_wide_ok u b io io1 s rest hn2 hri hpay hs

/-- C7 (witness): prefix `-2`, payload `0x0041 0x0000`. -/
theorem wide_read_of_terminated_payload_witness :
    read_unicode_string util.reference true ⟨[0xFE, 0xFF, 0xFF, 0xFF, 0x41, 0, 0, 0], 0⟩ =
      outcome.ok ⟨util.reference.utf16_to_utf8 [0x41], true⟩
        ⟨[0xFE, 0xFF, 0xFF, 0xFF, 0x41, 0, 0, 0], 0 + 4 + 2 * 2⟩ :=
  wide_read_of_terminated_payload util.reference true ⟨[0xFE, 0xFF, 0xFF, 0xFF, 0x41, 0, 0, 0], 0⟩
    ⟨[0xFE, 0xFF, 0xFF, 0xFF, 0x41, 0, 0, 0], 4⟩ 2 [0x41] [] (by decide) (by decide)
    (by decide) (by decide) (by decide) (by decide)

/-! ## C8: `read_string` -/

/-- C8: in every state where the strict `read_unicode_string` returns `r`,
`read_string` throws a format error exactly when `r.is_wide` is true, and
otherwise returns `r.str` and leaves the cursor where `read_unicode_string`
leaves it. This holds whichever default the header gives `throw_on_error`. -/
theorem read_string_rejects_wide (u : util) (dflt : Bool) (io : xcom_io) (r : xcom_string)
    (io1 : xcom_io) (h : read_unicode_string u true io = outcome.ok r io1) :
    ((∃ off, read_string u dflt io = outcome.format_exception off) ↔ r.is_wide = true) ∧
    (r.is_wide = false → read_string u dflt io = outcome.ok r.str io1) := by
  have hd := read_unicode_string_of_strict_ok u dflt io r io1 h
  unfold read_string
  rw [hd]
  cases hw : r.is_wide <;> simp [hw]

/-- C8 (witness): a narrow string `"A"` is returned, a wide one is refused. -/
theorem read_string_rejects_wide_witness :
    read_string util.reference true ⟨[2, 0, 0, 0, 0x41, 0], 0⟩ =
      outcome.ok [0x41] ⟨[2, 0, 0, 0, 0x41, 0], 6⟩ ∧
    ∃ off, read_string util.reference true ⟨[0xFE, 0xFF, 0xFF, 0xFF, 0x41, 0, 0, 0], 0⟩ =
      outcome.format_exception off :=
  ⟨(read_string_rejects_wide util.reference true ⟨[2, 0, 0, 0, 0x41, 0], 0⟩ ⟨[0x41], false⟩
      ⟨[2, 0, 0, 0, 0x41, 0], 6⟩ (by decide)).2 rfl,
    (read_string_rejects_wide util.reference true ⟨[0xFE, 0xFF, 0xFF, 0xFF, 0x41, 0, 0, 0], 0⟩
      ⟨[0x41], true⟩ ⟨[0xFE, 0xFF, 0xFF, 0xFF, 0x41, 0, 0, 0], 8⟩ (by decide)).1.2 rfl⟩

/-! ## C9: strict and lenient reads -/

/-- C9: where the strict `read_unicode_string` throws a format error, the
lenient one returns the empty string with `is_wide = false` (it does not
throw); where the strict one returns, the lenient one returns the same
string, the same flag and the same cursor. -/
theorem lenient_read_follows_strict (u : util) (io : xcom_io) :
    (∀ off, read_unicode_string u true io = outcome.format_exception off →
      ∃ io1, read_unicode_string u false io = outcome.ok ⟨[], false⟩ io1) ∧
    (∀ r io1, read_unicode_string u true io = outcome.ok r io1 →
      read_unicode_string u false io = outcome.ok r io1) := by
  refine ⟨?_, fun r io1 h => read_unicode_string_of_strict_ok u false io r io1 h⟩
  unfold read_unicode_string
  cases hri : read_int io with
  | format_exception off => exact absurd hri (read_int_ne_format_exception io off)
  | undefined => simp
  | ok length io1 =>
    simp only
    by_cases h0 : length = 0
    · simp [h0]
    by_cases hneg : length < 0
    · simp only [h0, hneg, if_true, if_false]
      by_cases hc : (io1.offset + to_size_t (wrap32 (-length))) % size_modulus > io1.length_
      · simp [hc]
      · simp only [hc, if_false]
        split_ifs
        · simp
        · cases c_u16string io1.at_ptr <;> simp
    · simp only [h0, hneg, if_false]
      by_cases hc : (io1.offset + to_size_t length) % size_modulus > io1.length_
      · simp [hc]
      · simp only [hc, if_false]
        cases c_string io1.at_ptr with
        | none => simp
        | some s =>
          simp only
          split_ifs <;> simp_all

/-- C9 (witness): a prefix 5 with one byte behind it makes the strict call
throw and the lenient call return the empty string; the string `"A"` is
read alike by both. -/
theorem lenient_read_follows_strict_witness :
    (∃ io1, read_unicode_string util.reference false ⟨[5, 0, 0, 0, 0x41], 0⟩ =
      outcome.ok ⟨[], false⟩ io1) ∧
    read_unicode_string util.reference false ⟨[2, 0, 0, 0, 0x41, 0], 0⟩ =
      outcome.ok ⟨[0x41], false⟩ ⟨[2, 0, 0, 0, 0x41, 0], 6⟩ :=
  ⟨(lenient_read_follows_strict util.reference ⟨[5, 0, 0, 0, 0x41], 0⟩).1 4 (by decide),
    (lenient_read_follows_strict util.reference ⟨[2, 0, 0, 0, 0x41, 0], 0⟩).2 _ _ (by decide)⟩

/-! ## C10: the empty string -/

/-- C10: the empty string is the bare zero prefix in both directions. In a
state whose next 32-bit integer is 0, `read_unicode_string` (strict or not)
returns the empty string with `is_wide = false` and moves the cursor by 4.
An `xcom_string` with empty `str`, whatever its flag, is written as four zero
bytes at the cursor, which moves by 4, in every writer state where the four
bytes fit (at once or after `ensure` has doubled the buffer). -/
theorem empty_string_is_bare_zero (u : util) (fresh : Nat → uchar) (io : xcom_io)
    (b w : Bool) :
    (∀ io1, read_int io = outcome.ok 0 io1 →
      read_unicode_string u b io = outcome.ok ⟨[], false⟩ ⟨io.start_, io.ptr_ + 4⟩) ∧
    (io.ptr_ ≤ io.length_ → io.ptr_ + 4 ≤ 2 * io.length_ → 2 * io.length_ < size_modulus →
      ∃ io2, write_unicode_string u fresh io ⟨[], w⟩ = outcome.ok () io2 ∧
        io2.ptr_ = io.ptr_ + 4 ∧ (io2.start_.drop io.ptr_).take 4 = [0, 0, 0, 0] ∧
        io2.start_.take io.ptr_ = io.start_.take io.ptr_) := by
  constructor
  · intro io1 h
    obtain ⟨b0, b1, b2, b3, rest, -, -, hio⟩ := (read_int_eq_ok_iff io 0 io1).mp h
    unfold read_unicode_string
    rw [h, hio]
    simp
  · intro h1 h2 h3
    have hw : write_unicode_string u fresh io ⟨[], w⟩ = write_int fresh io 0 := by
      simp [write_unicode_string]
    rw [hw]
    have hput : ∀ io1 : xcom_io, io1.ptr_ = io.ptr_ → io1.ptr_ + 4 ≤ io1.length_ →
        io1.start_.take io.ptr_ = io.start_.take io.ptr_ →
        ∃ io2, put io1 (bytes_of_int32 0) = outcome.ok () io2 ∧
          io2.ptr_ = io.ptr_ + 4 ∧ (io2.start_.drop io.ptr_).take 4 = [0, 0, 0, 0] ∧
          io2.start_.take io.ptr_ = io.start_.take io.ptr_ := by
      intro io1 hp hc ht
      rw [put_ok io1 _ (by rw [bytes_of_int32_length]; exact hc)]
      have hlen : (io1.start_.take io1.ptr_).length = io.ptr_ := by
        unfold xcom_io.length_ at hc
        simp
        omega
      refine ⟨_, rfl, by simp [hp, bytes_of_int32_length], ?_, ?_⟩
      · simp only [List.append_assoc]
        rw [List.drop_left' hlen]
        rfl
      · simp only [List.append_assoc]
        rw [List.take_left' hlen, hp, ht]
    unfold write_int
    by_cases hc : io.ptr_ + 4 ≤ io.length_
    · rw [ensure_enough fresh io 4 hc]
      exact hput io rfl hc rfl
    · have h5 : io.ptr_ + 4 < size_modulus := by omega
      obtain ⟨io1, he, hp, hl, ht⟩ := ensure_grows fresh io 4 h1 (by omega) h5 h3
      rw [he]
      exact hput io1 hp (by omega) ht

/-- C10 (witness): the zero prefix is read as the empty string, and an empty
wide string is written as four zero bytes, here after the buffer grew. -/
theorem empty_string_is_bare_zero_witness :
    read_unicode_string util.reference true ⟨[0, 0, 0, 0, 9], 0⟩ =
      outcome.ok ⟨[], false⟩ ⟨[0, 0, 0, 0, 9], 4⟩ ∧
    ∃ io2, write_unicode_string util.reference zero_fill ⟨[7, 7, 7, 7, 7], 2⟩ ⟨[], true⟩ =
        outcome.ok () io2 ∧
      io2.ptr_ = 2 + 4 ∧ (io2.start_.drop 2).take 4 = [0, 0, 0, 0] ∧
      io2.start_.take 2 = [7, 7] :=
  ⟨(empty_string_is_bare_zero util.reference zero_fill ⟨[0, 0, 0, 0, 9], 0⟩ true true).1
      ⟨[0, 0, 0, 0, 9], 4⟩ (by decide),
    (empty_string_is_bare_zero util.reference zero_fill ⟨[7, 7, 7, 7, 7], 2⟩ true true).2
      (by decide) (by decide) (by decide)⟩

/-! ## C11: `write_int` and `read_int` -/

/-- C11: for every signed 32-bit `v`, `write_int(v)` on a writer with at
least 4 writable bytes stores the four bytes of the two's-complement pattern
of `v`, least significant first, at the cursor and moves the cursor by 4;
`read_int` over those four bytes returns `v` and moves the cursor by 4. -/
theorem write_int_then_read_int (fresh : Nat → uchar) (io : xcom_io) (v : Int)
    (h1 : -2147483648 ≤ v) (h2 : v < 2147483648) (hcap : io.ptr_ + 4 ≤ io.length_) :
    ∃ io1, write_int fresh io v = outcome.ok () io1 ∧ io1.ptr_ = io.ptr_ + 4 ∧
      (io1.start_.drop io.ptr_).take 4 =
        [Fin.ofNat (v % 4294967296).toNat, Fin.ofNat ((v % 4294967296).toNat / 256),
          Fin.ofNat ((v % 4294967296).toNat / 65536),
          Fin.ofNat ((v % 4294967296).toNat / 16777216)] ∧
      read_int (io1.seek seek_kind.start io.ptr_) = outcome.ok v io1 := by
  have hp : io.ptr_ ≤ io.start_.length := by
    unfold xcom_io.length_ at hcap
    omega
  have htake : io.ptr_ = (io.start_.take io.ptr_).length := by
    simp only [List.length_take]
    omega
  refine ⟨_, write_int_ok fresh io v hcap, rfl, ?_, ?_⟩
  · simp only
    rw [take_written _ _ _ _ _ hp (by rw [bytes_of_int32_length])]
    rfl
  · simp only [xcom_io.seek, List.append_assoc]
    exact read_int_at (io.start_.take io.ptr_) (io.start_.drop (io.ptr_ + 4)) io.ptr_ htake v h1 h2

/-- C11 (witness): `-2` is stored as `FE FF FF FF` and read back. -/
theorem write_int_then_read_int_witness :
    ∃ io1, write_int zero_fill ⟨[7, 7, 7, 7, 7, 7], 1⟩ (-2) = outcome.ok () io1 ∧
      io1.ptr_ = 1 + 4 ∧
      (io1.start_.drop 1).take 4 =
        [Fin.ofNat ((-2 : Int) % 4294967296).toNat,
          Fin.ofNat (((-2 : Int) % 4294967296).toNat / 256),
          Fin.ofNat (((-2 : Int) % 4294967296).toNat / 65536),
          Fin.ofNat (((-2 : Int) % 4294967296).toNat / 16777216)] ∧
      read_int (io1.seek seek_kind.start 1) = outcome.ok (-2) io1 :=
  write_int_then_read_int zero_fill ⟨[7, 7, 7, 7, 7, 7], 1⟩ (-2) (by decide) (by decide)
    (by decide)

/-! ## C12: booleans -/

/-- C12: where a 32-bit integer `v` can be read at the cursor, `read_bool`
moves the cursor by exactly 4 and returns true exactly when `v` is not zero;
`write_bool(b)` is `write_int` of 1 for true and of 0 for false; and reading
back what `write_bool(b)` wrote into a writer with 4 writable bytes returns
`b`. -/
theorem read_bool_of_write_bool (fresh : Nat → uchar) (io : xcom_io) (b : Bool) :
    (∀ v io1, read_int io = outcome.ok v io1 →
      read_bool io = outcome.ok (decide (v ≠ 0)) io1 ∧ io1.ptr_ = io.ptr_ + 4) ∧
    write_bool fresh io true = write_int fresh io 1 ∧
    write_bool fresh io false = write_int fresh io 0 ∧
    (io.ptr_ + 4 ≤ io.length_ →
      ∃ io1, write_bool fresh io b = outcome.ok () io1 ∧ io1.ptr_ = io.ptr_ + 4 ∧
        read_bool (io1.seek seek_kind.start io.ptr_) = outcome.ok b io1) := by
  refine ⟨?_, rfl, rfl, ?_⟩
  · intro v io1 h
    obtain ⟨-, hp, -, -⟩ := at_ptr_after_read_int io v io1 h
    unfold read_bool
    rw [h]
    refine ⟨?_, hp⟩
    simp only [outcome.ok.injEq, and_true]
    by_cases hv : v = 0 <;> simp [hv]
  · intro hcap
    have hp : io.ptr_ ≤ io.start_.length := by
      unfold xcom_io.length_ at hcap
      omega
    have htake : io.ptr_ = (io.start_.take io.ptr_).length := by
      simp only [List.length_take]
      omega
    refine ⟨_, write_int_ok fresh io _ hcap, rfl, ?_⟩
    simp only [xcom_io.seek, List.append_assoc]
    unfold read_bool
    rw [read_int_at (io.start_.take io.ptr_) (io.start_.drop (io.ptr_ + 4)) io.ptr_ htake
      (if b = true then 1 else 0) (by cases b <;> simp) (by cases b <;> simp)]
    cases b <;> simp

/-- C12 (witness): the integer 5 reads as true, and `true` written is `true`
read. -/
theorem read_bool_of_write_bool_witness :
    (read_bool ⟨[5, 0, 0, 0], 0⟩ = outcome.ok (decide ((5 : Int) ≠ 0)) ⟨[5, 0, 0, 0], 4⟩ ∧
      xcom_io.ptr_ ⟨[5, 0, 0, 0], 4⟩ = 0 + 4) ∧
    ∃ io1, write_bool zero_fill ⟨[7, 7, 7, 7, 7, 7], 1⟩ true = outcome.ok () io1 ∧
      io1.ptr_ = 1 + 4 ∧ read_bool (io1.seek seek_kind.start 1) = outcome.ok true io1 :=
  ⟨(read_bool_of_write_bool zero_fill ⟨[5, 0, 0, 0], 0⟩ true).1 5 ⟨[5, 0, 0, 0], 4⟩
      (by decide),
    (read_bool_of_write_bool zero_fill ⟨[7, 7, 7, 7, 7, 7], 1⟩ true).2.2.2 (by decide)⟩

/-! ## C13: what `ensure` keeps -/

/-- C13 (counterexample): with the cursor at offset 2 of the buffer
`01 02 03 04`, `ensure(3)` grows the buffer and copies `offset()` = 2 bytes
only: the bytes at the indices 2 and 3, below the old length, are those the
new array happens to hold. -/
theorem ensure_frame_counterexample :
    ensure zero_fill ⟨[1, 2, 3, 4], 2⟩ 3 = outcome.ok () ⟨[1, 2, 0, 0, 0, 0, 0, 0], 2⟩ ∧
    ([1, 2, 0, 0, 0, 0, 0, 0] : List uchar)[2]? ≠ ([1, 2, 3, 4] : List uchar)[2]? := by
  decide

/-- C13 (as amended): whenever `ensure(n)` returns, the cursor offset is
unchanged and every byte below the cursor has its value unchanged, whether
or not the buffer grows; when `n` bytes are writable already, the whole
buffer is unchanged. It returns in every state with the cursor inside the
buffer. -/
theorem ensure_frame (fresh : Nat → uchar) (io : xcom_io) (n : Nat) :
    (∀ io1, ensure fresh io n = outcome.ok () io1 →
      io1.ptr_ = io.ptr_ ∧ io1.start_.take io.ptr_ = io.start_.take io.ptr_ ∧
        (io.ptr_ + n ≤ io.length_ → io1 = io)) ∧
    (io.ptr_ ≤ io.length_ → 2 * io.length_ < size_modulus →
      ∃ io1, ensure fresh io n = outcome.ok () io1) := by
  constructor
  · intro io1 h
    unfold ensure at h
    unfold xcom_io.offset at h
    simp only at h
    split_ifs at h with hg hc
    · injection h with _ h
      subst h
      refine ⟨rfl, ?_, ?_⟩
      · simp only
        rw [List.take_append_of_le_length (by simp; exact hc.1)]
        simp
      · intro hl
        exfalso
        have hm : (io.ptr_ + n) % size_modulus ≤ io.ptr_ + n := Nat.mod_le _ _
        omega
    · injection h with _ h
      subst h
      exact ⟨rfl, rfl, fun _ => rfl⟩
  · intro h1 h2
    unfold ensure
    unfold xcom_io.offset
    simp only
    have e2 : (io.length_ * 2) % size_modulus = io.length_ * 2 :=
      Nat.mod_eq_of_lt (by omega)
    split_ifs with hg hc
    · exact ⟨_, rfl⟩
    · exfalso
      apply hc
      rw [e2]
      omega
    · exact ⟨_, rfl⟩

/-- C13 (witness): a growing `ensure` keeps the cursor and the two bytes below
it. -/
theorem ensure_frame_witness :
    (xcom_io.ptr_ ⟨[1, 2, 0, 0, 0, 0, 0, 0], 2⟩ = 2 ∧
      ([1, 2, 0, 0, 0, 0, 0, 0] : List uchar).take 2 = ([1, 2, 3, 4] : List uchar).take 2 ∧
      (xcom_io.ptr_ ⟨[1, 2, 3, 4], 2⟩ + 3 ≤ xcom_io.length_ ⟨[1, 2, 3, 4], 2⟩ →
        (⟨[1, 2, 0, 0, 0, 0, 0, 0], 2⟩ : xcom_io) = ⟨[1, 2, 3, 4], 2⟩)) ∧
    ∃ io1, ensure zero_fill ⟨[1, 2, 3, 4], 2⟩ 3 = outcome.ok () io1 :=
  ⟨(ensure_frame zero_fill ⟨[1, 2, 3, 4], 2⟩ 3).1 ⟨[1, 2, 0, 0, 0, 0, 0, 0], 2⟩ (by decide),
    (ensure_frame zero_fill ⟨[1, 2, 3, 4], 2⟩ 3).2 (by decide) (by decide)⟩

/-! ## C14: the cursor stays inside the buffer -/

/-- What a read that returned, strict or not, has seen. -/
theorem read_unicode_string_ok_cases (u : util) (b : Bool) (io io2 : xcom_io)
    (r : xcom_string) (h : read_unicode_string u b io = outcome.ok r io2) :
    ∃ n io1, read_int io = outcome.ok n io1 ∧
      ((r = ⟨[], false⟩ ∧ io2 = io1) ∨ r.is_wide = true ∨
        (0 < n ∧ ∃ s, c_string io1.at_ptr = some s ∧ (s.length : Int) = n - 1 ∧
          r = ⟨u.iso8859_1_to_utf8 s, false⟩ ∧ io2 = ⟨io1.start_, io1.ptr_ + n.toNat⟩)) := by
  cases b with
  | true =>
    obtain ⟨n, io1, hri, hc⟩ := read_unicode_string_ok_inv u io io2 r h
    refine ⟨n, io1, hri, ?_⟩
    rcases hc with ⟨-, hr, hio⟩ | ⟨-, c, -, hr, -, -⟩ | ⟨hn, s, hs, hl, hr, hio⟩
    · exact Or.inl ⟨hr, hio⟩
    · right; left
      rw [hr]
    · exact Or.inr (Or.inr ⟨hn, s, hs, hl, hr, hio⟩)
  | false =>
    revert h
    unfold read_unicode_string
    cases hri : read_int io with
    | format_exception off => exact absurd hri (read_int_ne_format_exception io off)
    | undefined => simp
    | ok n io1 =>
      simp only [Bool.false_eq_true, if_false]
      intro h
      refine ⟨n, io1, rfl, ?_⟩
      by_cases h0 : n = 0
      · left
        simp only [h0, if_true, outcome.ok.injEq] at h
        exact ⟨h.1.symm, h.2.symm⟩
      by_cases hneg : n < 0
      · simp only [h0, hneg, if_true, if_false] at h
        by_cases hc : (io1.offset + to_size_t (wrap32 (-n))) % size_modulus > io1.length_
        · left
          simp only [hc, if_true, outcome.ok.injEq] at h
          exact ⟨h.1.symm, h.2.symm⟩
        · simp only [hc, if_false] at h
          by_cases hp : (io1.ptr_ : Int) + wrap32 (2 * wrap32 (-n)) < 0
          · simp [hp] at h
          · simp only [hp, if_false] at h
            cases hcs : c_u16string io1.at_ptr with
            | none => simp [hcs] at h
            | some c =>
              simp only [hcs, outcome.ok.injEq] at h
              right; left
              rw [← h.1]
      · simp only [h0, hneg, if_false] at h
        by_cases hc : (io1.offset + to_size_t n) % size_modulus > io1.length_
        · left
          simp only [hc, if_true, outcome.ok.injEq] at h
          exact ⟨h.1.symm, h.2.symm⟩
        · simp only [hc, if_false] at h
          cases hcs : c_string io1.at_ptr with
          | none => simp [hcs] at h
          | some s =>
            simp only [hcs] at h
            by_cases hl : (s.length : Int) ≠ n - 1
            · left
              rw [if_pos hl] at h
              simp only [outcome.ok.injEq] at h
              exact ⟨h.1.symm, h.2.symm⟩
            · right; right
              rw [if_neg hl] at h
              simp only [outcome.ok.injEq] at h
              exact ⟨by omega, s, rfl, not_not.mp hl, h.1.symm, h.2.symm⟩

theorem read_unicode_string_narrow_in_bounds (u : util) (b : Bool) (io io2 : xcom_io)
    (r : xcom_string) (h : read_unicode_string u b io = outcome.ok r io2)
    (hw : r.is_wide = false) : io2.ptr_ ≤ io2.length_ := by
  obtain ⟨n, io1, hri, hc⟩ := read_unicode_string_ok_cases u b io io2 r h
  obtain ⟨hst, hp, -, hin⟩ := at_ptr_after_read_int io n io1 hri
  have hl1 : io1.length_ = io.length_ := by
    unfold xcom_io.length_
    rw [hst]
  rcases hc with ⟨-, hio⟩ | hwide | ⟨hn, s, hs, hlen, -, hio⟩
  · rw [hio, hl1]
    omega
  · rw [hw] at hwide
    exact absurd hwide (by decide)
  · obtain ⟨-, rest, hrest⟩ := c_string_eq_some _ s hs
    have hal := at_ptr_length io1
    rw [hrest] at hal
    simp only [List.length_append, List.length_cons] at hal
    rw [hio]
    unfold xcom_io.length_ at *
    simp only
    omega

/-- C15: for every byte sequence `bs` of length `n`, `write_raw(bs, n)` on a
writer with at least `n` writable bytes copies `bs` unchanged to the cursor
and moves the cursor by `n`, and `read_raw_bytes(n)` at that position returns
exactly `bs` and moves the cursor by `n`. -/
theorem read_raw_of_write_raw (fresh : Nat → uchar) (io : xcom_io) (bs : List uchar)
    (hcap : io.ptr_ + bs.length ≤ io.length_) :
    ∃ io1, write_raw fresh io bs bs.length = outcome.ok () io1 ∧
      io1.ptr_ = io.ptr_ + bs.length ∧
      (io1.start_.drop io.ptr_).take bs.length = bs ∧
      read_raw_bytes (io1.seek seek_kind.start io.ptr_) bs.length = outcome.ok bs io1 := by
  have hp : io.ptr_ ≤ io.start_.length := by
    unfold xcom_io.length_ at hcap
    omega
  have htake : (io.start_.take io.ptr_).length = io.ptr_ := by
    simp only [List.length_take]
    omega
  have hw : write_raw fresh io bs bs.length = outcome.ok ()
      ⟨io.start_.take io.ptr_ ++ bs ++ io.start_.drop (io.ptr_ + bs.length),
        io.ptr_ + bs.length⟩ := by
    unfold write_raw
    rw [ensure_enough fresh io bs.length hcap]
    simp only
    rw [if_pos (Nat.le_refl _), List.take_length, put_ok io bs hcap]
  have hat : (io.start_.take io.ptr_ ++ bs ++ io.start_.drop (io.ptr_ + bs.length)).drop
      io.ptr_ = bs ++ io.start_.drop (io.ptr_ + bs.length) := by
    rw [List.append_assoc, List.drop_left' htake]
  refine ⟨_, hw, rfl, ?_, ?_⟩
  · simp only
    rw [hat, List.take_left]
  · unfold read_raw_bytes
    simp only [xcom_io.seek, xcom_io.at_ptr]
    rw [hat, if_pos (by simp), List.take_left]

/-- C15 (witness): three bytes written raw are read back raw. -/
theorem read_raw_of_write_raw_witness :
    ∃ io1, write_raw zero_fill ⟨[7, 7, 7, 7, 7], 1⟩ [1, 0, 255]
        ([1, 0, 255] : List uchar).length = outcome.ok () io1 ∧
      io1.ptr_ = 1 + ([1, 0, 255] : List uchar).length ∧
      (io1.start_.drop 1).take ([1, 0, 255] : List uchar).length = [1, 0, 255] ∧
      read_raw_bytes (io1.seek seek_kind.start 1) ([1, 0, 255] : List uchar).length =
        outcome.ok [1, 0, 255] io1 :=
  read_raw_of_write_raw zero_fill ⟨[7, 7, 7, 7, 7], 1⟩ [1, 0, 255] (by decide)

/-! ## C16: the checksum -/

/-- C16: whenever `crc(n)` returns, the cursor and the buffer are unchanged;
it returns in every state with `n` bytes left from the cursor, and its result
is the checksum of those `n` bytes alone: two states that agree on them give
the same checksum. -/
theorem crc_reads_only (crc32b : List uchar → Nat) (io io' : xcom_io) (n : Nat) :
    (∀ v io1, crc crc32b io n = outcome.ok v io1 → io1 = io) ∧
    (io.ptr_ + n ≤ io.length_ →
      crc crc32b io n = outcome.ok (crc32b ((io.start_.drop io.ptr_).take n)) io) ∧
    (io.ptr_ + n ≤ io.length_ → io'.ptr_ + n ≤ io'.length_ →
      (io.start_.drop io.ptr_).take n = (io'.start_.drop io'.ptr_).take n →
      ∃ v, crc crc32b io n = outcome.ok v io ∧ crc crc32b io' n = outcome.ok v io') := by
  have hok : ∀ i : xcom_io, i.ptr_ + n ≤ i.length_ →
      crc crc32b i n = outcome.ok (crc32b ((i.start_.drop i.ptr_).take n)) i := by
    intro i h
    have hal := at_ptr_length i
    unfold crc
    rw [if_pos (by omega)]
    rfl
  refine ⟨?_, hok io, ?_⟩
  · intro v io1 h
    unfold crc at h
    split_ifs at h
    injection h with _ h
    exact h.symm
  · intro h1 h2 he
    refine ⟨_, hok io h1, ?_⟩
    rw [he]
    exact hok io' h2

/-- C16 (witness): the checksum of `"123456789"` is `0xCBF43926` wherever the
nine bytes stand, and the state is unchanged. -/
theorem crc_reads_only_witness :
    crc reference_crc32b ⟨[7, 0x31, 0x32, 0x33, 0x34, 0x35, 0x36, 0x37, 0x38, 0x39, 7], 1⟩ 9 =
      outcome.ok (reference_crc32b
          ((([7, 0x31, 0x32, 0x33, 0x34, 0x35, 0x36, 0x37, 0x38, 0x39, 7] :
            List uchar).drop 1).take 9))
        ⟨[7, 0x31, 0x32, 0x33, 0x34, 0x35, 0x36, 0x37, 0x38, 0x39, 7], 1⟩ ∧
    ∃ v, crc reference_crc32b
          ⟨[7, 0x31, 0x32, 0x33, 0x34, 0x35, 0x36, 0x37, 0x38, 0x39, 7], 1⟩ 9 =
        outcome.ok v ⟨[7, 0x31, 0x32, 0x33, 0x34, 0x35, 0x36, 0x37, 0x38, 0x39, 7], 1⟩ ∧
      crc reference_crc32b ⟨[0x31, 0x32, 0x33, 0x34, 0x35, 0x36, 0x37, 0x38, 0x39], 0⟩ 9 =
        outcome.ok v ⟨[0x31, 0x32, 0x33, 0x34, 0x35, 0x36, 0x37, 0x38, 0x39], 0⟩ :=
  ⟨(crc_reads_only reference_crc32b
      ⟨[7, 0x31, 0x32, 0x33, 0x34, 0x35, 0x36, 0x37, 0x38, 0x39, 7], 1⟩
      ⟨[0x31, 0x32, 0x33, 0x34, 0x35, 0x36, 0x37, 0x38, 0x39], 0⟩ 9).2.1 (by decide),
    (crc_reads_only reference_crc32b
      ⟨[7, 0x31, 0x32, 0x33, 0x34, 0x35, 0x36, 0x37, 0x38, 0x39, 7], 1⟩
      ⟨[0x31, 0x32, 0x33, 0x34, 0x35, 0x36, 0x37, 0x38, 0x39], 0⟩ 9).2.2
      (by decide) (by decide) (by decide)⟩

/-! ## The exporter: `escape` -/

theorem foldl_append_eq_flatMap {α : Type} (f : α → List uchar) (l : List α)
    (acc : List uchar) :
    l.foldl (fun ret c => ret ++ f c) acc = acc ++ l.flatMap f := by
  induction l generalizing acc with
  | nil => simp
  | cons a l ih => simp [List.foldl_cons, ih, List.flatMap_cons, List.append_assoc]

theorem escape_eq_flatMap (h : json_helpers) (str : List uchar) :
    escape h str = str.flatMap (escape_char h) := by
  unfold escape
  rw [foldl_append_eq_flatMap]
  rfl

/-- On a string without a NUL byte, and with a `to_hex` that returns no
control byte, `escape` returns no byte below `0x20`. -/
theorem escape_no_control (h : json_helpers) (str : List uchar) (h0 : (0 : uchar) ∉ str)
    (hhex : ∀ c, ∀ b ∈ h.to_hex [c] 1, 0x20 ≤ b.val) :
    ∀ b ∈ escape h str, 0x20 ≤ b.val := by
  intro b hb
  rw [escape_eq_flatMap, List.mem_flatMap] at hb
  obtain ⟨c, hc, hbc⟩ := hb
  have hc0 : c ≠ 0 := fun e => h0 (e ▸ hc)
  unfold escape_char at hbc
  split_ifs at hbc with h1 h2 h3 h4 h5 h6
  · have : b = 0x5C ∨ b = 0x22 := by simpa [lit] using hbc
    rcases this with e | e <;> rw [e] <;> decide
  · have : b = 0x5C := by simpa [lit] using hbc
    rw [this]; decide
  · have : b = 0x5C ∨ b = 0x6E := by simpa [lit] using hbc
    rcases this with e | e <;> rw [e] <;> decide
  · have : b = 0x5C ∨ b = 0x72 := by simpa [lit] using hbc
    rcases this with e | e <;> rw [e] <;> decide
  · have : b = 0x5C ∨ b = 0x74 := by simpa [lit] using hbc
    rcases this with e | e <;> rw [e] <;> decide
  · rcases List.mem_append.mp hbc with hb1 | hb2
    · have : b = 0x5C ∨ b = 0x75 ∨ b = 0x30 := by simpa [lit] using hb1
      rcases this with e | e | e <;> rw [e] <;> decide
    · exact hhex c b hb2
  · have e : b = c := by simpa using hbc
    rw [e]
    have hv : c.val ≠ 0 := fun e0 => hc0 (Fin.ext e0)
    omega

/-! ## C20: `escape` -/

/-- C20 (the code at the failing input): the test `str[i] > 0 && str[i] < ' '`
leaves out the NUL byte, which `escape` copies as it is: the result holds a
raw byte below `0x20`. -/
theorem escape_copies_nul (h : json_helpers) :
    escape h [0] = [0] ∧ escape h [0x41, 0, 0x22] = [0x41, 0, 0x5C, 0x22] := by
  constructor <;> rfl

/-! ## The exporter: traversal -/

theorem visit_each_eq_flatMap (h : json_helpers) (ga la : actor_table) (ps : List property) :
    visit_each h ga la ps = ps.flatMap (json_property_visitor h ga la) := by
  induction ps with
  | nil => simp [visit_each]
  | cons p ps ih => simp [visit_each, ih]

theorem visit_each_list_eq_flatMap (h : json_helpers) (ga la : actor_table)
    (ls : List (List property)) :
    visit_each_list h ga la ls =
      ls.flatMap (fun l =>
        [json_call.begin_array false] ++ visit_each h ga la l ++ [json_call.end_array]) := by
  induction ls with
  | nil => simp [visit_each_list]
  | cons l ls ih => simp [visit_each_list, ih]

/-! ## C19: the two representations of a struct -/

/-- C19: for a struct property `visit_struct` makes one of two sequences of
calls. With `native_data_length > 0`: the key `native_data` with the hex
encoding of the `native_data_length` native bytes, and an empty `properties`
array, the nested properties not being visited. With `native_data_length =
0`: the key `native_data` with the empty string, and a `properties` array
holding the output of the nested properties in stored order. -/
theorem visit_struct_representations (h : json_helpers) (ga la : actor_table)
    (name struct_name native_data : List uchar) (native_data_length : Nat)
    (properties : List property) :
    (0 < native_data_length →
      json_property_visitor h ga la
          (.struct_property name struct_name native_data native_data_length properties) =
        [json_call.begin_object false,
          json_call.write_string (lit "name") name false,
          json_call.write_string (lit "kind") (h.kind_string kind.struct_property) false,
          json_call.write_string (lit "struct_name") struct_name false,
          json_call.write_string (lit "native_data")
            (h.to_hex native_data native_data_length) false,
          json_call.write_key (lit "properties"), json_call.begin_array true,
          json_call.end_array, json_call.end_object]) ∧
    (native_data_length = 0 →
      json_property_visitor h ga la
          (.struct_property name struct_name native_data native_data_length properties) =
        [json_call.begin_object false,
          json_call.write_string (lit "name") name false,
          json_call.write_string (lit "kind") (h.kind_string kind.struct_property) false,
          json_call.write_string (lit "struct_name") struct_name false,
          json_call.write_string (lit "native_data") [] false,
          json_call.write_key (lit "properties"), json_call.begin_array false] ++
        properties.flatMap (json_property_visitor h ga la) ++
        [json_call.end_array, json_call.end_object]) := by
  constructor
  · intro hpos
    simp [json_property_visitor, write_common, property.name, property.kind, hpos]
  · intro h0
    simp [json_property_visitor, write_common, property.name, property.kind, h0,
      visit_each_eq_flatMap]

/-- C19 (witness): a native struct and a struct with one nested integer. -/
theorem visit_struct_representations_witness :
    json_property_visitor json_helpers.reference [] []
        (.struct_property (lit "S") (lit "T") [0xAB, 0xCD] 2 []) =
      [json_call.begin_object false,
        json_call.write_string (lit "name") (lit "S") false,
        json_call.write_string (lit "kind")
          (json_helpers.reference.kind_string kind.struct_property) false,
        json_call.write_string (lit "struct_name") (lit "T") false,
        json_call.write_string (lit "native_data")
          (json_helpers.reference.to_hex [0xAB, 0xCD] 2) false,
        json_call.write_key (lit "properties"), json_call.begin_array true,
        json_call.end_array, json_call.end_object] ∧
    json_property_visitor json_helpers.reference [] []
        (.struct_property (lit "S") (lit "T") [] 0 [.int_property (lit "x") 1]) =
      [json_call.begin_object false,
        json_call.write_string (lit "name") (lit "S") false,
        json_call.write_string (lit "kind")
          (json_helpers.reference.kind_string kind.struct_property) false,
        json_call.write_string (lit "struct_name") (lit "T") false,
        json_call.write_string (lit "native_data") [] false,
        json_call.write_key (lit "properties"), json_call.begin_array false] ++
      [property.int_property (lit "x") 1].flatMap
        (json_property_visitor json_helpers.reference [] []) ++
      [json_call.end_array, json_call.end_object] :=
  ⟨(visit_struct_representations json_helpers.reference [] [] (lit "S") (lit "T") [0xAB, 0xCD] 2
      []).1 (by decide),
    (visit_struct_representations json_helpers.reference [] [] (lit "S") (lit "T") [] 0
      [.int_property (lit "x") 1]).2 rfl⟩

/-! ## The exporter: the text of an integer -/

theorem digit_char_byte (k : Nat) (h : k < 10) :
    ((Fin.ofNat (Nat.digitChar k).toNat : uchar)).val = 0x30 + k := by
  interval_cases k <;> rfl

theorem toDigitsCore_value (fuel : Nat) : ∀ (n : Nat) (ds : List Char), n < fuel →
    ∃ pre : List uchar,
      (Nat.toDigitsCore 10 fuel n ds).map (fun c => (Fin.ofNat c.toNat : uchar)) =
        pre ++ ds.map (fun c => (Fin.ofNat c.toNat : uchar)) ∧
      pre ≠ [] ∧ (∀ c ∈ pre, 0x30 ≤ c.val ∧ c.val ≤ 0x39) ∧
      pre.foldl (fun a c => 10 * a + (c.val - 0x30)) 0 = n := by
  induction fuel with
  | zero => intro n ds h; omega
  | succ fuel ih =>
    intro n ds h
    have hd := digit_char_byte (n % 10) (Nat.mod_lt n (by decide))
    unfold Nat.toDigitsCore
    simp only
    by_cases h0 : n / 10 = 0
    · rw [if_pos h0]
      refine ⟨[(Fin.ofNat (Nat.digitChar (n % 10)).toNat : uchar)], by simp, by simp, ?_, ?_⟩
      · intro c hc
        simp only [List.mem_singleton] at hc
        rw [hc, hd]
        omega
      · simp only [List.foldl_cons, List.foldl_nil]
        rw [hd]
        omega
    · rw [if_neg h0]
      obtain ⟨pre, h1, h2, h3, h4⟩ := ih (n / 10) (Nat.digitChar (n % 10) :: ds) (by omega)
      refine ⟨pre ++ [(Fin.ofNat (Nat.digitChar (n % 10)).toNat : uchar)], ?_, by simp, ?_, ?_⟩
      · rw [h1]
        simp
      · intro c hc
        rcases List.mem_append.mp hc with hc | hc
        · exact h3 c hc
        · simp only [List.mem_singleton] at hc
          rw [hc, hd]
          omega
      · rw [List.foldl_append, h4]
        simp only [List.foldl_cons, List.foldl_nil]
        rw [hd]
        omega

theorem lit_repr (m : Nat) :
    ∃ pre : List uchar, lit (Nat.repr m) = pre ∧ pre ≠ [] ∧
      (∀ c ∈ pre, 0x30 ≤ c.val ∧ c.val ≤ 0x39) ∧
      pre.foldl (fun a c => 10 * a + (c.val - 0x30)) 0 = m := by
  obtain ⟨pre, h1, h2, h3, h4⟩ := toDigitsCore_value (m + 1) m [] (by omega)
  refine ⟨pre, ?_, h2, h3, h4⟩
  simp only [List.map_nil, List.append_nil] at h1
  exact h1

theorem digits_value_repr (m : Nat) : digits_value (lit (Nat.repr m)) = some m := by
  obtain ⟨pre, h1, h2, h3, h4⟩ := lit_repr m
  rw [h1]
  unfold digits_value
  rw [if_pos ⟨h2, h3⟩, h4]

/-- The text written for an integer is its decimal numeral: it reads back
as the integer. -/
theorem decimal_value_int_text (v : Int) : decimal_value (int_text v) = some v := by
  cases v with
  | ofNat m =>
    have e : int_text (Int.ofNat m) = lit (Nat.repr m) := rfl
    have hv := digits_value_repr m
    obtain ⟨pre, h1, h2, h3, -⟩ := lit_repr m
    rw [e]
    rw [h1] at hv ⊢
    cases pre with
    | nil => exact absurd rfl h2
    | cons c cs =>
      have hc := h3 c (List.mem_cons_self c cs)
      have hne : c ≠ 0x2D := by
        intro e2
        rw [e2] at hc
        revert hc
        decide
      unfold decimal_value
      simp only
      rw [if_neg hne, hv]
      rfl
  | negSucc m =>
    have e : int_text (Int.negSucc m) = 0x2D :: lit (Nat.repr (m + 1)) := rfl
    rw [e]
    unfold decimal_value
    simp only
    rw [if_pos trivial, digits_value_repr]
    simp only [Option.some.injEq]
    rw [Int.negSucc_eq]
    push_cast
    rfl

/-- The text of the elements of an integer array after the first: each after
a comma and a blank. -/
theorem raw_ints_text_tail (h : json_helpers) (es : List Int) :
    ∀ w : json_writer, w.skip_indent = true → w.needs_comma = true →
      (w.run h (es.map (fun e => json_call.write_raw_int e true))).out =
        w.out ++ es.flatMap (fun x => lit ", " ++ int_text x) := by
  induction es with
  | nil =>
    intro w _ _
    simp [json_writer.run]
  | cons e es ih =>
    intro w hs hc
    obtain ⟨out, lvl, sk, nc⟩ := w
    simp only at hs hc
    subst hs hc
    have hstep : json_writer.run h ⟨out, lvl, true, true⟩
        ((e :: es).map (fun e => json_call.write_raw_int e true)) =
        json_writer.run h ⟨out ++ lit ", " ++ int_text e, lvl, true, true⟩
          (es.map (fun e => json_call.write_raw_int e true)) := rfl
    rw [hstep, ih _ rfl rfl]
    simp

/-- The text of the elements of an integer array: the numerals, separated
by a comma and a blank. -/
theorem raw_ints_text (h : json_helpers) (w : json_writer) (e : Int) (es : List Int)
    (hs : w.skip_indent = true) (hc : w.needs_comma = false) :
    (w.run h ((e :: es).map (fun e => json_call.write_raw_int e true))).out =
      w.out ++ int_text e ++ es.flatMap (fun x => lit ", " ++ int_text x) := by
  obtain ⟨out, lvl, sk, nc⟩ := w
  simp only at hs hc
  subst hs hc
  have hstep : json_writer.run h ⟨out, lvl, true, false⟩
      ((e :: es).map (fun e => json_call.write_raw_int e true)) =
      json_writer.run h ⟨out ++ int_text e, lvl, true, true⟩
        (es.map (fun e => json_call.write_raw_int e true)) := rfl
  rw [hstep, raw_ints_text_tail h es _ rfl rfl]

/-! ## C17: actor references -/

mutual

theorem visitor_ignores_tables (h : json_helpers) (ga la ga' la' : actor_table) :
    ∀ p : property, json_property_visitor h ga la p = json_property_visitor h ga' la' p
  | .int_property _ _ => by simp [json_property_visitor]
  | .float_property _ _ => by simp [json_property_visitor]
  | .bool_property _ _ => by simp [json_property_visitor]
  | .string_property _ _ => by simp [json_property_visitor]
  | .object_property _ _ => by simp [json_property_visitor]
  | .enum_property _ _ _ _ => by simp [json_property_visitor]
  | .struct_property _ _ _ _ properties => by
    simp only [json_property_visitor]
    rw [visit_each_ignores_tables h ga la ga' la' properties]
  | .array_property _ _ _ _ => by simp [json_property_visitor]
  | .object_array_property _ _ => by simp [json_property_visitor]
  | .number_array_property _ _ => by simp [json_property_visitor]
  | .struct_array_property _ elements => by
    simp only [json_property_visitor]
    rw [visit_each_list_ignores_tables h ga la ga' la' elements]
  | .static_array_property _ properties => by
    simp only [json_property_visitor]
    rw [visit_each_ignores_tables h ga la ga' la' properties]

theorem visit_each_ignores_tables (h : json_helpers) (ga la ga' la' : actor_table) :
    ∀ ps : List property, visit_each h ga la ps = visit_each h ga' la' ps
  | [] => by simp [visit_each]
  | p :: ps => by
    simp only [visit_each]
    rw [visitor_ignores_tables h ga la ga' la' p, visit_each_ignores_tables h ga la ga' la' ps]

theorem visit_each_list_ignores_tables (h : json_helpers) (ga la ga' la' : actor_table) :
    ∀ ls : List (List property), visit_each_list h ga la ls = visit_each_list h ga' la' ls
  | [] => by simp [visit_each_list]
  | l :: ls => by
    simp only [visit_each_list]
    rw [visit_each_ignores_tables h ga la ga' la' l,
      visit_each_list_ignores_tables h ga la ga' la' ls]

end

/-- C17: the exporter writes actor references as plain integers and never
resolves them. For every property tree the visitor makes the same calls, and
so writes the same text, whatever the global and local actor tables. For an
object property the text is the opening of the object with name and kind,
then the key `actor` with the text of the stored integer, then the closing
brace; for an object-array property the array `actors` holds one
`write_raw_int` of each stored element, in order, whose text is the texts of
the elements separated by commas and nothing else. The text written for an
integer is its decimal numeral, which reads back as the stored integer: the
output for the actor 42 and for the actors 3, -1, 0 is given in full. -/
theorem actor_references_are_plain_integers (h : json_helpers) (ga la ga' la' : actor_table)
    (w : json_writer) (p : property) (name : List uchar) (actor : Int)
    (elements : List Int) (e : Int) (es : List Int) :
    json_property_visitor h ga la p = json_property_visitor h ga' la' p ∧
    (w.run h (json_property_visitor h ga la p)).out =
      (w.run h (json_property_visitor h ga' la' p)).out ∧
    json_property_visitor h ga la (.object_property name actor) =
      [json_call.begin_object true,
        json_call.write_string (lit "name") name true,
        json_call.write_string (lit "kind") (h.kind_string kind.object_property) true,
        json_call.write_int (lit "actor") actor true, json_call.end_object] ∧
    json_property_visitor h ga la (.object_array_property name elements) =
      [json_call.begin_object false,
        json_call.write_string (lit "name") name false,
        json_call.write_string (lit "kind") (h.kind_string kind.object_array_property) false,
        json_call.write_key (lit "actors"), json_call.begin_array true] ++
      elements.map (fun e => json_call.write_raw_int e true) ++
      [json_call.end_array, json_call.end_object] ∧
    (∀ o, (w.write_int (lit "actor") actor o).out =
      w.indent.out ++ (lit "\"" ++ lit "actor" ++ lit "\": ") ++ int_text actor) ∧
    (∀ e o, (w.write_raw_int e o).out = w.indent.out ++ int_text e) ∧
    (w.run h (json_property_visitor h ga la (.object_property name actor))).out =
      (w.run h [json_call.begin_object true,
        json_call.write_string (lit "name") name true,
        json_call.write_string (lit "kind") (h.kind_string kind.object_property) true]).out ++
      lit ", \"actor\": " ++ int_text actor ++ lit " \x7d" ∧
    ((w.run h [json_call.begin_object false,
        json_call.write_string (lit "name") name false,
        json_call.write_string (lit "kind") (h.kind_string kind.object_array_property) false,
        json_call.write_key (lit "actors"), json_call.begin_array true]).run h
          ((e :: es).map (fun e => json_call.write_raw_int e true))).out =
      (w.run h [json_call.begin_object false,
        json_call.write_string (lit "name") name false,
        json_call.write_string (lit "kind") (h.kind_string kind.object_array_property) false,
        json_call.write_key (lit "actors"), json_call.begin_array true]).out ++
      int_text e ++ es.flatMap (fun x => lit ", " ++ int_text x) ∧
    (∀ v : Int, decimal_value (int_text v) = some v) ∧
    (json_writer.init.run json_helpers.reference
        (json_property_visitor json_helpers.reference ga la
          (.object_property (lit "o") 42))).out =
      lit "\x7b \"name\": \"o\", \"kind\": \"ObjectProperty\", \"actor\": 42 \x7d" ∧
    (json_writer.init.run json_helpers.reference
        (json_property_visitor json_helpers.reference ga la
          (.object_array_property (lit "a") [3, -1, 0]))).out =
      lit ("\x7b \n  \"name\": \"a\", \n  \"kind\": \"ObjectArrayProperty\", " ++
        "\n  \"actors\": [ 3, -1, 0 ] \n\x7d") := by
  refine ⟨visitor_ignores_tables h ga la ga' la' p, ?_, ?_, ?_, ?_, ?_, ?_, ?_,
    decimal_value_int_text, ?_, ?_⟩
  · rw [visitor_ignores_tables h ga la ga' la' p]
  · simp [json_property_visitor, write_common, property.name, property.kind]
  · simp [json_property_visitor, write_common, property.name, property.kind]
  · intro o
    cases o <;> rfl
  · intro e o
    cases o <;> rfl
  · simp [json_property_visitor, write_common, property.name, property.kind,
      json_writer.run, json_writer.call, json_writer.write_int, json_writer.write_key,
      json_writer.end_item, json_writer.end_object, json_writer.indent, json_writer.put,
      json_writer.write_string, json_writer.begin_object]
    rfl
  · exact raw_ints_text h _ e es rfl rfl
  · rw [visitor_ignores_tables json_helpers.reference ga la [] []]
    decide
  · rw [visitor_ignores_tables json_helpers.reference ga la [] []]
    decide

/-! ## C18: one JSON object per property -/

theorem raw_ints_open_nothing (key : List uchar) (elements : List Int) :
    (elements.map (fun e => json_call.write_raw_int e true)).countP
        json_call.is_begin_object = 0 ∧
    (elements.map (fun e => json_call.write_raw_int e true)).filterMap
        (json_call.string_of_key key) = [] := by
  induction elements with
  | nil => simp
  | cons e es ih =>
    simp [List.countP_cons, json_call.is_begin_object, json_call.string_of_key, ih.1, ih.2]

theorem raw_floats_open_nothing (key : List uchar) (elements : List Nat) :
    (elements.map (fun e => json_call.write_raw_float e true)).countP
        json_call.is_begin_object = 0 ∧
    (elements.map (fun e => json_call.write_raw_float e true)).filterMap
        (json_call.string_of_key key) = [] := by
  induction elements with
  | nil => simp
  | cons e es ih =>
    simp [List.countP_cons, json_call.is_begin_object, json_call.string_of_key, ih.1, ih.2]

mutual

theorem visitor_objects (h : json_helpers) (ga la : actor_table) :
    ∀ p : property,
      (json_property_visitor h ga la p).countP json_call.is_begin_object = p.shown.length ∧
      (json_property_visitor h ga la p).filterMap (json_call.string_of_key (lit "name")) =
        p.shown.map Prod.fst ∧
      (json_property_visitor h ga la p).filterMap (json_call.string_of_key (lit "kind")) =
        p.shown.map (fun x => h.kind_string x.2)
  | .int_property _ _ => by
    simp +decide [json_property_visitor, write_common, property.name, property.kind,
      property.shown, List.countP_cons, json_call.is_begin_object, json_call.string_of_key]
  | .float_property _ _ => by
    simp +decide [json_property_visitor, write_common, property.name, property.kind,
      property.shown, List.countP_cons, json_call.is_begin_object, json_call.string_of_key]
  | .bool_property _ _ => by
    simp +decide [json_property_visitor, write_common, property.name, property.kind,
      property.shown, List.countP_cons, json_call.is_begin_object, json_call.string_of_key]
  | .string_property _ _ => by
    simp +decide [json_property_visitor, write_common, property.name, property.kind,
      property.shown, List.countP_cons, json_call.is_begin_object, json_call.string_of_key]
  | .object_property _ _ => by
    simp +decide [json_property_visitor, write_common, property.name, property.kind,
      property.shown, List.countP_cons, json_call.is_begin_object, json_call.string_of_key]
  | .enum_property _ _ _ _ => by
    simp +decide [json_property_visitor, write_common, property.name, property.kind,
      property.shown, List.countP_cons, json_call.is_begin_object, json_call.string_of_key]
  | .struct_property _ _ _ native_data_length properties => by
    have ih := visit_each_objects h ga la properties
    by_cases hn : native_data_length > 0
    · simp +decide [json_property_visitor, write_common, property.name, property.kind,
        property.shown, List.countP_cons, json_call.is_begin_object,
        json_call.string_of_key, hn]
    · simp +decide [json_property_visitor, write_common, property.name, property.kind,
        property.shown, List.countP_cons, List.countP_append, json_call.is_begin_object,
        json_call.string_of_key, hn, ih.1, ih.2.1, ih.2.2]
  | .array_property _ _ _ _ => by
    simp +decide [json_property_visitor, write_common, property.name, property.kind,
      property.shown, List.countP_cons, json_call.is_begin_object, json_call.string_of_key]
  | .object_array_property _ elements => by
    have h1 := raw_ints_open_nothing (lit "name") elements
    have h2 := raw_ints_open_nothing (lit "kind") elements
    simp +decide [json_property_visitor, write_common, property.name, property.kind,
      property.shown, List.countP_cons, List.countP_append, json_call.is_begin_object,
      json_call.string_of_key, h1.1, h1.2, h2.2]
  | .number_array_property _ elements => by
    have h1 := raw_ints_open_nothing (lit "name") elements
    have h2 := raw_ints_open_nothing (lit "kind") elements
    simp +decide [json_property_visitor, write_common, property.name, property.kind,
      property.shown, List.countP_cons, List.countP_append, json_call.is_begin_object,
      json_call.string_of_key, h1.1, h1.2, h2.2]
  | .struct_array_property _ elements => by
    have ih := visit_each_list_objects h ga la elements
    simp +decide [json_property_visitor, write_common, property.name, property.kind,
      property.shown, List.countP_cons, List.countP_append, json_call.is_begin_object,
      json_call.string_of_key, ih.1, ih.2.1, ih.2.2]
  | .static_array_property _ properties => by
    have ih := visit_each_objects h ga la properties
    simp +decide [json_property_visitor, write_common, property.name, property.kind,
      property.shown, List.countP_cons, List.countP_append, json_call.is_begin_object,
      json_call.string_of_key, ih.1, ih.2.1, ih.2.2]

theorem visit_each_objects (h : json_helpers) (ga la : actor_table) :
    ∀ ps : List property,
      (visit_each h ga la ps).countP json_call.is_begin_object = (shown_each ps).length ∧
      (visit_each h ga la ps).filterMap (json_call.string_of_key (lit "name")) =
        (shown_each ps).map Prod.fst ∧
      (visit_each h ga la ps).filterMap (json_call.string_of_key (lit "kind")) =
        (shown_each ps).map (fun x => h.kind_string x.2)
  | [] => by simp [visit_each, shown_each]
  | p :: ps => by
    have ih1 := visitor_objects h ga la p
    have ih2 := visit_each_objects h ga la ps
    simp [visit_each, shown_each, List.countP_append, ih1.1, ih1.2.1, ih1.2.2, ih2.1, ih2.2.1,
      ih2.2.2]

theorem visit_each_list_objects (h : json_helpers) (ga la : actor_table) :
    ∀ ls : List (List property),
      (visit_each_list h ga la ls).countP json_call.is_begin_object =
        (shown_each_list ls).length ∧
      (visit_each_list h ga la ls).filterMap (json_call.string_of_key (lit "name")) =
        (shown_each_list ls).map Prod.fst ∧
      (visit_each_list h ga la ls).filterMap (json_call.string_of_key (lit "kind")) =
        (shown_each_list ls).map (fun x => h.kind_string x.2)
  | [] => by simp [visit_each_list, shown_each_list]
  | l :: ls => by
    have ih1 := visit_each_objects h ga la l
    have ih2 := visit_each_list_objects h ga la ls
    simp +decide [visit_each_list, shown_each_list, List.countP_append, List.countP_cons,
      json_call.is_begin_object, json_call.string_of_key, ih1.1, ih1.2.1, ih1.2.2, ih2.1,
      ih2.2.1, ih2.2.2]

end

mutual

theorem shown_eq_every : ∀ p : property, p.exclusive = true → p.shown = p.every
  | .int_property _ _ => by simp [property.shown, property.every]
  | .float_property _ _ => by simp [property.shown, property.every]
  | .bool_property _ _ => by simp [property.shown, property.every]
  | .string_property _ _ => by simp [property.shown, property.every]
  | .object_property _ _ => by simp [property.shown, property.every]
  | .enum_property _ _ _ _ => by simp [property.shown, property.every]
  | .struct_property _ _ _ native_data_length properties => by
    intro hx
    simp only [property.exclusive, Bool.and_eq_true, Bool.or_eq_true, decide_eq_true_eq,
      List.isEmpty_iff] at hx
    have ih := shown_each_eq_every properties hx.2
    by_cases hn : native_data_length > 0
    · have he : properties = [] := by
        rcases hx.1 with e | e
        · omega
        · exact e
      simp [property.shown, property.every, hn, he, every_each]
    · simp [property.shown, property.every, hn, ih]
  | .array_property _ _ _ _ => by simp [property.shown, property.every]
  | .object_array_property _ _ => by simp [property.shown, property.every]
  | .number_array_property _ _ => by simp [property.shown, property.every]
  | .struct_array_property _ elements => by
    intro hx
    simp only [property.exclusive] at hx
    simp [property.shown, property.every, shown_each_list_eq_every elements hx]
  | .static_array_property _ properties => by
    intro hx
    simp only [property.exclusive] at hx
    simp [property.shown, property.every, shown_each_eq_every properties hx]

theorem shown_each_eq_every :
    ∀ ps : List property, exclusive_each ps = true → shown_each ps = every_each ps
  | [] => by simp [shown_each, every_each]
  | p :: ps => by
    intro hx
    simp only [exclusive_each, Bool.and_eq_true] at hx
    simp [shown_each, every_each, shown_eq_every p hx.1, shown_each_eq_every ps hx.2]

theorem shown_each_list_eq_every :
    ∀ ls : List (List property),
      exclusive_each_list ls = true → shown_each_list ls = every_each_list ls
  | [] => by simp [shown_each_list, every_each_list]
  | l :: ls => by
    intro hx
    simp only [exclusive_each_list, Bool.and_eq_true] at hx
    simp [shown_each_list, every_each_list, shown_each_eq_every l hx.1,
      shown_each_list_eq_every ls hx.2]

end

theorem objects_of_not_begin (c : json_call) (rest : List json_call)
    (hc : c.is_begin_object = false) :
    json_call.objects (c :: rest) = json_call.objects rest := by
  cases c <;> first | rfl | simp [json_call.is_begin_object] at hc

theorem objects_of_header (o o1 o2 : Bool) (nm kd : List uchar) (rest : List json_call) :
    json_call.objects (json_call.begin_object o :: json_call.write_string (lit "name") nm o1 ::
        json_call.write_string (lit "kind") kd o2 :: rest) =
      (nm, kd) :: json_call.objects rest := by
  have e : json_call.header (json_call.begin_object o ::
      json_call.write_string (lit "name") nm o1 ::
        json_call.write_string (lit "kind") kd o2 :: rest) = some (nm, kd) := by
    simp [json_call.header]
  rw [json_call.objects, e]
  simp only
  rw [objects_of_not_begin (json_call.write_string (lit "name") nm o1) _ rfl,
    objects_of_not_begin (json_call.write_string (lit "kind") kd o2) _ rfl]

theorem objects_of_raw_ints (elements : List Int) (tail : List json_call) :
    json_call.objects (elements.map (fun e => json_call.write_raw_int e true) ++ tail) =
      json_call.objects tail := by
  induction elements with
  | nil => rfl
  | cons e es ih =>
    simp only [List.map_cons, List.cons_append]
    rw [objects_of_not_begin (json_call.write_raw_int e true) _ rfl, ih]

theorem objects_of_raw_floats (elements : List Nat) (tail : List json_call) :
    json_call.objects (elements.map (fun e => json_call.write_raw_float e true) ++ tail) =
      json_call.objects tail := by
  induction elements with
  | nil => rfl
  | cons e es ih =>
    simp only [List.map_cons, List.cons_append]
    rw [objects_of_not_begin (json_call.write_raw_float e true) _ rfl, ih]

theorem raw_ints_close_nothing (elements : List Int) :
    (elements.map (fun e => json_call.write_raw_int e true)).countP
        json_call.is_end_object = 0 := by
  induction elements with
  | nil => simp
  | cons e es ih => simp [List.countP_cons, json_call.is_end_object, ih]

theorem raw_floats_close_nothing (elements : List Nat) :
    (elements.map (fun e => json_call.write_raw_float e true)).countP
        json_call.is_end_object = 0 := by
  induction elements with
  | nil => simp
  | cons e es ih => simp [List.countP_cons, json_call.is_end_object, ih]

mutual

theorem visitor_opens (h : json_helpers) (ga la : actor_table) :
    ∀ (p : property) (tail : List json_call),
      json_call.objects (json_property_visitor h ga la p ++ tail) =
        p.shown.map (fun x => (x.1, h.kind_string x.2)) ++ json_call.objects tail
  | .int_property _ _, tail => by
    simp [json_property_visitor, write_common, property.name, property.kind,
      property.shown, objects_of_header, objects_of_not_begin, json_call.is_begin_object]
  | .float_property _ _, tail => by
    simp [json_property_visitor, write_common, property.name, property.kind,
      property.shown, objects_of_header, objects_of_not_begin, json_call.is_begin_object]
  | .bool_property _ _, tail => by
    simp [json_property_visitor, write_common, property.name, property.kind,
      property.shown, objects_of_header, objects_of_not_begin, json_call.is_begin_object]
  | .string_property _ _, tail => by
    simp [json_property_visitor, write_common, property.name, property.kind,
      property.shown, objects_of_header, objects_of_not_begin, json_call.is_begin_object]
  | .object_property _ _, tail => by
    simp [json_property_visitor, write_common, property.name, property.kind,
      property.shown, objects_of_header, objects_of_not_begin, json_call.is_begin_object]
  | .enum_property _ _ _ _, tail => by
    simp [json_property_visitor, write_common, property.name, property.kind,
      property.shown, objects_of_header, objects_of_not_begin, json_call.is_begin_object]
  | .struct_property _ _ _ native_data_length properties, tail => by
    have ih := visit_each_opens h ga la properties
    by_cases hn : native_data_length > 0
    · simp [json_property_visitor, write_common, property.name, property.kind,
        property.shown, objects_of_header, objects_of_not_begin, json_call.is_begin_object, hn]
    · simp [json_property_visitor, write_common, property.name, property.kind,
        property.shown, objects_of_header, objects_of_not_begin, json_call.is_begin_object,
        hn, ih]
  | .array_property _ _ _ _, tail => by
    simp [json_property_visitor, write_common, property.name, property.kind,
      property.shown, objects_of_header, objects_of_not_begin, json_call.is_begin_object]
  | .object_array_property _ elements, tail => by
    simp [json_property_visitor, write_common, property.name, property.kind,
      property.shown, objects_of_header, objects_of_not_begin, json_call.is_begin_object,
      objects_of_raw_ints]
  | .number_array_property _ elements, tail => by
    simp [json_property_visitor, write_common, property.name, property.kind,
      property.shown, objects_of_header, objects_of_not_begin, json_call.is_begin_object,
      objects_of_raw_ints]
  | .struct_array_property _ elements, tail => by
    have ih := visit_each_list_opens h ga la elements
    simp [json_property_visitor, write_common, property.name, property.kind,
      property.shown, objects_of_header, objects_of_not_begin, json_call.is_begin_object, ih]
  | .static_array_property _ properties, tail => by
    have ih := visit_each_opens h ga la properties
    simp [json_property_visitor, write_common, property.name, property.kind,
      property.shown, objects_of_header, objects_of_not_begin, json_call.is_begin_object, ih]

theorem visit_each_opens (h : json_helpers) (ga la : actor_table) :
    ∀ (ps : List property) (tail : List json_call),
      json_call.objects (visit_each h ga la ps ++ tail) =
        (shown_each ps).map (fun x => (x.1, h.kind_string x.2)) ++ json_call.objects tail
  | [], tail => by simp [visit_each, shown_each]
  | p :: ps, tail => by
    have ih1 := visitor_opens h ga la p
    have ih2 := visit_each_opens h ga la ps
    simp [visit_each, shown_each, ih1, ih2]

theorem visit_each_list_opens (h : json_helpers) (ga la : actor_table) :
    ∀ (ls : List (List property)) (tail : List json_call),
      json_call.objects (visit_each_list h ga la ls ++ tail) =
        (shown_each_list ls).map (fun x => (x.1, h.kind_string x.2)) ++
          json_call.objects tail
  | [], tail => by simp [visit_each_list, shown_each_list]
  | l :: ls, tail => by
    have ih1 := visit_each_opens h ga la l
    have ih2 := visit_each_list_opens h ga la ls
    simp [visit_each_list, shown_each_list, objects_of_not_begin, json_call.is_begin_object,
      ih1, ih2]

end

mutual

theorem visitor_closes (h : json_helpers) (ga la : actor_table) :
    ∀ p : property,
      (json_property_visitor h ga la p).countP json_call.is_end_object = p.shown.length
  | .int_property _ _ => by
    simp +decide [json_property_visitor, write_common, property.shown, List.countP_cons,
      json_call.is_end_object]
  | .float_property _ _ => by
    simp +decide [json_property_visitor, write_common, property.shown, List.countP_cons,
      json_call.is_end_object]
  | .bool_property _ _ => by
    simp +decide [json_property_visitor, write_common, property.shown, List.countP_cons,
      json_call.is_end_object]
  | .string_property _ _ => by
    simp +decide [json_property_visitor, write_common, property.shown, List.countP_cons,
      json_call.is_end_object]
  | .object_property _ _ => by
    simp +decide [json_property_visitor, write_common, property.shown, List.countP_cons,
      json_call.is_end_object]
  | .enum_property _ _ _ _ => by
    simp +decide [json_property_visitor, write_common, property.shown, List.countP_cons,
      json_call.is_end_object]
  | .struct_property _ _ _ native_data_length properties => by
    have ih := visit_each_closes h ga la properties
    by_cases hn : native_data_length > 0
    · simp +decide [json_property_visitor, write_common, property.shown, List.countP_cons,
        json_call.is_end_object, hn]
    · simp +decide [json_property_visitor, write_common, property.shown, List.countP_cons,
        List.countP_append, json_call.is_end_object, hn, ih]
  | .array_property _ _ _ _ => by
    simp +decide [json_property_visitor, write_common, property.shown, List.countP_cons,
      json_call.is_end_object]
  | .object_array_property _ elements => by
    have h1 := raw_ints_close_nothing elements
    simp +decide [json_property_visitor, write_common, property.shown, List.countP_cons,
      List.countP_append, json_call.is_end_object, h1]
  | .number_array_property _ elements => by
    have h1 := raw_ints_close_nothing elements
    simp +decide [json_property_visitor, write_common, property.shown, List.countP_cons,
      List.countP_append, json_call.is_end_object, h1]
  | .struct_array_property _ elements => by
    have ih := visit_each_list_closes h ga la elements
    simp +decide [json_property_visitor, write_common, property.shown, List.countP_cons,
      List.countP_append, json_call.is_end_object, ih]
  | .static_array_property _ properties => by
    have ih := visit_each_closes h ga la properties
    simp +decide [json_property_visitor, write_common, property.shown, List.countP_cons,
      List.countP_append, json_call.is_end_object, ih]

theorem visit_each_closes (h : json_helpers) (ga la : actor_table) :
    ∀ ps : List property,
      (visit_each h ga la ps).countP json_call.is_end_object = (shown_each ps).length
  | [] => by simp [visit_each, shown_each]
  | p :: ps => by
    have ih1 := visitor_closes h ga la p
    have ih2 := visit_each_closes h ga la ps
    simp [visit_each, shown_each, List.countP_append, ih1, ih2]

theorem visit_each_list_closes (h : json_helpers) (ga la : actor_table) :
    ∀ ls : List (List property),
      (visit_each_list h ga la ls).countP json_call.is_end_object =
        (shown_each_list ls).length
  | [] => by simp [visit_each_list, shown_each_list]
  | l :: ls => by
    have ih1 := visit_each_closes h ga la l
    have ih2 := visit_each_list_closes h ga la ls
    simp +decide [visit_each_list, shown_each_list, List.countP_append, List.countP_cons,
      json_call.is_end_object, ih1, ih2]

end

theorem shown_head (p : property) : p.shown.head? = some (p.name, p.kind) := by
  cases p <;> simp [property.shown, property.name, property.kind]

theorem every_head (p : property) : p.every.head? = some (p.name, p.kind) := by
  cases p <;> simp [property.every, property.name, property.kind]

theorem checkpoint_opens (h : json_helpers) (chk : checkpoint) (ga la : actor_table) :
    json_call.objects (checkpoint_to_json h chk ga la) =
      (shown_each chk.properties).map (fun x => (x.1, h.kind_string x.2)) := by
  have e : json_call.header (json_call.begin_object false ::
      json_call.write_string (lit "name") chk.name false ::
      json_call.write_string (lit "instance_name") chk.instance_name false ::
      (json_call.write_string (lit "class_name") chk.class_name false ::
        json_call.write_key (lit "vector") :: json_call.begin_array true ::
        (chk.vector.map (fun i => json_call.write_raw_float i true) ++
          (json_call.end_array :: json_call.write_key (lit "rotator") ::
            json_call.begin_array true ::
            (chk.rotator.map (fun i => json_call.write_raw_int i true) ++
              (json_call.end_array :: json_call.write_key (lit "properties") ::
                json_call.begin_array false ::
                (visit_each h ga la chk.properties ++
                  [json_call.end_array,
                    json_call.write_int (lit "template_index") chk.template_index false,
                    json_call.write_int (lit "pad_size") chk.pad_size false,
                    json_call.end_object]))))))) = none := by
    simp +decide [json_call.header]
  simp only [checkpoint_to_json, List.cons_append, List.append_assoc, List.nil_append]
  rw [json_call.objects, e]
  simp [objects_of_not_begin, json_call.is_begin_object, objects_of_raw_floats,
    objects_of_raw_ints, visit_each_opens]
  rfl

/-- C18: the visitor is a total function of the tree, so the traversal
terminates. On a tree in which no struct has both native data and nested
properties (the invariant of the spec on structs) it emits exactly one JSON
object per property of the tree: the calls that open an object and the calls
that close one are as many as the properties; the objects opened, each with
the keys `name` and `kind` first, are the properties of the tree in
pre-order, children in stored order, the tree's own property first,
whichever of the twelve kinds it has, and then every property nested under
a struct, a struct-array element or a static array. `checkpoint_to_json`
opens one more object, for the checkpoint, and visits its properties in the
same way. -/
theorem one_object_per_property (h : json_helpers) (ga la : actor_table) (p : property)
    (chk : checkpoint) (hx : p.exclusive = true) :
    ((json_property_visitor h ga la p).countP json_call.is_begin_object = p.every.length ∧
      (json_property_visitor h ga la p).countP json_call.is_end_object = p.every.length ∧
      json_call.objects (json_property_visitor h ga la p) =
        p.every.map (fun x => (x.1, h.kind_string x.2)) ∧
      (json_property_visitor h ga la p).filterMap (json_call.string_of_key (lit "name")) =
        p.every.map Prod.fst ∧
      (json_property_visitor h ga la p).filterMap (json_call.string_of_key (lit "kind")) =
        p.every.map (fun x => h.kind_string x.2)) ∧
    p.every.head? = some (p.name, p.kind) ∧
    (exclusive_each chk.properties = true →
      (checkpoint_to_json h chk ga la).countP json_call.is_begin_object =
        1 + (every_each chk.properties).length ∧
      (checkpoint_to_json h chk ga la).countP json_call.is_end_object =
        1 + (every_each chk.properties).length ∧
      json_call.objects (checkpoint_to_json h chk ga la) =
        (every_each chk.properties).map (fun x => (x.1, h.kind_string x.2)) ∧
      (checkpoint_to_json h chk ga la).filterMap (json_call.string_of_key (lit "name")) =
        chk.name :: (every_each chk.properties).map Prod.fst) := by
  have hv := visitor_objects h ga la p
  have hc := visitor_closes h ga la p
  have ho := visitor_opens h ga la p []
  rw [shown_eq_every p hx] at hv hc ho
  refine ⟨⟨hv.1, hc, ?_, hv.2.1, hv.2.2⟩, every_head p, ?_⟩
  · simpa [json_call.objects] using ho
  · intro hchk
    have ih := visit_each_objects h ga la chk.properties
    have ihc := visit_each_closes h ga la chk.properties
    have iho := checkpoint_opens h chk ga la
    rw [shown_each_eq_every chk.properties hchk] at ih ihc iho
    have h1 := raw_floats_open_nothing (lit "name") chk.vector
    have h2 := raw_ints_open_nothing (lit "name") chk.rotator
    have h3 := raw_floats_close_nothing chk.vector
    have h4 := raw_ints_close_nothing chk.rotator
    refine ⟨?_, ?_, iho, ?_⟩
    · simp +decide [checkpoint_to_json, List.countP_cons, List.countP_append,
        json_call.is_begin_object, ih.1, h1.1, h2.1]
      omega
    · simp +decide [checkpoint_to_json, List.countP_cons, List.countP_append,
        json_call.is_end_object, ihc, h3, h4]
      omega
    · simp +decide [checkpoint_to_json, json_call.string_of_key, ih.2.1, h1.2, h2.2]

/-- C18 (witness): a struct without native data holding an integer and a
static array of one boolean: four properties, four objects opened and
closed, in pre-order. -/
theorem one_object_per_property_witness :
    (json_property_visitor json_helpers.reference [] []
        (.struct_property (lit "S") (lit "T") [] 0
          [.int_property (lit "x") 1,
            .static_array_property (lit "a") [.bool_property (lit "b") true]])).countP
      json_call.is_begin_object = 4 ∧
    (json_property_visitor json_helpers.reference [] []
        (.struct_property (lit "S") (lit "T") [] 0
          [.int_property (lit "x") 1,
            .static_array_property (lit "a") [.bool_property (lit "b") true]])).countP
      json_call.is_end_object = 4 ∧
    json_call.objects (json_property_visitor json_helpers.reference [] []
        (.struct_property (lit "S") (lit "T") [] 0
          [.int_property (lit "x") 1,
            .static_array_property (lit "a") [.bool_property (lit "b") true]])) =
      [(lit "S", lit "StructProperty"), (lit "x", lit "IntProperty"),
        (lit "a", lit "StaticArrayProperty"), (lit "b", lit "BoolProperty")] :=
  ⟨((one_object_per_property json_helpers.reference [] []
      (.struct_property (lit "S") (lit "T") [] 0
        [.int_property (lit "x") 1,
          .static_array_property (lit "a") [.bool_property (lit "b") true]])
      ⟨[], [], [], [], [], [], 0, 0⟩ (by decide)).1.1).trans (by decide),
    ((one_object_per_property json_helpers.reference [] []
      (.struct_property (lit "S") (lit "T") [] 0
        [.int_property (lit "x") 1,
          .static_array_property (lit "a") [.bool_property (lit "b") true]])
      ⟨[], [], [], [], [], [], 0, 0⟩ (by decide)).1.2.1).trans (by decide),
    ((one_object_per_property json_helpers.reference [] []
      (.struct_property (lit "S") (lit "T") [] 0
        [.int_property (lit "x") 1,
          .static_array_property (lit "a") [.bool_property (lit "b") true]])
      ⟨[], [], [], [], [], [], 0, 0⟩ (by decide)).1.2.2.1).trans (by decide)⟩

/-! ## C21: the cursor after the lenient fallback -/

/-- C21: let the 32-bit integer `n` be read at the cursor. Whenever the
lenient `read_unicode_string` gives up, because the length is out of range
(wide or narrow: the check against `length_` fails) or because the narrow
length does not match the string found, it returns the empty string with
`is_wide = false` and leaves the cursor exactly 4 bytes past where the call
started: the length stays consumed. That is the result and the cursor of a
zero prefix. These are the cases where the strict call throws. -/
theorem lenient_fallback_keeps_length_consumed (u : util) (io io1 : xcom_io) (n : Int)
    (hri : read_int io = outcome.ok n io1) :
    (n < 0 → (io.ptr_ + 4 + to_size_t (wrap32 (-n))) % size_modulus > io.length_ →
      read_unicode_string u false io = outcome.ok ⟨[], false⟩ ⟨io.start_, io.ptr_ + 4⟩) ∧
    (0 < n → (io.ptr_ + 4 + to_size_t n) % size_modulus > io.length_ →
      read_unicode_string u false io = outcome.ok ⟨[], false⟩ ⟨io.start_, io.ptr_ + 4⟩) ∧
    (0 < n → ¬ (io.ptr_ + 4 + to_size_t n) % size_modulus > io.length_ →
      ∀ s, c_string (io.at_ptr.drop 4) = some s → (s.length : Int) ≠ n - 1 →
        read_unicode_string u false io = outcome.ok ⟨[], false⟩ ⟨io.start_, io.ptr_ + 4⟩) ∧
    (n = 0 →
      read_unicode_string u false io = outcome.ok ⟨[], false⟩ ⟨io.start_, io.ptr_ + 4⟩) ∧
    (∀ off, read_unicode_string u true io = outcome.format_exception off →
      off = io.ptr_ + 4 ∧
        read_unicode_string u false io = outcome.ok ⟨[], false⟩ ⟨io.start_, io.ptr_ + 4⟩) := by
  obtain ⟨-, -, hat1, -⟩ := at_ptr_after_read_int io n io1 hri
  obtain ⟨b0, b1, b2, b3, rest, -, -, hio⟩ := (read_int_eq_ok_iff io n io1).mp hri
  have hio1 : io1 = ⟨io.start_, io.ptr_ + 4⟩ := hio
  have hoff : io1.offset = io.ptr_ + 4 := by rw [hio1]; rfl
  have hlen : io1.length_ = io.length_ := by rw [hio1]; rfl
  refine ⟨?_, ?_, ?_, ?_, ?_⟩
  · intro hneg hc
    unfold read_unicode_string
    rw [hri]
    simp only
    rw [if_neg (by omega), if_pos hneg, hoff, hlen, if_pos hc, ← hio1]
    rfl
  · intro hpos hc
    unfold read_unicode_string
    rw [hri]
    simp only
    rw [if_neg (by omega), if_neg (by omega), hoff, hlen, if_pos hc, ← hio1]
    rfl
  · intro hpos hc s hs hne
    rw [← hat1] at hs
    unfold read_unicode_string
    rw [hri]
    simp only
    rw [if_neg (by omega), if_neg (by omega), hoff, hlen, if_neg hc, hs]
    simp only
    rw [if_pos hne, ← hio1]
    rfl
  · intro h0
    unfold read_unicode_string
    rw [hri]
    simp only
    rw [if_pos h0, ← hio1]
  · intro off
    unfold read_unicode_string
    rw [hri]
    simp only
    rw [hoff, hlen, ← hio1]
    by_cases h0 : n = 0
    · simp [h0]
    by_cases hneg : n < 0
    · simp only [h0, hneg, if_true, if_false]
      by_cases hc : (io.ptr_ + 4 + to_size_t (wrap32 (-n))) % size_modulus > io.length_
      · simp only [hc, if_true, Bool.false_eq_true, if_false, outcome.format_exception.injEq]
        intro e
        exact ⟨e.symm, trivial⟩
      · simp only [hc, if_false]
        split_ifs
        · simp
        · cases c_u16string io1.at_ptr <;> simp
    · simp only [h0, hneg, if_false]
      by_cases hc : (io.ptr_ + 4 + to_size_t n) % size_modulus > io.length_
      · simp only [hc, if_true, Bool.false_eq_true, if_false, outcome.format_exception.injEq]
        intro e
        exact ⟨e.symm, trivial⟩
      · simp only [hc, if_false]
        cases c_string io1.at_ptr with
        | none => simp
        | some s =>
          simp only
          by_cases hl : (s.length : Int) ≠ n - 1
          · rw [if_pos hl, if_pos hl]
            simp only [if_true, Bool.false_eq_true, if_false, outcome.format_exception.injEq]
            intro e
            exact ⟨e.symm, trivial⟩
          · rw [if_neg hl]
            simp

/-- C21 (witness): the prefix 5 with one byte behind it, the prefix `-5` with
two bytes behind it and the prefix 3 before the string `"A"` all end as the
empty string with the cursor at 4, as the zero prefix does. -/
theorem lenient_fallback_keeps_length_consumed_witness :
    read_unicode_string util.reference false ⟨[0xFB, 0xFF, 0xFF, 0xFF, 0x41, 0], 0⟩ =
      outcome.ok ⟨[], false⟩ ⟨[0xFB, 0xFF, 0xFF, 0xFF, 0x41, 0], 0 + 4⟩ ∧
    read_unicode_string util.reference false ⟨[5, 0, 0, 0, 0x41], 0⟩ =
      outcome.ok ⟨[], false⟩ ⟨[5, 0, 0, 0, 0x41], 0 + 4⟩ ∧
    read_unicode_string util.reference false ⟨[3, 0, 0, 0, 0x41, 0, 0x42], 0⟩ =
      outcome.ok ⟨[], false⟩ ⟨[3, 0, 0, 0, 0x41, 0, 0x42], 0 + 4⟩ ∧
    read_unicode_string util.reference false ⟨[0, 0, 0, 0, 0x41], 0⟩ =
      outcome.ok ⟨[], false⟩ ⟨[0, 0, 0, 0, 0x41], 0 + 4⟩ ∧
    (4 = 0 + 4 ∧
      read_unicode_string util.reference false ⟨[5, 0, 0, 0, 0x41], 0⟩ =
        outcome.ok ⟨[], false⟩ ⟨[5, 0, 0, 0, 0x41], 0 + 4⟩) :=
  ⟨(lenient_fallback_keeps_length_consumed util.reference
      ⟨[0xFB, 0xFF, 0xFF, 0xFF, 0x41, 0], 0⟩ ⟨[0xFB, 0xFF, 0xFF, 0xFF, 0x41, 0], 4⟩ (-5)
      (by decide)).1 (by decide) (by decide),
    (lenient_fallback_keeps_length_consumed util.reference ⟨[5, 0, 0, 0, 0x41], 0⟩
      ⟨[5, 0, 0, 0, 0x41], 4⟩ 5 (by decide)).2.1 (by decide) (by decide),
    (lenient_fallback_keeps_length_consumed util.reference ⟨[3, 0, 0, 0, 0x41, 0, 0x42], 0⟩
      ⟨[3, 0, 0, 0, 0x41, 0, 0x42], 4⟩ 3 (by decide)).2.2.1 (by decide) (by decide) [0x41]
      (by decide) (by decide),
    (lenient_fallback_keeps_length_consumed util.reference ⟨[0, 0, 0, 0, 0x41], 0⟩
      ⟨[0, 0, 0, 0, 0x41], 4⟩ 0 (by decide)).2.2.2.1 rfl,
    (lenient_fallback_keeps_length_consumed util.reference ⟨[5, 0, 0, 0, 0x41], 0⟩
      ⟨[5, 0, 0, 0, 0x41], 4⟩ 5 (by decide)).2.2.2.2 4 (by decide)⟩

end xcom
